import Mathlib

/-!
Verification of the project-descriptor patcher in add_files_to_xcode.py.

The script reads an Xcode project descriptor as text, generates a pair of
24-character uppercase-hex identifiers for each file path in a fixed list,
builds one line of text per file for each of four target sections, and
performs four regular-expression substitutions on the document text.  The
patterns are either a literal end-of-section marker (the inserted lines go
in front of the whole match) or a literal object header followed by a lazy
gap and a literal list opener (the inserted lines go after the whole
match).  Python re.sub with the default count replaces every
non-overlapping occurrence, scanning left to right, and the replacement
text is not rescanned.

Embedding conventions: the document is a List Char; file IO is factored
out, so the transformation maps the document text and the list of file
paths to the new text plus the list of printed lines; the ambient
randomness of uuid.uuid4() is an oracle gen : Nat -> List Nat giving the
16 bytes of the value drawn at the k-th call to generate_id.  Replacement
strings built from the fixed file list contain no backslash, so re.sub
treats them literally, as the embedding does.
-/

/-- The characters of a string literal, as the document alphabet. -/
def chars (s : String) : List Char := s.data

/-- Uppercase hexadecimal digit for a value below 16, as Python format with X. -/
def hexDigitU (n : Nat) : Char := if n < 10 then Char.ofNat (48 + n) else Char.ofNat (55 + n)

/-- Digits of x in base 16, most significant first, with explicit fuel so the
definition is structural and kernel-reducible.  Python format(x, "X"). -/
def toHexUpperAux : Nat → Nat → List Char
  | 0, _ => []
  | n + 1, x =>
      if x < 16 then [hexDigitU x] else toHexUpperAux n (x / 16) ++ [hexDigitU (x % 16)]

/-- Uppercase hexadecimal rendering of a natural number, Python format(x, "X"). -/
def toHexUpper (x : Nat) : List Char := toHexUpperAux (x + 1) x

/-- Python format(x, "02X"): uppercase hex, left-padded with zeros to width 2. -/
def format02X (x : Nat) : List Char :=
  let h := toHexUpper x
  if h.length < 2 then List.replicate (2 - h.length) '0' ++ h else h

/-- generate_id of the script: take the first 12 of the 16 uuid bytes and
render each as two uppercase hex digits. -/
def generate_id (bytes : List Nat) : List Char :=
  (bytes.take 12).flatMap format02X

/-- Split a character list on a separator character, Python str.split. -/
def splitOnChar (c : Char) : List Char → List (List Char)
  | [] => [[]]
  | a :: rest =>
    match splitOnChar c rest with
    | [] => [[a]]
    | s :: ss => if a = c then [] :: s :: ss else (a :: s) :: ss

/-- Python filepath.split("/")[-1]: the final path segment. -/
def filename (p : List Char) : List Char := (splitOnChar '/' p).getLastD []

/-- Python dict assignment d[k] = v on an insertion-ordered dictionary:
update the value in place if the key exists, else append the binding. -/
def dictSet (d : List (List Char × List Char)) (k v : List Char) :
    List (List Char × List Char) :=
  if d.any (fun kv => kv.1 = k) then
    d.map (fun kv => if kv.1 = k then (k, v) else kv)
  else d ++ [(k, v)]

/-- Python dict lookup d[k]; the script only looks up keys it has set. -/
def dictGet (d : List (List Char × List Char)) (k : List Char) : List Char :=
  ((d.find? (fun kv => kv.1 = k)).map (fun kv => kv.2)).getD []

/-- The identifier-generation loop: for each path, one id for the
file-reference record then one for the build-file record, drawing the
2i-th and the 2i+1-st uuid values. -/
def buildDictsGo (gen : Nat → List Nat) :
    List (List Char) → Nat → List (List Char × List Char) → List (List Char × List Char) →
    List (List Char × List Char) × List (List Char × List Char)
  | [], _, fr, bf => (fr, bf)
  | p :: ps, k, fr, bf =>
      buildDictsGo gen ps (k + 2)
        (dictSet fr p (generate_id (gen k)))
        (dictSet bf p (generate_id (gen (k + 1))))

/-- The two dictionaries file_refs and build_files of the script. -/
def buildDicts (files : List (List Char)) (gen : Nat → List Nat) :
    List (List Char × List Char) × List (List Char × List Char) :=
  buildDictsGo gen files 0 [] []

/-- file_refs dictionary. -/
def fileRefsOf (files : List (List Char)) (gen : Nat → List Nat) :
    List (List Char × List Char) := (buildDicts files gen).1

/-- build_files dictionary. -/
def buildFilesOf (files : List (List Char)) (gen : Nat → List Nat) :
    List (List Char × List Char) := (buildDicts files gen).2

/-- Fixed fragments of the four entry templates, taken verbatim from the
f-strings of the script (with braces written via escapes). -/
def tab2 : List Char := chars "\t\t"

/-- Opening of the inline comments in the entry templates. -/
def cmtOpen : List Char := chars " /* "

/-- Middle fragment of a PBXBuildFile entry. -/
def bfMid : List Char := chars " in Sources */ = \x7bisa = PBXBuildFile; fileRef = "

/-- Closing fragment of a PBXBuildFile entry. -/
def bfEnd : List Char := chars " */; \x7d;"

/-- Middle fragment of a PBXFileReference entry. -/
def frMid : List Char :=
  chars " */ = \x7bisa = PBXFileReference; lastKnownFileType = sourcecode.swift; path = \""

/-- Closing fragment of a PBXFileReference entry. -/
def frEnd : List Char := chars "\"; sourceTree = \"<group>\"; \x7d;"

/-- Leading newline plus indentation of the group and build-phase entries. -/
def nlTabs : List Char := chars "\n\t\t\t\t"

/-- Closing fragment of a group-children entry. -/
def gEnd : List Char := chars " */,"

/-- Closing fragment of a Sources-build-phase entry. -/
def sEnd : List Char := chars " in Sources */,"

/-- One line of the PBXBuildFile section for a path and its two ids. -/
def buildFileEntry (fp bid fid : List Char) : List Char :=
  tab2 ++ bid ++ cmtOpen ++ filename fp ++ bfMid ++ fid ++ cmtOpen ++ filename fp ++ bfEnd

/-- One line of the PBXFileReference section for a path and its reference id. -/
def fileRefEntry (fp fid : List Char) : List Char :=
  tab2 ++ fid ++ cmtOpen ++ filename fp ++ frMid ++ fp ++ frEnd

/-- One children-list entry of the main group for a path and its reference id. -/
def groupEntry (fp fid : List Char) : List Char :=
  nlTabs ++ fid ++ cmtOpen ++ filename fp ++ gEnd

/-- One files-list entry of the Sources build phase for a path and its build id. -/
def sourceEntry (fp bid : List Char) : List Char :=
  nlTabs ++ bid ++ cmtOpen ++ filename fp ++ sEnd

/-- Python sep.join. -/
def joinSep (sep : List Char) : List (List Char) → List Char
  | [] => []
  | [e] => e
  | e :: es => e ++ sep ++ joinSep sep es

/-- The newline character used by the section joins. -/
def nlC : List Char := chars "\n"

/-- Scanner for re.sub of a literal pattern pat with replacement ins ++ pat:
at each position, if the (nonempty) pattern starts here, emit the insertion
and the pattern and resume after the pattern without rescanning; otherwise
emit one character.  Fuel bounds the recursion; it is always called with
fuel at least the length of the text. -/
def subBeforeAux (pat ins : List Char) : Nat → List Char → List Char
  | 0, s => s
  | fuel + 1, s =>
    match s with
    | [] => []
    | c :: rest =>
      if pat ≠ [] ∧ pat.isPrefixOf (c :: rest) then
        ins ++ pat ++ subBeforeAux pat ins fuel ((c :: rest).drop pat.length)
      else c :: subBeforeAux pat ins fuel rest

/-- re.sub replacing every occurrence of the literal pattern pat by
ins ++ pat, i.e. inserting ins in front of each occurrence. -/
def subBefore (pat ins s : List Char) : List Char := subBeforeAux pat ins s.length s

/-- First split of s as g ++ pat ++ r with the earliest pattern position,
the lazy search that ends the gap of the two-part patterns. -/
def splitFirst (pat : List Char) : List Char → Option (List Char × List Char)
  | [] => if pat = [] then some ([], []) else none
  | c :: rest =>
    if pat.isPrefixOf (c :: rest) then some ([], (c :: rest).drop pat.length)
    else
      match splitFirst pat rest with
      | some (g, r) => some (c :: g, r)
      | none => none

/-- Scanner for re.sub of a pattern lit1 [any]*? lit2 with replacement
match ++ ins: at each position where the (nonempty) literal lit1 starts,
the lazy gap runs to the first occurrence of lit2; the whole match is
emitted followed by ins, and scanning resumes after the match.  When lit1
starts here but lit2 never occurs afterwards, no match can start at this
or any later position, so the rest is emitted unchanged. -/
def subAfterPairAux (lit1 lit2 ins : List Char) : Nat → List Char → List Char
  | 0, s => s
  | fuel + 1, s =>
    match s with
    | [] => []
    | c :: rest =>
      if lit1 ≠ [] ∧ lit1.isPrefixOf (c :: rest) then
        match splitFirst lit2 ((c :: rest).drop lit1.length) with
        | some (g, r) => lit1 ++ g ++ lit2 ++ ins ++ subAfterPairAux lit1 lit2 ins fuel r
        | none => c :: rest
      else c :: subAfterPairAux lit1 lit2 ins fuel rest

/-- re.sub for the two-part patterns, inserting ins after every match. -/
def subAfterPair (lit1 lit2 ins s : List Char) : List Char :=
  subAfterPairAux lit1 lit2 ins s.length s

/-- Anchor of the PBXBuildFile section insertion. -/
def anchorBuild : List Char := chars "/* End PBXBuildFile section */"

/-- Anchor of the PBXFileReference section insertion. -/
def anchorFileRef : List Char := chars "/* End PBXFileReference section */"

/-- Leading literal of the main-group pattern: the hardcoded root group id. -/
def groupLit1 : List Char := chars "IC0000150000000000000001 = \x7b"

/-- Trailing literal of the main-group pattern: the children list opener. -/
def groupLit2 : List Char := chars "children = ("

/-- Leading literal of the Sources pattern: the hardcoded build phase id. -/
def sourcesLit1 : List Char := chars "IC0000190000000000000001 /* Sources */ = \x7b"

/-- Trailing literal of the Sources pattern: the files list opener. -/
def sourcesLit2 : List Char := chars "files = ("

/-- build_section_insert: the PBXBuildFile lines joined by newlines, with a
trailing newline, built from the build_files dictionary in order. -/
def buildInsert (files : List (List Char)) (gen : Nat → List Nat) : List Char :=
  joinSep nlC
    ((buildFilesOf files gen).map
      (fun kv => buildFileEntry kv.1 kv.2 (dictGet (fileRefsOf files gen) kv.1))) ++ nlC

/-- file_ref_insert: the PBXFileReference lines joined by newlines, with a
trailing newline, built from the file_refs dictionary in order. -/
def fileRefInsert (files : List (List Char)) (gen : Nat → List Nat) : List Char :=
  joinSep nlC
    ((fileRefsOf files gen).map (fun kv => fileRefEntry kv.1 kv.2)) ++ nlC

/-- The concatenated group-children entries, one per path of the input list. -/
def groupInsert (files : List (List Char)) (gen : Nat → List Nat) : List Char :=
  (files.map (fun p => groupEntry p (dictGet (fileRefsOf files gen) p))).flatten

/-- The concatenated Sources-files entries, one per path of the input list. -/
def sourcesInsert (files : List (List Char)) (gen : Nat → List Nat) : List Char :=
  (files.map (fun p => sourceEntry p (dictGet (buildFilesOf files gen) p))).flatten

/-- First substitution: insert the PBXBuildFile lines before the section end. -/
def pass1 (files : List (List Char)) (gen : Nat → List Nat) (content : List Char) : List Char :=
  subBefore anchorBuild (buildInsert files gen) content

/-- Second substitution: insert the PBXFileReference lines before the section end. -/
def pass2 (files : List (List Char)) (gen : Nat → List Nat) (content : List Char) : List Char :=
  subBefore anchorFileRef (fileRefInsert files gen) content

/-- Third substitution: insert the group entries after the children opener of
the root group object. -/
def pass3 (files : List (List Char)) (gen : Nat → List Nat) (content : List Char) : List Char :=
  subAfterPair groupLit1 groupLit2 (groupInsert files gen) content

/-- Fourth substitution: insert the build-phase entries after the files opener
of the Sources build phase object. -/
def pass4 (files : List (List Char)) (gen : Nat → List Nat) (content : List Char) : List Char :=
  subAfterPair sourcesLit1 sourcesLit2 (sourcesInsert files gen) content

/-- Result of one run: the rewritten document text and the printed lines. -/
structure RunResult where
  content : List Char
  stdout : List (List Char)
deriving DecidableEq

/-- The success banner printed after the write. -/
def banner (files : List (List Char)) : List Char :=
  chars "✅ Added " ++ (Nat.repr files.length).data ++ chars " files to Xcode project"

/-- add_files_to_project of the script, with the file read and write factored
into the argument and the result: generate the ids, build the four groups of
lines, run the four substitutions in order, and report the added paths. -/
def add_files_to_project (content : List Char) (files : List (List Char))
    (gen : Nat → List Nat) : RunResult :=
  let c1 := pass1 files gen content
  let c2 := pass2 files gen c1
  let c3 := pass3 files gen c2
  let c4 := pass4 files gen c3
  ⟨c4, banner files :: files.map (fun p => chars "   - " ++ p)⟩

/-- NEW_FILES of the script: the fixed list of paths to register. -/
def NEW_FILES : List (List Char) :=
  [chars "Models/Batch/BatchItem.swift",
   chars "Models/Core/IconPreset.swift",
   chars "Models/Core/IconSettings.swift",
   chars "Services/ImageProcessing/ImageProcessor.swift",
   chars "ViewModels/BatchProcessingManager.swift",
   chars "ViewModels/PresetManager.swift",
   chars "Views/Batch/BatchQueueView.swift",
   chars "Views/Effects/ImageEffectsPanel.swift",
   chars "Views/Presets/PresetLibraryView.swift",
   chars "Views/Preview/ContextPreviewView.swift"]

/-- Number of positions of s at which the pattern occurs (a position counts
when the pattern starts there, so overlapping occurrences all count). -/
def countOcc (pat s : List Char) : Nat :=
  (List.range (s.length + 1)).countP (fun i => pat.isPrefixOf (s.drop i))

/-- The character is one of the uppercase hexadecimal digits used by the
generated identifiers. -/
def isUpperHex (ch : Char) : Bool :=
  (decide ('0' ≤ ch) && decide (ch ≤ '9')) || (decide ('A' ≤ ch) && decide (ch ≤ 'F'))

/-- The text contains no run of 24 uppercase hexadecimal characters, so no
generated identifier can occur inside it. -/
def hexFree (t : List Char) : Bool :=
  (List.range (t.length + 1)).all
    (fun i => !(decide (24 ≤ (t.drop i).length) && ((t.drop i).take 24).all isUpperHex))

/-- Concatenation of a list of fragments, right associated. -/
def catAll (ps : List (List Char)) : List Char := ps.foldr (fun a b => a ++ b) []

/-- The fragment starts with a character that is not an uppercase hex digit. -/
def headNonHex (b : List Char) : Prop :=
  ∃ d y, b = d :: y ∧ isUpperHex d = false

/-- The fragment ends with a character that is not an uppercase hex digit. -/
def lastNonHex (a : List Char) : Prop :=
  ∃ x c, a = x ++ [c] ∧ isUpperHex c = false

/-- Adjacent fragments are separated by a non-hex character on at least one
side of each seam, so an all-hex pattern cannot straddle a seam. -/
def sepOK : List (List Char) → Prop
  | [] => True
  | [_] => True
  | a :: b :: rest => (lastNonHex a ∨ headNonHex b) ∧ sepOK (b :: rest)

/-- Normal form of the file_refs dictionary when the paths are distinct:
the i-th path is bound to the id drawn at call k + 2i. -/
def frN (gen : Nat → List Nat) : List (List Char) → Nat → List (List Char × List Char)
  | [], _ => []
  | p :: ps, k => (p, generate_id (gen k)) :: frN gen ps (k + 2)

/-- Normal form of the build_files dictionary when the paths are distinct:
the i-th path is bound to the id drawn at call k + 2i + 1. -/
def bfN (gen : Nat → List Nat) : List (List Char) → Nat → List (List Char × List Char)
  | [], _ => []
  | p :: ps, k => (p, generate_id (gen (k + 1))) :: bfN gen ps (k + 2)

/-- Normal form of the PBXBuildFile lines for distinct paths. -/
def buildEntriesN (gen : Nat → List Nat) : List (List Char) → Nat → List (List Char)
  | [], _ => []
  | p :: ps, k =>
      buildFileEntry p (generate_id (gen (k + 1))) (generate_id (gen k)) ::
        buildEntriesN gen ps (k + 2)

/-- Normal form of the PBXFileReference lines for distinct paths. -/
def fileRefEntriesN (gen : Nat → List Nat) : List (List Char) → Nat → List (List Char)
  | [], _ => []
  | p :: ps, k => fileRefEntry p (generate_id (gen k)) :: fileRefEntriesN gen ps (k + 2)

/-- Normal form of the group-children lines for distinct paths. -/
def groupEntriesN (gen : Nat → List Nat) : List (List Char) → Nat → List (List Char)
  | [], _ => []
  | p :: ps, k => groupEntry p (generate_id (gen k)) :: groupEntriesN gen ps (k + 2)

/-- Normal form of the Sources-phase lines for distinct paths. -/
def sourceEntriesN (gen : Nat → List Nat) : List (List Char) → Nat → List (List Char)
  | [], _ => []
  | p :: ps, k => sourceEntry p (generate_id (gen (k + 1))) :: sourceEntriesN gen ps (k + 2)

/-- The identifiers drawn by a run over the given paths, in drawing order. -/
def idsN (gen : Nat → List Nat) : List (List Char) → Nat → List (List Char)
  | [], _ => []
  | _ :: ps, k => generate_id (gen k) :: generate_id (gen (k + 1)) :: idsN gen ps (k + 2)

/-- A document in the canonical descriptor layout: the four anchor groups in
their usual order, with arbitrary text between them. -/
def pbx0 (s0 s1 s2 s3 s4 s5 s6 : List Char) : List Char :=
  s0 ++ (anchorBuild ++ (s1 ++ (anchorFileRef ++ (s2 ++ (groupLit1 ++
    (s3 ++ (groupLit2 ++ (s4 ++ (sourcesLit1 ++ (s5 ++ (sourcesLit2 ++ s6)))))))))))

/-- The canonical document after the PBXBuildFile insertion. -/
def pbx1 (files : List (List Char)) (gen : Nat → List Nat)
    (s0 s1 s2 s3 s4 s5 s6 : List Char) : List Char :=
  s0 ++ (buildInsert files gen ++ (anchorBuild ++ (s1 ++ (anchorFileRef ++ (s2 ++ (groupLit1 ++
    (s3 ++ (groupLit2 ++ (s4 ++ (sourcesLit1 ++ (s5 ++ (sourcesLit2 ++ s6))))))))))))

/-- The canonical document after the first two insertions. -/
def pbx2 (files : List (List Char)) (gen : Nat → List Nat)
    (s0 s1 s2 s3 s4 s5 s6 : List Char) : List Char :=
  s0 ++ (buildInsert files gen ++ (anchorBuild ++ (s1 ++ (fileRefInsert files gen ++
    (anchorFileRef ++ (s2 ++ (groupLit1 ++ (s3 ++ (groupLit2 ++ (s4 ++ (sourcesLit1 ++
      (s5 ++ (sourcesLit2 ++ s6)))))))))))))

/-- The canonical document after the first three insertions. -/
def pbx3 (files : List (List Char)) (gen : Nat → List Nat)
    (s0 s1 s2 s3 s4 s5 s6 : List Char) : List Char :=
  s0 ++ (buildInsert files gen ++ (anchorBuild ++ (s1 ++ (fileRefInsert files gen ++
    (anchorFileRef ++ (s2 ++ (groupLit1 ++ (s3 ++ (groupLit2 ++ (groupInsert files gen ++
      (s4 ++ (sourcesLit1 ++ (s5 ++ (sourcesLit2 ++ s6))))))))))))))

/-- The canonical document after all four insertions. -/
def pbx4 (files : List (List Char)) (gen : Nat → List Nat)
    (s0 s1 s2 s3 s4 s5 s6 : List Char) : List Char :=
  s0 ++ (buildInsert files gen ++ (anchorBuild ++ (s1 ++ (fileRefInsert files gen ++
    (anchorFileRef ++ (s2 ++ (groupLit1 ++ (s3 ++ (groupLit2 ++ (groupInsert files gen ++
      (s4 ++ (sourcesLit1 ++ (s5 ++ (sourcesLit2 ++ (sourcesInsert files gen ++
        s6)))))))))))))))

/-- A document in the canonical layout with the group anchor absent. -/
def pbxNg0 (s0 s1 s2 s5 s6 : List Char) : List Char :=
  s0 ++ (anchorBuild ++ (s1 ++ (anchorFileRef ++ (s2 ++ (sourcesLit1 ++
    (s5 ++ (sourcesLit2 ++ s6)))))))

/-- The group-anchor-free document after the first two insertions. -/
def pbxNg2 (files : List (List Char)) (gen : Nat → List Nat)
    (s0 s1 s2 s5 s6 : List Char) : List Char :=
  s0 ++ (buildInsert files gen ++ (anchorBuild ++ (s1 ++ (fileRefInsert files gen ++
    (anchorFileRef ++ (s2 ++ (sourcesLit1 ++ (s5 ++ (sourcesLit2 ++ s6)))))))))

/-- The group-anchor-free document after all four substitutions: the group
pass leaves the text unchanged, the other three insert as usual. -/
def pbxNg4 (files : List (List Char)) (gen : Nat → List Nat)
    (s0 s1 s2 s5 s6 : List Char) : List Char :=
  s0 ++ (buildInsert files gen ++ (anchorBuild ++ (s1 ++ (fileRefInsert files gen ++
    (anchorFileRef ++ (s2 ++ (sourcesLit1 ++ (s5 ++ (sourcesLit2 ++
      (sourcesInsert files gen ++ s6))))))))))

/-- Text of a small well-formed descriptor before the PBXBuildFile anchor. -/
def w0 : List Char := chars "// !$*UTF8*$!\n\x7b\n/* Begin PBXBuildFile section */\n"

/-- Text between the first and second anchors of the small descriptor. -/
def w1 : List Char := chars "\n/* Begin PBXFileReference section */\n"

/-- Text between the second anchor and the root group header. -/
def w2 : List Char := chars "\n"

/-- Text between the root group header and its children opener. -/
def w3 : List Char := chars "\n\t\t\tisa = PBXGroup;\n\t\t\t"

/-- Text between the children opener and the Sources phase header. -/
def w4 : List Char := chars "\n\t\t\t);\n"

/-- Text between the Sources phase header and its files opener. -/
def w5 : List Char := chars "\n\t\t\tisa = PBXSourcesBuildPhase;\n\t\t\t"

/-- Text after the files opener of the small descriptor. -/
def w6 : List Char := chars "\n\t\t\t);\n\x7d\n"

/-- A one-element path list for concrete runs. -/
def wFiles : List (List Char) := [chars "A/B.ext"]

/-- A concrete uuid oracle: the k-th draw encodes k in its first two bytes,
so distinct draws give distinct identifiers. -/
def wGen : Nat → List Nat :=
  fun k => [k % 256, (k / 256) % 256, 0, 0, 0, 0, 0, 0, 0, 0, 0, 0, 0, 0, 0, 0]

/-- The small descriptor as a literal, for fast concrete checking. -/
def wD0 : List Char := chars "// !$*UTF8*$!\n\x7b\n/* Begin PBXBuildFile section */\n/* End PBXBuildFile section */\n/* Begin PBXFileReference section */\n/* End PBXFileReference section */\nIC0000150000000000000001 = \x7b\n\t\t\tisa = PBXGroup;\n\t\t\tchildren = (\n\t\t\t);\nIC0000190000000000000001 /* Sources */ = \x7b\n\t\t\tisa = PBXSourcesBuildPhase;\n\t\t\tfiles = (\n\t\t\t);\n\x7d\n"

/-- The small descriptor after the PBXBuildFile insertion, as a literal. -/
def wD1 : List Char := chars "// !$*UTF8*$!\n\x7b\n/* Begin PBXBuildFile section */\n\t\t010000000000000000000000 /* B.ext in Sources */ = \x7bisa = PBXBuildFile; fileRef = 000000000000000000000000 /* B.ext */; \x7d;\n/* End PBXBuildFile section */\n/* Begin PBXFileReference section */\n/* End PBXFileReference section */\nIC0000150000000000000001 = \x7b\n\t\t\tisa = PBXGroup;\n\t\t\tchildren = (\n\t\t\t);\nIC0000190000000000000001 /* Sources */ = \x7b\n\t\t\tisa = PBXSourcesBuildPhase;\n\t\t\tfiles = (\n\t\t\t);\n\x7d\n"

/-- The small descriptor after two insertions, as a literal. -/
def wD2 : List Char := chars "// !$*UTF8*$!\n\x7b\n/* Begin PBXBuildFile section */\n\t\t010000000000000000000000 /* B.ext in Sources */ = \x7bisa = PBXBuildFile; fileRef = 000000000000000000000000 /* B.ext */; \x7d;\n/* End PBXBuildFile section */\n/* Begin PBXFileReference section */\n\t\t000000000000000000000000 /* B.ext */ = \x7bisa = PBXFileReference; lastKnownFileType = sourcecode.swift; path = \"A/B.ext\"; sourceTree = \"<group>\"; \x7d;\n/* End PBXFileReference section */\nIC0000150000000000000001 = \x7b\n\t\t\tisa = PBXGroup;\n\t\t\tchildren = (\n\t\t\t);\nIC0000190000000000000001 /* Sources */ = \x7b\n\t\t\tisa = PBXSourcesBuildPhase;\n\t\t\tfiles = (\n\t\t\t);\n\x7d\n"

/-- The small descriptor after three insertions, as a literal. -/
def wD3 : List Char := chars "// !$*UTF8*$!\n\x7b\n/* Begin PBXBuildFile section */\n\t\t010000000000000000000000 /* B.ext in Sources */ = \x7bisa = PBXBuildFile; fileRef = 000000000000000000000000 /* B.ext */; \x7d;\n/* End PBXBuildFile section */\n/* Begin PBXFileReference section */\n\t\t000000000000000000000000 /* B.ext */ = \x7bisa = PBXFileReference; lastKnownFileType = sourcecode.swift; path = \"A/B.ext\"; sourceTree = \"<group>\"; \x7d;\n/* End PBXFileReference section */\nIC0000150000000000000001 = \x7b\n\t\t\tisa = PBXGroup;\n\t\t\tchildren = (\n\t\t\t\t000000000000000000000000 /* B.ext */,\n\t\t\t);\nIC0000190000000000000001 /* Sources */ = \x7b\n\t\t\tisa = PBXSourcesBuildPhase;\n\t\t\tfiles = (\n\t\t\t);\n\x7d\n"

/-- Single-pass computation of countOcc, used to evaluate concrete cases. -/
def countOccB (pat : List Char) : List Char → Nat
  | [] => if pat.isPrefixOf [] then 1 else 0
  | c :: rest => (if pat.isPrefixOf (c :: rest) then 1 else 0) + countOccB pat rest

/-- The group-anchor-free small descriptor, as a literal. -/
def wE0 : List Char := chars "// !$*UTF8*$!\n\x7b\n/* Begin PBXBuildFile section */\n/* End PBXBuildFile section */\n/* Begin PBXFileReference section */\n/* End PBXFileReference section */\nIC0000190000000000000001 /* Sources */ = \x7b\n\t\t\tisa = PBXSourcesBuildPhase;\n\t\t\tfiles = (\n\t\t\t);\n\x7d\n"

/-- The group-anchor-free small descriptor after the first insertion. -/
def wE1 : List Char := chars "// !$*UTF8*$!\n\x7b\n/* Begin PBXBuildFile section */\n\t\t010000000000000000000000 /* B.ext in Sources */ = \x7bisa = PBXBuildFile; fileRef = 000000000000000000000000 /* B.ext */; \x7d;\n/* End PBXBuildFile section */\n/* Begin PBXFileReference section */\n/* End PBXFileReference section */\nIC0000190000000000000001 /* Sources */ = \x7b\n\t\t\tisa = PBXSourcesBuildPhase;\n\t\t\tfiles = (\n\t\t\t);\n\x7d\n"

/-- The group-anchor-free small descriptor after two insertions. -/
def wE2 : List Char := chars "// !$*UTF8*$!\n\x7b\n/* Begin PBXBuildFile section */\n\t\t010000000000000000000000 /* B.ext in Sources */ = \x7bisa = PBXBuildFile; fileRef = 000000000000000000000000 /* B.ext */; \x7d;\n/* End PBXBuildFile section */\n/* Begin PBXFileReference section */\n\t\t000000000000000000000000 /* B.ext */ = \x7bisa = PBXFileReference; lastKnownFileType = sourcecode.swift; path = \"A/B.ext\"; sourceTree = \"<group>\"; \x7d;\n/* End PBXFileReference section */\nIC0000190000000000000001 /* Sources */ = \x7b\n\t\t\tisa = PBXSourcesBuildPhase;\n\t\t\tfiles = (\n\t\t\t);\n\x7d\n"

/-- A document in which the PBXBuildFile end-of-section anchor occurs twice. -/
def cxDoc : List Char := chars "AA/* End PBXBuildFile section */BB/* End PBXBuildFile section */CC"

/-- What the first substitution actually produces on cxDoc: the lines are
inserted before both anchor occurrences. -/
def cxOut : List Char := chars "AA\t\t010000000000000000000000 /* B.ext in Sources */ = \x7bisa = PBXBuildFile; fileRef = 000000000000000000000000 /* B.ext */; \x7d;\n/* End PBXBuildFile section */BB\t\t010000000000000000000000 /* B.ext in Sources */ = \x7bisa = PBXBuildFile; fileRef = 000000000000000000000000 /* B.ext */; \x7d;\n/* End PBXBuildFile section */CC"

/-- One PBXBuildFile line as a marker: each inserted build-file line
contains this text exactly once and cxDoc contains it nowhere. -/
def cxMark : List Char := chars "isa = PBXBuildFile;"

/-- The duplicate-path list used to refute the unrestricted C1. -/
def dupFiles : List (List Char) := [chars "A/B.ext", chars "A/B.ext"]

/-- Output of the run on wD0 with the duplicate-path list, as a literal. -/
def dupOut : List Char := chars "// !$*UTF8*$!\n\x7b\n/* Begin PBXBuildFile section */\n\t\t030000000000000000000000 /* B.ext in Sources */ = \x7bisa = PBXBuildFile; fileRef = 020000000000000000000000 /* B.ext */; \x7d;\n/* End PBXBuildFile section */\n/* Begin PBXFileReference section */\n\t\t020000000000000000000000 /* B.ext */ = \x7bisa = PBXFileReference; lastKnownFileType = sourcecode.swift; path = \"A/B.ext\"; sourceTree = \"<group>\"; \x7d;\n/* End PBXFileReference section */\nIC0000150000000000000001 = \x7b\n\t\t\tisa = PBXGroup;\n\t\t\tchildren = (\n\t\t\t\t020000000000000000000000 /* B.ext */,\n\t\t\t\t020000000000000000000000 /* B.ext */,\n\t\t\t);\nIC0000190000000000000001 /* Sources */ = \x7b\n\t\t\tisa = PBXSourcesBuildPhase;\n\t\t\tfiles = (\n\t\t\t\t030000000000000000000000 /* B.ext in Sources */,\n\t\t\t\t030000000000000000000000 /* B.ext in Sources */,\n\t\t\t);\n\x7d\n"

/-- Decidable check that a fragment starts with a non-hex character. -/
def headNonHexB (b : List Char) : Bool :=
  match b with
  | [] => false
  | d :: _ => !isUpperHex d

/-- Decidable check that a fragment ends with a non-hex character. -/
def lastNonHexB (a : List Char) : Bool :=
  match a.getLast? with
  | none => false
  | some c => !isUpperHex c

/-- The uuid oracle of the second run: the draws continue after the two
draws of the first run. -/
def wGen2 : Nat → List Nat := fun k => wGen (k + 2)

/-- Piece of the first-run output before the PBXBuildFile anchor. -/
def wT0 : List Char := w0 ++ buildInsert wFiles wGen

/-- Piece of the first-run output between the first two anchors. -/
def wT1 : List Char := w1 ++ fileRefInsert wFiles wGen

/-- Piece of the first-run output between the children opener and the
Sources phase header. -/
def wT4 : List Char := groupInsert wFiles wGen ++ w4

/-- Piece of the first-run output after the files opener. -/
def wT6 : List Char := sourcesInsert wFiles wGen ++ w6

/-- The small descriptor after the full first run, as a literal. -/
def wD4 : List Char := chars "// !$*UTF8*$!\n\x7b\n/* Begin PBXBuildFile section */\n\t\t010000000000000000000000 /* B.ext in Sources */ = \x7bisa = PBXBuildFile; fileRef = 000000000000000000000000 /* B.ext */; \x7d;\n/* End PBXBuildFile section */\n/* Begin PBXFileReference section */\n\t\t000000000000000000000000 /* B.ext */ = \x7bisa = PBXFileReference; lastKnownFileType = sourcecode.swift; path = \"A/B.ext\"; sourceTree = \"<group>\"; \x7d;\n/* End PBXFileReference section */\nIC0000150000000000000001 = \x7b\n\t\t\tisa = PBXGroup;\n\t\t\tchildren = (\n\t\t\t\t000000000000000000000000 /* B.ext */,\n\t\t\t);\nIC0000190000000000000001 /* Sources */ = \x7b\n\t\t\tisa = PBXSourcesBuildPhase;\n\t\t\tfiles = (\n\t\t\t\t010000000000000000000000 /* B.ext in Sources */,\n\t\t\t);\n\x7d\n"

/-- The first-run output after the second run inserts its PBXBuildFile lines. -/
def wF1 : List Char := chars "// !$*UTF8*$!\n\x7b\n/* Begin PBXBuildFile section */\n\t\t010000000000000000000000 /* B.ext in Sources */ = \x7bisa = PBXBuildFile; fileRef = 000000000000000000000000 /* B.ext */; \x7d;\n\t\t030000000000000000000000 /* B.ext in Sources */ = \x7bisa = PBXBuildFile; fileRef = 020000000000000000000000 /* B.ext */; \x7d;\n/* End PBXBuildFile section */\n/* Begin PBXFileReference section */\n\t\t000000000000000000000000 /* B.ext */ = \x7bisa = PBXFileReference; lastKnownFileType = sourcecode.swift; path = \"A/B.ext\"; sourceTree = \"<group>\"; \x7d;\n/* End PBXFileReference section */\nIC0000150000000000000001 = \x7b\n\t\t\tisa = PBXGroup;\n\t\t\tchildren = (\n\t\t\t\t000000000000000000000000 /* B.ext */,\n\t\t\t);\nIC0000190000000000000001 /* Sources */ = \x7b\n\t\t\tisa = PBXSourcesBuildPhase;\n\t\t\tfiles = (\n\t\t\t\t010000000000000000000000 /* B.ext in Sources */,\n\t\t\t);\n\x7d\n"

/-- The first-run output after two second-run insertions. -/
def wF2 : List Char := chars "// !$*UTF8*$!\n\x7b\n/* Begin PBXBuildFile section */\n\t\t010000000000000000000000 /* B.ext in Sources */ = \x7bisa = PBXBuildFile; fileRef = 000000000000000000000000 /* B.ext */; \x7d;\n\t\t030000000000000000000000 /* B.ext in Sources */ = \x7bisa = PBXBuildFile; fileRef = 020000000000000000000000 /* B.ext */; \x7d;\n/* End PBXBuildFile section */\n/* Begin PBXFileReference section */\n\t\t000000000000000000000000 /* B.ext */ = \x7bisa = PBXFileReference; lastKnownFileType = sourcecode.swift; path = \"A/B.ext\"; sourceTree = \"<group>\"; \x7d;\n\t\t020000000000000000000000 /* B.ext */ = \x7bisa = PBXFileReference; lastKnownFileType = sourcecode.swift; path = \"A/B.ext\"; sourceTree = \"<group>\"; \x7d;\n/* End PBXFileReference section */\nIC0000150000000000000001 = \x7b\n\t\t\tisa = PBXGroup;\n\t\t\tchildren = (\n\t\t\t\t000000000000000000000000 /* B.ext */,\n\t\t\t);\nIC0000190000000000000001 /* Sources */ = \x7b\n\t\t\tisa = PBXSourcesBuildPhase;\n\t\t\tfiles = (\n\t\t\t\t010000000000000000000000 /* B.ext in Sources */,\n\t\t\t);\n\x7d\n"

/-- The first-run output after three second-run insertions. -/
def wF3 : List Char := chars "// !$*UTF8*$!\n\x7b\n/* Begin PBXBuildFile section */\n\t\t010000000000000000000000 /* B.ext in Sources */ = \x7bisa = PBXBuildFile; fileRef = 000000000000000000000000 /* B.ext */; \x7d;\n\t\t030000000000000000000000 /* B.ext in Sources */ = \x7bisa = PBXBuildFile; fileRef = 020000000000000000000000 /* B.ext */; \x7d;\n/* End PBXBuildFile section */\n/* Begin PBXFileReference section */\n\t\t000000000000000000000000 /* B.ext */ = \x7bisa = PBXFileReference; lastKnownFileType = sourcecode.swift; path = \"A/B.ext\"; sourceTree = \"<group>\"; \x7d;\n\t\t020000000000000000000000 /* B.ext */ = \x7bisa = PBXFileReference; lastKnownFileType = sourcecode.swift; path = \"A/B.ext\"; sourceTree = \"<group>\"; \x7d;\n/* End PBXFileReference section */\nIC0000150000000000000001 = \x7b\n\t\t\tisa = PBXGroup;\n\t\t\tchildren = (\n\t\t\t\t020000000000000000000000 /* B.ext */,\n\t\t\t\t000000000000000000000000 /* B.ext */,\n\t\t\t);\nIC0000190000000000000001 /* Sources */ = \x7b\n\t\t\tisa = PBXSourcesBuildPhase;\n\t\t\tfiles = (\n\t\t\t\t010000000000000000000000 /* B.ext in Sources */,\n\t\t\t);\n\x7d\n"

/-- The pattern occurs somewhere in s as a contiguous substring. -/
def occursIn (pat s : List Char) : Prop := ∃ u v, s = u ++ (pat ++ v)

/-- Concatenation of the segments with the separator x between consecutive
segments: a document whose explicit occurrences of x sit at the seams. -/
def interleave (x : List Char) : List (List Char) → List Char
  | [] => []
  | [u] => u
  | u :: us => u ++ x ++ interleave x us

/-- No occurrence of the pattern starts at any position below n. -/
def noOccB (pat s : List Char) (n : Nat) : Bool :=
  (List.range n).all (fun i => !(pat.isPrefixOf (s.drop i)))

/-- A document made of repeated lit1-gap-lit2 matches separated by free text,
ending with a tail: the shape scanned by the two lazy-gap substitutions. -/
def pairRep (lit1 lit2 tail : List Char) : List (List Char × List Char) → List Char
  | [] => tail
  | (v, g) :: rest => v ++ lit1 ++ g ++ lit2 ++ pairRep lit1 lit2 tail rest

/-- The same document with the insertion placed after every match. -/
def pairRepIns (lit1 lit2 ins tail : List Char) :
    List (List Char × List Char) → List Char
  | [] => tail
  | (v, g) :: rest => v ++ lit1 ++ g ++ lit2 ++ ins ++ pairRepIns lit1 lit2 ins tail rest

/-- The explicit separators are the matches the scanner finds: no occurrence
of the pattern starts inside a segment, and none starts in the last one. -/
def interOKB (pat : List Char) : List (List Char) → Bool
  | [] => true
  | [u] => noOccB pat u (u.length + 1)
  | u :: us => noOccB pat (u ++ pat ++ interleave pat us) u.length && interOKB pat us

/-- The explicit lit1-gap-lit2 groups are the matches the scanner finds: no
occurrence of lit1 starts inside a free segment, the gap holds no earlier
occurrence of lit2, and the tail holds no occurrence of lit1 at all. -/
def pairRepOKB (lit1 lit2 tail : List Char) : List (List Char × List Char) → Bool
  | [] => noOccB lit1 tail (tail.length + 1)
  | (v, g) :: rest =>
      noOccB lit1 (v ++ lit1 ++ g ++ lit2 ++ pairRep lit1 lit2 tail rest) v.length &&
      (noOccB lit2 (g ++ lit2 ++ pairRep lit1 lit2 tail rest) g.length &&
        pairRepOKB lit1 lit2 tail rest)

/-- The pattern occurs in s at position i. -/
def occAt (pat s : List Char) (i : Nat) : Prop := pat.isPrefixOf (s.drop i) = true

instance occAt.decidable (pat s : List Char) (i : Nat) : Decidable (occAt pat s i) := by
  unfold occAt; infer_instance

theorem isPre_iff {p s : List Char} : p.isPrefixOf s = true ↔ ∃ t, s = p ++ t := by
  induction p generalizing s with
  | nil => simp [List.isPrefixOf]
  | cons a as ih =>
    cases s with
    | nil => simp [List.isPrefixOf]
    | cons b bs =>
      simp only [List.isPrefixOf, Bool.and_eq_true, beq_iff_eq, ih, List.cons_append,
        List.cons.injEq]
      constructor
      · rintro ⟨rfl, t, rfl⟩; exact ⟨t, rfl, rfl⟩
      · rintro ⟨t, rfl, rfl⟩; exact ⟨rfl, t, rfl⟩

theorem isPre_self_append (p t : List Char) : p.isPrefixOf (p ++ t) = true :=
  isPre_iff.mpr ⟨t, rfl⟩

theorem isPre_length_le {p s : List Char} (h : p.isPrefixOf s = true) : p.length ≤ s.length := by
  obtain ⟨t, rfl⟩ := isPre_iff.mp h
  simp [List.length_append]

theorem occAt_zero {pat s : List Char} : occAt pat s 0 ↔ pat.isPrefixOf s = true := by
  simp [occAt]

theorem occAt_cons_succ {pat t : List Char} {c : Char} {i : Nat} :
    occAt pat (c :: t) (i + 1) ↔ occAt pat t i := by
  simp [occAt, List.drop_succ_cons]

theorem occAt_lt {pat s : List Char} {i : Nat} (hne : pat ≠ []) (h : occAt pat s i) :
    i < s.length := by
  have hlen := isPre_length_le h
  rw [List.length_drop] at hlen
  have hp : 0 < pat.length := List.length_pos.mpr hne
  omega

theorem occAt_add_left {pat t : List Char} {j : Nat} (x : List Char) (h : occAt pat t j) :
    occAt pat (x ++ t) (x.length + j) := by
  unfold occAt at *
  rw [List.drop_append]
  exact h

theorem isPre_append_of {p u : List Char} (v : List Char) (h : p.isPrefixOf u = true) :
    p.isPrefixOf (u ++ v) = true := by
  obtain ⟨t, rfl⟩ := isPre_iff.mp h
  exact isPre_iff.mpr ⟨t ++ v, by simp⟩

theorem occAt_append_of_left {pat x : List Char} {i : Nat} (y : List Char)
    (h : occAt pat x i) : occAt pat (x ++ y) i := by
  unfold occAt at *
  rcases le_or_lt i x.length with hle | hlt
  · rw [List.drop_append_of_le_length hle]
    exact isPre_append_of _ h
  · have hnil : x.drop i = [] := by
      rw [List.drop_eq_nil_iff]
      omega
    rw [hnil] at h
    have hpe : pat = [] := by
      obtain ⟨t, ht⟩ := isPre_iff.mp h
      exact (List.append_eq_nil.mp ht.symm).1
    subst hpe
    exact isPre_iff.mpr ⟨_, rfl⟩

theorem subBeforeAux_nil (pat ins : List Char) (fuel : Nat) :
    subBeforeAux pat ins fuel [] = [] := by
  cases fuel <;> rfl

theorem subBeforeAux_congr (pat ins : List Char) :
    ∀ (fuel1 fuel2 : Nat) (s : List Char), s.length ≤ fuel1 → s.length ≤ fuel2 →
      subBeforeAux pat ins fuel1 s = subBeforeAux pat ins fuel2 s := by
  intro fuel1
  induction fuel1 with
  | zero =>
    intro fuel2 s h1 _
    have : s = [] := List.length_eq_zero.mp (Nat.le_zero.mp h1)
    subst this
    rw [subBeforeAux_nil, subBeforeAux_nil]
  | succ f ih =>
    intro fuel2 s h1 h2
    cases s with
    | nil => rw [subBeforeAux_nil, subBeforeAux_nil]
    | cons c rest =>
      cases fuel2 with
      | zero => simp at h2
      | succ g =>
        show subBeforeAux pat ins (f + 1) (c :: rest) = subBeforeAux pat ins (g + 1) (c :: rest)
        simp only [subBeforeAux]
        by_cases hc : pat ≠ [] ∧ pat.isPrefixOf (c :: rest)
        · rw [if_pos hc, if_pos hc]
          have hplen : 0 < pat.length := List.length_pos.mpr hc.1
          have hd : ((c :: rest).drop pat.length).length ≤ f := by
            rw [List.length_drop]
            simp only [List.length_cons] at h1 ⊢
            omega
          have hd2 : ((c :: rest).drop pat.length).length ≤ g := by
            rw [List.length_drop]
            simp only [List.length_cons] at h2 ⊢
            omega
          rw [ih g _ hd hd2]
        · rw [if_neg hc, if_neg hc]
          have hr : rest.length ≤ f := by simp only [List.length_cons] at h1; omega
          have hr2 : rest.length ≤ g := by simp only [List.length_cons] at h2; omega
          rw [ih g rest hr hr2]

theorem subBeforeAux_noOcc (pat ins : List Char) :
    ∀ (fuel : Nat) (s : List Char), (∀ i, ¬ occAt pat s i) →
      subBeforeAux pat ins fuel s = s := by
  intro fuel
  induction fuel with
  | zero => intro s _; rfl
  | succ f ih =>
    intro s hno
    cases s with
    | nil => rfl
    | cons c rest =>
      show subBeforeAux pat ins (f + 1) (c :: rest) = c :: rest
      simp only [subBeforeAux]
      rw [if_neg, ih rest]
      · intro i hi
        exact hno (i + 1) (occAt_cons_succ.mpr hi)
      · rintro ⟨-, hpre⟩
        exact hno 0 (occAt_zero.mpr hpre)

theorem subBeforeAux_first (pat ins b : List Char) (hne : pat ≠ []) :
    ∀ (a : List Char) (fuel : Nat), (a ++ (pat ++ b)).length ≤ fuel →
      (∀ i, i < a.length → ¬ occAt pat (a ++ (pat ++ b)) i) →
      ∃ f2, b.length ≤ f2 ∧
        subBeforeAux pat ins fuel (a ++ (pat ++ b)) =
          a ++ (ins ++ (pat ++ subBeforeAux pat ins f2 b)) := by
  intro a
  induction a with
  | nil =>
    intro fuel hfuel _
    cases pat with
    | nil => exact absurd rfl hne
    | cons pc pt =>
      simp only [List.nil_append] at hfuel ⊢
      cases fuel with
      | zero => simp [List.length_cons] at hfuel
      | succ f =>
        refine ⟨f, ?_, ?_⟩
        · simp only [List.length_cons, List.length_append] at hfuel
          omega
        · have hshape : (pc :: pt) ++ b = pc :: (pt ++ b) := rfl
          rw [hshape]
          show subBeforeAux (pc :: pt) ins (f + 1) (pc :: (pt ++ b)) = _
          simp only [subBeforeAux]
          rw [if_pos ⟨hne, by rw [← hshape]; exact isPre_self_append _ _⟩]
          have hdrop : (pc :: (pt ++ b)).drop (pc :: pt).length = b := by
            rw [← hshape, List.drop_left]
          rw [hdrop]
          simp [List.append_assoc]
  | cons c a2 ih =>
    intro fuel hfuel hfirst
    cases fuel with
    | zero => simp [List.length_cons] at hfuel
    | succ f =>
      obtain ⟨f2, hf2, heq⟩ := ih f
        (by simp only [List.cons_append, List.length_cons] at hfuel ⊢; omega)
        (by
          intro i hi hocc
          refine hfirst (i + 1) (by simp only [List.length_cons]; omega) ?_
          have hshape : (c :: a2) ++ (pat ++ b) = c :: (a2 ++ (pat ++ b)) := rfl
          rw [hshape]
          exact occAt_cons_succ.mpr hocc)
      refine ⟨f2, hf2, ?_⟩
      have hshape : (c :: a2) ++ (pat ++ b) = c :: (a2 ++ (pat ++ b)) := rfl
      rw [hshape]
      show subBeforeAux pat ins (f + 1) (c :: (a2 ++ (pat ++ b))) = _
      simp only [subBeforeAux]
      rw [if_neg (by
        rintro ⟨-, hpre⟩
        refine hfirst 0 (by simp [List.length_cons]) ?_
        rw [hshape]
        exact occAt_zero.mpr hpre)]
      rw [heq]
      rfl

theorem subBefore_first (pat ins a b : List Char) (hne : pat ≠ [])
    (hfirst : ∀ i, i < a.length → ¬ occAt pat (a ++ (pat ++ b)) i) :
    subBefore pat ins (a ++ (pat ++ b)) = a ++ (ins ++ (pat ++ subBefore pat ins b)) := by
  obtain ⟨f2, hf2, heq⟩ :=
    subBeforeAux_first pat ins b hne a (a ++ (pat ++ b)).length (le_refl _) hfirst
  rw [subBefore, heq, subBeforeAux_congr pat ins f2 b.length b hf2 (le_refl _)]
  rfl

theorem subBefore_noOcc (pat ins s : List Char) (h : ∀ i, ¬ occAt pat s i) :
    subBefore pat ins s = s :=
  subBeforeAux_noOcc pat ins s.length s h

theorem subBefore_single (pat ins a b : List Char) (hne : pat ≠ [])
    (huniq : ∀ i, occAt pat (a ++ (pat ++ b)) i → i = a.length) :
    subBefore pat ins (a ++ (pat ++ b)) = a ++ (ins ++ (pat ++ b)) := by
  have hplen : 0 < pat.length := List.length_pos.mpr hne
  rw [subBefore_first pat ins a b hne (fun i hi hocc => by
    have := huniq i hocc
    omega)]
  rw [subBefore_noOcc pat ins b (fun j hocc => by
    have h1 : occAt pat (pat ++ b) (pat.length + j) := occAt_add_left pat hocc
    have h2 : occAt pat (a ++ (pat ++ b)) (a.length + (pat.length + j)) :=
      occAt_add_left a h1
    have := huniq _ h2
    omega)]

theorem subBefore_double (pat ins a b c : List Char) (hne : pat ≠ [])
    (huniq : ∀ i, occAt pat (a ++ (pat ++ (b ++ (pat ++ c)))) i →
      i = a.length ∨ i = a.length + pat.length + b.length) :
    subBefore pat ins (a ++ (pat ++ (b ++ (pat ++ c)))) =
      a ++ (ins ++ (pat ++ (b ++ (ins ++ (pat ++ c))))) := by
  have hplen : 0 < pat.length := List.length_pos.mpr hne
  rw [subBefore_first pat ins a (b ++ (pat ++ c)) hne (fun i hi hocc => by
    rcases huniq i hocc with h | h <;> omega)]
  have hinner : ∀ j, occAt pat (b ++ (pat ++ c)) j → j = b.length := by
    intro j hocc
    have h2 : occAt pat (a ++ (pat ++ (b ++ (pat ++ c)))) (a.length + (pat.length + j)) :=
      occAt_add_left a (occAt_add_left pat hocc)
    rcases huniq _ h2 with h | h <;> omega
  rw [subBefore_single pat ins b c hne hinner]

theorem splitFirst_eq (pat g b : List Char) (hne : pat ≠ [])
    (hg : ∀ j, j < g.length → ¬ occAt pat (g ++ (pat ++ b)) j) :
    splitFirst pat (g ++ (pat ++ b)) = some (g, b) := by
  induction g with
  | nil =>
    cases pat with
    | nil => exact absurd rfl hne
    | cons pc pt =>
      show splitFirst (pc :: pt) (pc :: (pt ++ b)) = _
      simp only [splitFirst]
      rw [if_pos (by
        have hshape : pc :: (pt ++ b) = (pc :: pt) ++ b := rfl
        rw [hshape]
        exact isPre_self_append _ _)]
      have hdrop : (pc :: (pt ++ b)).drop (pc :: pt).length = b := by
        have hshape : pc :: (pt ++ b) = (pc :: pt) ++ b := rfl
        rw [hshape, List.drop_left]
      rw [hdrop]
  | cons d g2 ih =>
    have hshape : (d :: g2) ++ (pat ++ b) = d :: (g2 ++ (pat ++ b)) := rfl
    rw [hshape]
    show splitFirst pat (d :: (g2 ++ (pat ++ b))) = _
    simp only [splitFirst]
    rw [if_neg (by
      intro hpre
      refine hg 0 (by simp [List.length_cons]) ?_
      rw [hshape]
      exact occAt_zero.mpr hpre)]
    rw [ih (fun j hj hocc => by
      refine hg (j + 1) (by simp only [List.length_cons]; omega) ?_
      rw [hshape]
      exact occAt_cons_succ.mpr hocc)]

theorem subAfterPairAux_nil (lit1 lit2 ins : List Char) (fuel : Nat) :
    subAfterPairAux lit1 lit2 ins fuel [] = [] := by
  cases fuel <;> rfl

theorem subAfterPairAux_noOcc (lit1 lit2 ins : List Char) :
    ∀ (fuel : Nat) (s : List Char), (∀ i, ¬ occAt lit1 s i) →
      subAfterPairAux lit1 lit2 ins fuel s = s := by
  intro fuel
  induction fuel with
  | zero => intro s _; rfl
  | succ f ih =>
    intro s hno
    cases s with
    | nil => rfl
    | cons c rest =>
      show subAfterPairAux lit1 lit2 ins (f + 1) (c :: rest) = c :: rest
      simp only [subAfterPairAux]
      rw [if_neg, ih rest]
      · intro i hi
        exact hno (i + 1) (occAt_cons_succ.mpr hi)
      · rintro ⟨-, hpre⟩
        exact hno 0 (occAt_zero.mpr hpre)

theorem subAfterPairAux_first (lit1 lit2 ins g b : List Char)
    (hne1 : lit1 ≠ []) (hne2 : lit2 ≠ [])
    (hg : ∀ j, j < g.length → ¬ occAt lit2 (g ++ (lit2 ++ b)) j) :
    ∀ (a : List Char) (fuel : Nat), (a ++ (lit1 ++ (g ++ (lit2 ++ b)))).length ≤ fuel →
      (∀ i, i < a.length → ¬ occAt lit1 (a ++ (lit1 ++ (g ++ (lit2 ++ b)))) i) →
      ∃ f2, b.length ≤ f2 ∧
        subAfterPairAux lit1 lit2 ins fuel (a ++ (lit1 ++ (g ++ (lit2 ++ b)))) =
          a ++ (lit1 ++ (g ++ (lit2 ++ (ins ++ subAfterPairAux lit1 lit2 ins f2 b)))) := by
  intro a
  induction a with
  | nil =>
    intro fuel hfuel _
    cases lit1 with
    | nil => exact absurd rfl hne1
    | cons pc pt =>
      simp only [List.nil_append] at hfuel ⊢
      cases fuel with
      | zero => simp [List.length_cons] at hfuel
      | succ f =>
        refine ⟨f, ?_, ?_⟩
        · simp only [List.length_cons, List.length_append] at hfuel
          omega
        · have hshape : (pc :: pt) ++ (g ++ (lit2 ++ b)) = pc :: (pt ++ (g ++ (lit2 ++ b))) := rfl
          rw [hshape]
          show subAfterPairAux (pc :: pt) lit2 ins (f + 1) _ = _
          simp only [subAfterPairAux]
          rw [if_pos ⟨hne1, by rw [← hshape]; exact isPre_self_append _ _⟩]
          have hdrop : (pc :: (pt ++ (g ++ (lit2 ++ b)))).drop (pc :: pt).length
              = g ++ (lit2 ++ b) := by
            rw [← hshape, List.drop_left]
          rw [hdrop, splitFirst_eq lit2 g b hne2 hg]
          simp [List.append_assoc]
  | cons c a2 ih =>
    intro fuel hfuel hfirst
    cases fuel with
    | zero => simp [List.length_cons] at hfuel
    | succ f =>
      obtain ⟨f2, hf2, heq⟩ := ih f
        (by simp only [List.cons_append, List.length_cons] at hfuel ⊢; omega)
        (by
          intro i hi hocc
          refine hfirst (i + 1) (by simp only [List.length_cons]; omega) ?_
          have hshape : (c :: a2) ++ (lit1 ++ (g ++ (lit2 ++ b)))
              = c :: (a2 ++ (lit1 ++ (g ++ (lit2 ++ b)))) := rfl
          rw [hshape]
          exact occAt_cons_succ.mpr hocc)
      refine ⟨f2, hf2, ?_⟩
      have hshape : (c :: a2) ++ (lit1 ++ (g ++ (lit2 ++ b)))
          = c :: (a2 ++ (lit1 ++ (g ++ (lit2 ++ b)))) := rfl
      rw [hshape]
      show subAfterPairAux lit1 lit2 ins (f + 1) _ = _
      simp only [subAfterPairAux]
      rw [if_neg (by
        rintro ⟨-, hpre⟩
        refine hfirst 0 (by simp [List.length_cons]) ?_
        rw [hshape]
        exact occAt_zero.mpr hpre)]
      rw [heq]
      rfl

theorem subAfterPair_noOcc (lit1 lit2 ins s : List Char) (h : ∀ i, ¬ occAt lit1 s i) :
    subAfterPair lit1 lit2 ins s = s :=
  subAfterPairAux_noOcc lit1 lit2 ins s.length s h

theorem splitFirst_length (pat : List Char) :
    ∀ (s g r : List Char), splitFirst pat s = some (g, r) →
      g.length + pat.length + r.length = s.length := by
  intro s
  induction s with
  | nil =>
    intro g r hsp
    simp only [splitFirst] at hsp
    by_cases hl2 : pat = []
    · rw [if_pos hl2] at hsp
      simp only [Option.some.injEq, Prod.mk.injEq] at hsp
      subst hl2
      simp [← hsp.1, ← hsp.2]
    · rw [if_neg hl2] at hsp
      simp at hsp
  | cons d t iht =>
    intro g r hsp
    simp only [splitFirst] at hsp
    by_cases hpre : pat.isPrefixOf (d :: t) = true
    · rw [if_pos hpre] at hsp
      simp only [Option.some.injEq, Prod.mk.injEq] at hsp
      obtain ⟨t2, ht2⟩ := isPre_iff.mp hpre
      rw [← hsp.1, ← hsp.2, ht2]
      simp [List.length_append, List.drop_left]
    · rw [if_neg hpre] at hsp
      rcases hrec : splitFirst pat t with - | ⟨g2, r2⟩
      · rw [hrec] at hsp; simp at hsp
      · rw [hrec] at hsp
        simp only [Option.some.injEq, Prod.mk.injEq] at hsp
        have hlen := iht g2 r2 hrec
        rw [← hsp.1, ← hsp.2]
        simp only [List.length_cons] at *
        omega

theorem subAfterPairAux_congr (lit1 lit2 ins : List Char) :
    ∀ (fuel1 fuel2 : Nat) (s : List Char), s.length ≤ fuel1 → s.length ≤ fuel2 →
      subAfterPairAux lit1 lit2 ins fuel1 s = subAfterPairAux lit1 lit2 ins fuel2 s := by
  intro fuel1
  induction fuel1 with
  | zero =>
    intro fuel2 s h1 _
    have : s = [] := List.length_eq_zero.mp (Nat.le_zero.mp h1)
    subst this
    rw [subAfterPairAux_nil, subAfterPairAux_nil]
  | succ f ih =>
    intro fuel2 s h1 h2
    cases s with
    | nil => rw [subAfterPairAux_nil, subAfterPairAux_nil]
    | cons c rest =>
      cases fuel2 with
      | zero => simp at h2
      | succ f2 =>
        show subAfterPairAux lit1 lit2 ins (f + 1) (c :: rest)
          = subAfterPairAux lit1 lit2 ins (f2 + 1) (c :: rest)
        simp only [subAfterPairAux]
        by_cases hc : lit1 ≠ [] ∧ lit1.isPrefixOf (c :: rest)
        · rw [if_pos hc, if_pos hc]
          rcases hsp : splitFirst lit2 ((c :: rest).drop lit1.length) with - | ⟨gg, r⟩
          · rfl
          · have hlen := splitFirst_length lit2 _ gg r hsp
            have hple : 0 < lit1.length := List.length_pos.mpr hc.1
            have hdl : ((c :: rest).drop lit1.length).length
                = (c :: rest).length - lit1.length := List.length_drop _ _
            have hr1 : r.length ≤ f := by
              simp only [List.length_cons] at h1 hdl
              omega
            have hr2 : r.length ≤ f2 := by
              simp only [List.length_cons] at h2 hdl
              omega
            show lit1 ++ gg ++ lit2 ++ ins ++ subAfterPairAux lit1 lit2 ins f r
              = lit1 ++ gg ++ lit2 ++ ins ++ subAfterPairAux lit1 lit2 ins f2 r
            rw [ih f2 r hr1 hr2]
        · rw [if_neg hc, if_neg hc]
          have hr : rest.length ≤ f := by simp only [List.length_cons] at h1; omega
          have hr2 : rest.length ≤ f2 := by simp only [List.length_cons] at h2; omega
          rw [ih f2 rest hr hr2]

theorem subAfterPair_single (lit1 lit2 ins a g b : List Char)
    (hne1 : lit1 ≠ []) (hne2 : lit2 ≠ [])
    (huniq : ∀ i, occAt lit1 (a ++ (lit1 ++ (g ++ (lit2 ++ b)))) i → i = a.length)
    (hg : ∀ j, j < g.length → ¬ occAt lit2 (g ++ (lit2 ++ b)) j) :
    subAfterPair lit1 lit2 ins (a ++ (lit1 ++ (g ++ (lit2 ++ b)))) =
      a ++ (lit1 ++ (g ++ (lit2 ++ (ins ++ b)))) := by
  have hplen : 0 < lit1.length := List.length_pos.mpr hne1
  obtain ⟨f2, hf2, heq⟩ := subAfterPairAux_first lit1 lit2 ins g b hne1 hne2 hg a
    (a ++ (lit1 ++ (g ++ (lit2 ++ b)))).length (le_refl _)
    (fun i hi hocc => by have := huniq i hocc; omega)
  rw [subAfterPair, heq,
    subAfterPairAux_congr lit1 lit2 ins f2 b.length b hf2 (le_refl _),
    subAfterPairAux_noOcc lit1 lit2 ins b.length b (fun j hocc => by
      have h1 : occAt lit1 (lit2 ++ b) (lit2.length + j) := occAt_add_left lit2 hocc
      have h2 : occAt lit1 (g ++ (lit2 ++ b)) (g.length + (lit2.length + j)) :=
        occAt_add_left g h1
      have h3 : occAt lit1 (lit1 ++ (g ++ (lit2 ++ b)))
          (lit1.length + (g.length + (lit2.length + j))) := occAt_add_left lit1 h2
      have h4 : occAt lit1 (a ++ (lit1 ++ (g ++ (lit2 ++ b))))
          (a.length + (lit1.length + (g.length + (lit2.length + j)))) := occAt_add_left a h3
      have := huniq _ h4
      omega)]

theorem anchorBuild_ne_nil : anchorBuild ≠ [] := by decide

theorem anchorFileRef_ne_nil : anchorFileRef ≠ [] := by decide

theorem groupLit1_ne_nil : groupLit1 ≠ [] := by decide

theorem groupLit2_ne_nil : groupLit2 ≠ [] := by decide

theorem sourcesLit1_ne_nil : sourcesLit1 ≠ [] := by decide

theorem sourcesLit2_ne_nil : sourcesLit2 ≠ [] := by decide

theorem countOcc_nil (pat : List Char) :
    countOcc pat [] = if pat.isPrefixOf [] then 1 else 0 := by
  simp [countOcc, List.countP, List.countP.go]

theorem countOcc_cons (pat : List Char) (c : Char) (rest : List Char) :
    countOcc pat (c :: rest) =
      (if pat.isPrefixOf (c :: rest) then 1 else 0) + countOcc pat rest := by
  show (List.range (rest.length + 1 + 1)).countP
      (fun i => pat.isPrefixOf ((c :: rest).drop i)) = _
  rw [List.range_succ_eq_map, List.countP_cons, List.countP_map]
  have hc : (List.range (rest.length + 1)).countP
      ((fun i => pat.isPrefixOf ((c :: rest).drop i)) ∘ Nat.succ) =
      (List.range (rest.length + 1)).countP (fun i => pat.isPrefixOf (rest.drop i)) := by
    refine List.countP_congr ?_
    intro i _
    simp [Function.comp, List.drop_succ_cons]
  rw [hc]
  show countOcc pat rest + _ = _
  simp [List.drop_zero]
  omega

theorem countOcc_eq_countOccB (pat s : List Char) : countOcc pat s = countOccB pat s := by
  induction s with
  | nil => rw [countOcc_nil]; rfl
  | cons c rest ih =>
    rw [countOcc_cons, ih]
    rfl

theorem countOccB_zero (pat : List Char) :
    ∀ s, countOccB pat s = 0 → ∀ i, ¬ occAt pat s i := by
  intro s
  induction s with
  | nil =>
    intro h i hocc
    have : pat.isPrefixOf [] = true := by
      have : ([] : List Char).drop i = [] := by simp
      rw [← this]
      exact hocc
    simp [countOccB, this] at h
  | cons c rest ih =>
    intro h i hocc
    simp only [countOccB] at h
    cases i with
    | zero =>
      rw [occAt_zero] at hocc
      simp [hocc] at h
    | succ k =>
      rw [occAt_cons_succ] at hocc
      exact ih (by omega) k hocc

theorem countOccB_unique (pat : List Char) (hne : pat ≠ []) :
    ∀ s, countOccB pat s = 1 → ∀ i j, occAt pat s i → occAt pat s j → i = j := by
  intro s
  induction s with
  | nil =>
    intro h i j hi hj
    have hp : pat.isPrefixOf [] = true := by
      have hd : ([] : List Char).drop i = [] := by simp
      rw [← hd]
      exact hi
    obtain ⟨t, ht⟩ := isPre_iff.mp hp
    exact absurd (List.append_eq_nil.mp ht.symm).1 hne
  | cons c rest ih =>
    intro h i j hi hj
    simp only [countOccB] at h
    by_cases h0 : pat.isPrefixOf (c :: rest) = true
    · rw [if_pos h0] at h
      have hrest : countOccB pat rest = 0 := by omega
      cases i with
      | zero =>
        cases j with
        | zero => rfl
        | succ k =>
          rw [occAt_cons_succ] at hj
          exact absurd hj (countOccB_zero pat rest hrest k)
      | succ k =>
        rw [occAt_cons_succ] at hi
        exact absurd hi (countOccB_zero pat rest hrest k)
    · rw [if_neg h0] at h
      cases i with
      | zero => exact absurd (occAt_zero.mp hi) h0
      | succ k =>
        cases j with
        | zero => exact absurd (occAt_zero.mp hj) h0
        | succ m =>
          rw [occAt_cons_succ] at hi hj
          rw [ih (by omega) k m hi hj]

theorem countOccB_pair (pat : List Char) (hne : pat ≠ []) :
    ∀ s, countOccB pat s = 2 → ∀ p1 p2, occAt pat s p1 → occAt pat s p2 → p1 < p2 →
      ∀ i, occAt pat s i → i = p1 ∨ i = p2 := by
  intro s
  induction s with
  | nil =>
    intro h p1 p2 h1 h2 hlt i hi
    have hp : pat.isPrefixOf [] = true := by
      have hd : ([] : List Char).drop i = [] := by simp
      rw [← hd]
      exact hi
    obtain ⟨t, ht⟩ := isPre_iff.mp hp
    exact absurd (List.append_eq_nil.mp ht.symm).1 hne
  | cons c rest ih =>
    intro h p1 p2 h1 h2 hlt i hi
    simp only [countOccB] at h
    by_cases h0 : pat.isPrefixOf (c :: rest) = true
    · rw [if_pos h0] at h
      have hrest : countOccB pat rest = 1 := by omega
      cases p2 with
      | zero => omega
      | succ k2 =>
        rw [occAt_cons_succ] at h2
        cases p1 with
        | zero =>
          cases i with
          | zero => exact Or.inl rfl
          | succ k =>
            rw [occAt_cons_succ] at hi
            exact Or.inr (by
              rw [countOccB_unique pat hne rest hrest k k2 hi h2])
        | succ k1 =>
          rw [occAt_cons_succ] at h1
          have := countOccB_unique pat hne rest hrest k1 k2 h1 h2
          omega
    · rw [if_neg h0] at h
      cases i with
      | zero => exact absurd (occAt_zero.mp hi) h0
      | succ k =>
        cases p1 with
        | zero => exact absurd (occAt_zero.mp h1) h0
        | succ k1 =>
          cases p2 with
          | zero => omega
          | succ k2 =>
            rw [occAt_cons_succ] at h1 h2 hi
            rcases ih (by omega) k1 k2 h1 h2 (by omega) k hi with hk | hk
            · exact Or.inl (by omega)
            · exact Or.inr (by omega)

theorem occAt_mid (pat a b : List Char) : occAt pat (a ++ (pat ++ b)) a.length := by
  show pat.isPrefixOf ((a ++ (pat ++ b)).drop a.length) = true
  rw [List.drop_left]
  exact isPre_self_append pat b


theorem run_canonical (files : List (List Char)) (gen : Nat → List Nat)
    (s0 s1 s2 s3 s4 s5 s6 : List Char)
    (h1 : countOcc anchorBuild (pbx0 s0 s1 s2 s3 s4 s5 s6) = 1)
    (h2 : countOcc anchorFileRef (pbx1 files gen s0 s1 s2 s3 s4 s5 s6) = 1)
    (h3 : countOcc groupLit1 (pbx2 files gen s0 s1 s2 s3 s4 s5 s6) = 1)
    (h3g : ∀ j, j < s3.length →
      ¬ occAt groupLit2 (s3 ++ (groupLit2 ++ (s4 ++ (sourcesLit1 ++ (s5 ++
        (sourcesLit2 ++ s6)))))) j)
    (h4 : countOcc sourcesLit1 (pbx3 files gen s0 s1 s2 s3 s4 s5 s6) = 1)
    (h4g : ∀ j, j < s5.length → ¬ occAt sourcesLit2 (s5 ++ (sourcesLit2 ++ s6)) j) :
    (add_files_to_project (pbx0 s0 s1 s2 s3 s4 s5 s6) files gen).content =
      pbx4 files gen s0 s1 s2 s3 s4 s5 s6 := by
  have step1 : pass1 files gen (pbx0 s0 s1 s2 s3 s4 s5 s6) =
      pbx1 files gen s0 s1 s2 s3 s4 s5 s6 := by
    refine subBefore_single anchorBuild (buildInsert files gen) s0
      (s1 ++ (anchorFileRef ++ (s2 ++ (groupLit1 ++ (s3 ++ (groupLit2 ++ (s4 ++
        (sourcesLit1 ++ (s5 ++ (sourcesLit2 ++ s6))))))))))
      anchorBuild_ne_nil ?_
    intro i hocc
    refine countOccB_unique anchorBuild anchorBuild_ne_nil _ ?_ i s0.length hocc
      (occAt_mid _ _ _)
    rw [← countOcc_eq_countOccB]
    exact h1
  have step2 : pass2 files gen (pbx1 files gen s0 s1 s2 s3 s4 s5 s6) =
      pbx2 files gen s0 s1 s2 s3 s4 s5 s6 := by
    have heq : pbx1 files gen s0 s1 s2 s3 s4 s5 s6 =
        (s0 ++ (buildInsert files gen ++ (anchorBuild ++ s1))) ++ (anchorFileRef ++
          (s2 ++ (groupLit1 ++ (s3 ++ (groupLit2 ++ (s4 ++ (sourcesLit1 ++ (s5 ++
            (sourcesLit2 ++ s6))))))))) := by
      simp [pbx1, List.append_assoc]
    have hcnt : countOccB anchorFileRef
        ((s0 ++ (buildInsert files gen ++ (anchorBuild ++ s1))) ++ (anchorFileRef ++
          (s2 ++ (groupLit1 ++ (s3 ++ (groupLit2 ++ (s4 ++ (sourcesLit1 ++ (s5 ++
            (sourcesLit2 ++ s6)))))))))) = 1 := by
      rw [← countOcc_eq_countOccB, ← heq]
      exact h2
    have hout := subBefore_single anchorFileRef (fileRefInsert files gen)
      (s0 ++ (buildInsert files gen ++ (anchorBuild ++ s1)))
      (s2 ++ (groupLit1 ++ (s3 ++ (groupLit2 ++ (s4 ++ (sourcesLit1 ++ (s5 ++
        (sourcesLit2 ++ s6))))))))
      anchorFileRef_ne_nil
      (fun i hocc => countOccB_unique anchorFileRef anchorFileRef_ne_nil _ hcnt i _
        hocc (occAt_mid _ _ _))
    show subBefore anchorFileRef (fileRefInsert files gen)
      (pbx1 files gen s0 s1 s2 s3 s4 s5 s6) = _
    rw [heq, hout]
    simp [pbx2, List.append_assoc]
  have step3 : pass3 files gen (pbx2 files gen s0 s1 s2 s3 s4 s5 s6) =
      pbx3 files gen s0 s1 s2 s3 s4 s5 s6 := by
    have heq : pbx2 files gen s0 s1 s2 s3 s4 s5 s6 =
        (s0 ++ (buildInsert files gen ++ (anchorBuild ++ (s1 ++ (fileRefInsert files gen ++
          (anchorFileRef ++ s2)))))) ++ (groupLit1 ++ (s3 ++ (groupLit2 ++ (s4 ++
            (sourcesLit1 ++ (s5 ++ (sourcesLit2 ++ s6))))))) := by
      simp [pbx2, List.append_assoc]
    have hcnt : countOccB groupLit1
        ((s0 ++ (buildInsert files gen ++ (anchorBuild ++ (s1 ++ (fileRefInsert files gen ++
          (anchorFileRef ++ s2)))))) ++ (groupLit1 ++ (s3 ++ (groupLit2 ++ (s4 ++
            (sourcesLit1 ++ (s5 ++ (sourcesLit2 ++ s6)))))))) = 1 := by
      rw [← countOcc_eq_countOccB, ← heq]
      exact h3
    have hout := subAfterPair_single groupLit1 groupLit2 (groupInsert files gen)
      (s0 ++ (buildInsert files gen ++ (anchorBuild ++ (s1 ++ (fileRefInsert files gen ++
        (anchorFileRef ++ s2))))))
      s3
      (s4 ++ (sourcesLit1 ++ (s5 ++ (sourcesLit2 ++ s6))))
      groupLit1_ne_nil groupLit2_ne_nil
      (fun i hocc => countOccB_unique groupLit1 groupLit1_ne_nil _ hcnt i _
        hocc (occAt_mid _ _ _))
      (fun j hj hocc => h3g j hj hocc)
    show subAfterPair groupLit1 groupLit2 (groupInsert files gen)
      (pbx2 files gen s0 s1 s2 s3 s4 s5 s6) = _
    rw [heq, hout]
    simp [pbx3, List.append_assoc]
  have step4 : pass4 files gen (pbx3 files gen s0 s1 s2 s3 s4 s5 s6) =
      pbx4 files gen s0 s1 s2 s3 s4 s5 s6 := by
    have heq : pbx3 files gen s0 s1 s2 s3 s4 s5 s6 =
        (s0 ++ (buildInsert files gen ++ (anchorBuild ++ (s1 ++ (fileRefInsert files gen ++
          (anchorFileRef ++ (s2 ++ (groupLit1 ++ (s3 ++ (groupLit2 ++
            (groupInsert files gen ++ s4))))))))))) ++ (sourcesLit1 ++ (s5 ++
              (sourcesLit2 ++ s6))) := by
      simp [pbx3, List.append_assoc]
    have hcnt : countOccB sourcesLit1
        ((s0 ++ (buildInsert files gen ++ (anchorBuild ++ (s1 ++ (fileRefInsert files gen ++
          (anchorFileRef ++ (s2 ++ (groupLit1 ++ (s3 ++ (groupLit2 ++
            (groupInsert files gen ++ s4))))))))))) ++ (sourcesLit1 ++ (s5 ++
              (sourcesLit2 ++ s6)))) = 1 := by
      rw [← countOcc_eq_countOccB, ← heq]
      exact h4
    have hout := subAfterPair_single sourcesLit1 sourcesLit2 (sourcesInsert files gen)
      (s0 ++ (buildInsert files gen ++ (anchorBuild ++ (s1 ++ (fileRefInsert files gen ++
        (anchorFileRef ++ (s2 ++ (groupLit1 ++ (s3 ++ (groupLit2 ++
          (groupInsert files gen ++ s4)))))))))))
      s5 s6
      sourcesLit1_ne_nil sourcesLit2_ne_nil
      (fun i hocc => countOccB_unique sourcesLit1 sourcesLit1_ne_nil _ hcnt i _
        hocc (occAt_mid _ _ _))
      (fun j hj hocc => h4g j hj hocc)
    show subAfterPair sourcesLit1 sourcesLit2 (sourcesInsert files gen)
      (pbx3 files gen s0 s1 s2 s3 s4 s5 s6) = _
    rw [heq, hout]
    simp [pbx4, List.append_assoc]
  show pass4 files gen (pass3 files gen (pass2 files gen (pass1 files gen
    (pbx0 s0 s1 s2 s3 s4 s5 s6)))) = _
  rw [step1, step2, step3, step4]

theorem run_no_group (files : List (List Char)) (gen : Nat → List Nat)
    (s0 s1 s2 s5 s6 : List Char)
    (h1 : countOcc anchorBuild (pbxNg0 s0 s1 s2 s5 s6) = 1)
    (h2 : countOcc anchorFileRef (pass1 files gen (pbxNg0 s0 s1 s2 s5 s6)) = 1)
    (h3 : countOcc groupLit1 (pbxNg2 files gen s0 s1 s2 s5 s6) = 0)
    (h4 : countOcc sourcesLit1 (pbxNg2 files gen s0 s1 s2 s5 s6) = 1)
    (h4g : ∀ j, j < s5.length → ¬ occAt sourcesLit2 (s5 ++ (sourcesLit2 ++ s6)) j) :
    (add_files_to_project (pbxNg0 s0 s1 s2 s5 s6) files gen).content =
      pbxNg4 files gen s0 s1 s2 s5 s6 ∧
    pass3 files gen (pbxNg2 files gen s0 s1 s2 s5 s6) =
      pbxNg2 files gen s0 s1 s2 s5 s6 := by
  have step1 : pass1 files gen (pbxNg0 s0 s1 s2 s5 s6) =
      s0 ++ (buildInsert files gen ++ (anchorBuild ++ (s1 ++ (anchorFileRef ++ (s2 ++
        (sourcesLit1 ++ (s5 ++ (sourcesLit2 ++ s6)))))))) := by
    refine subBefore_single anchorBuild (buildInsert files gen) s0
      (s1 ++ (anchorFileRef ++ (s2 ++ (sourcesLit1 ++ (s5 ++ (sourcesLit2 ++ s6))))))
      anchorBuild_ne_nil ?_
    intro i hocc
    refine countOccB_unique anchorBuild anchorBuild_ne_nil _ ?_ i s0.length hocc
      (occAt_mid _ _ _)
    rw [← countOcc_eq_countOccB]
    exact h1
  have step2 : pass2 files gen (pass1 files gen (pbxNg0 s0 s1 s2 s5 s6)) =
      pbxNg2 files gen s0 s1 s2 s5 s6 := by
    have heq : pass1 files gen (pbxNg0 s0 s1 s2 s5 s6) =
        (s0 ++ (buildInsert files gen ++ (anchorBuild ++ s1))) ++ (anchorFileRef ++
          (s2 ++ (sourcesLit1 ++ (s5 ++ (sourcesLit2 ++ s6))))) := by
      rw [step1]
      simp [List.append_assoc]
    have hcnt : countOccB anchorFileRef
        ((s0 ++ (buildInsert files gen ++ (anchorBuild ++ s1))) ++ (anchorFileRef ++
          (s2 ++ (sourcesLit1 ++ (s5 ++ (sourcesLit2 ++ s6)))))) = 1 := by
      rw [← countOcc_eq_countOccB, ← heq]
      exact h2
    have hout := subBefore_single anchorFileRef (fileRefInsert files gen)
      (s0 ++ (buildInsert files gen ++ (anchorBuild ++ s1)))
      (s2 ++ (sourcesLit1 ++ (s5 ++ (sourcesLit2 ++ s6))))
      anchorFileRef_ne_nil
      (fun i hocc => countOccB_unique anchorFileRef anchorFileRef_ne_nil _ hcnt i _
        hocc (occAt_mid _ _ _))
    show subBefore anchorFileRef (fileRefInsert files gen)
      (pass1 files gen (pbxNg0 s0 s1 s2 s5 s6)) = _
    rw [heq, hout]
    simp [pbxNg2, List.append_assoc]
  have step3 : pass3 files gen (pbxNg2 files gen s0 s1 s2 s5 s6) =
      pbxNg2 files gen s0 s1 s2 s5 s6 := by
    refine subAfterPair_noOcc groupLit1 groupLit2 (groupInsert files gen) _ ?_
    intro i
    refine countOccB_zero groupLit1 _ ?_ i
    rw [← countOcc_eq_countOccB]
    exact h3
  have step4 : pass4 files gen (pbxNg2 files gen s0 s1 s2 s5 s6) =
      pbxNg4 files gen s0 s1 s2 s5 s6 := by
    have heq : pbxNg2 files gen s0 s1 s2 s5 s6 =
        (s0 ++ (buildInsert files gen ++ (anchorBuild ++ (s1 ++ (fileRefInsert files gen ++
          (anchorFileRef ++ s2)))))) ++ (sourcesLit1 ++ (s5 ++ (sourcesLit2 ++ s6))) := by
      simp [pbxNg2, List.append_assoc]
    have hcnt : countOccB sourcesLit1
        ((s0 ++ (buildInsert files gen ++ (anchorBuild ++ (s1 ++ (fileRefInsert files gen ++
          (anchorFileRef ++ s2)))))) ++ (sourcesLit1 ++ (s5 ++ (sourcesLit2 ++ s6)))) = 1 := by
      rw [← countOcc_eq_countOccB, ← heq]
      exact h4
    have hout := subAfterPair_single sourcesLit1 sourcesLit2 (sourcesInsert files gen)
      (s0 ++ (buildInsert files gen ++ (anchorBuild ++ (s1 ++ (fileRefInsert files gen ++
        (anchorFileRef ++ s2))))))
      s5 s6
      sourcesLit1_ne_nil sourcesLit2_ne_nil
      (fun i hocc => countOccB_unique sourcesLit1 sourcesLit1_ne_nil _ hcnt i _
        hocc (occAt_mid _ _ _))
      (fun j hj hocc => h4g j hj hocc)
    show subAfterPair sourcesLit1 sourcesLit2 (sourcesInsert files gen)
      (pbxNg2 files gen s0 s1 s2 s5 s6) = _
    rw [heq, hout]
    simp [pbxNg4, List.append_assoc]
  refine ⟨?_, step3⟩
  show pass4 files gen (pass3 files gen (pass2 files gen (pass1 files gen
    (pbxNg0 s0 s1 s2 s5 s6)))) = _
  rw [step2, step3, step4]

/-- C8: when each anchor is present (exactly once, in the canonical layout),
the accumulated PBXBuildFile and PBXFileReference lines are inserted
immediately before their end-of-section anchors, and the group-children and
Sources-files lines are inserted immediately after the opening-brace-plus-
list-start patterns located by the hardcoded root-group and Sources
identifiers. -/
theorem claim_C8 (files : List (List Char)) (gen : Nat → List Nat)
    (s0 s1 s2 s3 s4 s5 s6 : List Char)
    (h1 : countOcc anchorBuild (pbx0 s0 s1 s2 s3 s4 s5 s6) = 1)
    (h2 : countOcc anchorFileRef (pbx1 files gen s0 s1 s2 s3 s4 s5 s6) = 1)
    (h3 : countOcc groupLit1 (pbx2 files gen s0 s1 s2 s3 s4 s5 s6) = 1)
    (h3g : ∀ j, j < s3.length →
      ¬ occAt groupLit2 (s3 ++ (groupLit2 ++ (s4 ++ (sourcesLit1 ++ (s5 ++
        (sourcesLit2 ++ s6)))))) j)
    (h4 : countOcc sourcesLit1 (pbx3 files gen s0 s1 s2 s3 s4 s5 s6) = 1)
    (h4g : ∀ j, j < s5.length → ¬ occAt sourcesLit2 (s5 ++ (sourcesLit2 ++ s6)) j) :
    (add_files_to_project (pbx0 s0 s1 s2 s3 s4 s5 s6) files gen).content =
      pbx4 files gen s0 s1 s2 s3 s4 s5 s6 :=
  run_canonical files gen s0 s1 s2 s3 s4 s5 s6 h1 h2 h3 h3g h4 h4g

set_option maxRecDepth 200000 in
set_option maxHeartbeats 2000000 in
/-- Witness for C8 on a concrete small descriptor and a single path. -/
theorem claim_C8_witness :
    countOcc anchorBuild (pbx0 w0 w1 w2 w3 w4 w5 w6) = 1 ∧
    (add_files_to_project (pbx0 w0 w1 w2 w3 w4 w5 w6) wFiles wGen).content =
      pbx4 wFiles wGen w0 w1 w2 w3 w4 w5 w6 := by
  have e0 : pbx0 w0 w1 w2 w3 w4 w5 w6 = wD0 := by decide
  have e1 : pbx1 wFiles wGen w0 w1 w2 w3 w4 w5 w6 = wD1 := by decide
  have e2 : pbx2 wFiles wGen w0 w1 w2 w3 w4 w5 w6 = wD2 := by decide
  have e3 : pbx3 wFiles wGen w0 w1 w2 w3 w4 w5 w6 = wD3 := by decide
  have h1 : countOcc anchorBuild (pbx0 w0 w1 w2 w3 w4 w5 w6) = 1 := by
    rw [e0, countOcc_eq_countOccB]
    decide
  refine ⟨h1, claim_C8 wFiles wGen w0 w1 w2 w3 w4 w5 w6 h1 ?_ ?_ ?_ ?_ ?_⟩
  · rw [e1, countOcc_eq_countOccB]
    decide
  · rw [e2, countOcc_eq_countOccB]
    decide
  · decide
  · rw [e3, countOcc_eq_countOccB]
    decide
  · decide

theorem splitFirst_decomp (pat : List Char) :
    ∀ (s g r : List Char), splitFirst pat s = some (g, r) → s = g ++ (pat ++ r) := by
  intro s
  induction s with
  | nil =>
    intro g r hsp
    simp only [splitFirst] at hsp
    by_cases hl2 : pat = []
    · rw [if_pos hl2] at hsp
      simp only [Option.some.injEq, Prod.mk.injEq] at hsp
      subst hl2
      simp [← hsp.1, ← hsp.2]
    · rw [if_neg hl2] at hsp
      simp at hsp
  | cons d t iht =>
    intro g r hsp
    simp only [splitFirst] at hsp
    by_cases hpre : pat.isPrefixOf (d :: t) = true
    · rw [if_pos hpre] at hsp
      simp only [Option.some.injEq, Prod.mk.injEq] at hsp
      obtain ⟨t2, ht2⟩ := isPre_iff.mp hpre
      rw [← hsp.1, ← hsp.2, ht2]
      simp [List.drop_left]
    · rw [if_neg hpre] at hsp
      rcases hrec : splitFirst pat t with - | ⟨g2, r2⟩
      · rw [hrec] at hsp; simp at hsp
      · rw [hrec] at hsp
        simp only [Option.some.injEq, Prod.mk.injEq] at hsp
        have := iht g2 r2 hrec
        rw [← hsp.1, ← hsp.2]
        simp [this]

theorem subBeforeAux_sublist (pat ins : List Char) :
    ∀ (fuel : Nat) (s : List Char),
      s.Sublist (subBeforeAux pat ins fuel s) ∧
      ∃ k, (subBeforeAux pat ins fuel s).length = s.length + k * ins.length := by
  intro fuel
  induction fuel with
  | zero => intro s; exact ⟨List.Sublist.refl s, 0, by simp [subBeforeAux]⟩
  | succ f ih =>
    intro s
    cases s with
    | nil => exact ⟨List.Sublist.refl [], 0, by simp [subBeforeAux_nil]⟩
    | cons c rest =>
      show (c :: rest).Sublist (subBeforeAux pat ins (f + 1) (c :: rest)) ∧ _
      simp only [subBeforeAux]
      by_cases hc : pat ≠ [] ∧ pat.isPrefixOf (c :: rest)
      · rw [if_pos hc]
        obtain ⟨t, ht⟩ := isPre_iff.mp hc.2
        have hdrop : (c :: rest).drop pat.length = t := by
          rw [ht, List.drop_left]
        obtain ⟨hsub, k, hlen⟩ := ih ((c :: rest).drop pat.length)
        rw [hdrop] at hsub hlen
        constructor
        · have b1 : (pat ++ t).Sublist (pat ++ subBeforeAux pat ins f t) :=
            List.Sublist.append (List.Sublist.refl pat) hsub
          have b2 : (pat ++ subBeforeAux pat ins f t).Sublist
              (ins ++ (pat ++ subBeforeAux pat ins f t)) :=
            List.sublist_append_right ins _
          have b3 : (c :: rest).Sublist (ins ++ (pat ++ subBeforeAux pat ins f t)) := by
            rw [ht]
            exact b1.trans b2
          have hassoc : ins ++ (pat ++ subBeforeAux pat ins f t) =
              ins ++ pat ++ subBeforeAux pat ins f t := by
            simp [List.append_assoc]
          rw [hassoc] at b3
          rw [hdrop]
          exact b3
        · refine ⟨k + 1, ?_⟩
          rw [hdrop, Nat.succ_mul]
          have hct : (c :: rest).length = pat.length + t.length := by
            rw [ht, List.length_append]
          simp only [List.length_append, hlen]
          omega
      · rw [if_neg hc]
        obtain ⟨hsub, k, hlen⟩ := ih rest
        refine ⟨List.Sublist.cons₂ c hsub, k, ?_⟩
        simp only [List.length_cons, hlen]
        try omega

theorem subAfterPairAux_sublist (lit1 lit2 ins : List Char) :
    ∀ (fuel : Nat) (s : List Char),
      s.Sublist (subAfterPairAux lit1 lit2 ins fuel s) ∧
      ∃ k, (subAfterPairAux lit1 lit2 ins fuel s).length = s.length + k * ins.length := by
  intro fuel
  induction fuel with
  | zero => intro s; exact ⟨List.Sublist.refl s, 0, by simp [subAfterPairAux]⟩
  | succ f ih =>
    intro s
    cases s with
    | nil => exact ⟨List.Sublist.refl [], 0, by simp [subAfterPairAux_nil]⟩
    | cons c rest =>
      show (c :: rest).Sublist (subAfterPairAux lit1 lit2 ins (f + 1) (c :: rest)) ∧ _
      simp only [subAfterPairAux]
      by_cases hc : lit1 ≠ [] ∧ lit1.isPrefixOf (c :: rest)
      · rw [if_pos hc]
        rcases hsp : splitFirst lit2 ((c :: rest).drop lit1.length) with - | ⟨g, r⟩
        · exact ⟨List.Sublist.refl _, 0, by simp⟩
        · obtain ⟨t, ht⟩ := isPre_iff.mp hc.2
          have hdrop : (c :: rest).drop lit1.length = t := by
            rw [ht, List.drop_left]
          rw [hdrop] at hsp
          have hdec := splitFirst_decomp lit2 t g r hsp
          obtain ⟨hsub, k, hlen⟩ := ih r
          constructor
          · have b1 : (g ++ (lit2 ++ r)).Sublist
                (g ++ (lit2 ++ (ins ++ subAfterPairAux lit1 lit2 ins f r))) := by
              refine List.Sublist.append (List.Sublist.refl g) ?_
              refine List.Sublist.append (List.Sublist.refl lit2) ?_
              exact hsub.trans (List.sublist_append_right ins _)
            have b2 : (c :: rest).Sublist
                (lit1 ++ (g ++ (lit2 ++ (ins ++ subAfterPairAux lit1 lit2 ins f r)))) := by
              rw [ht, hdec]
              exact List.Sublist.append (List.Sublist.refl lit1) b1
            have hassoc : lit1 ++ (g ++ (lit2 ++ (ins ++ subAfterPairAux lit1 lit2 ins f r))) =
                lit1 ++ g ++ lit2 ++ ins ++ subAfterPairAux lit1 lit2 ins f r := by
              simp [List.append_assoc]
            rw [hassoc] at b2
            exact b2
          · refine ⟨k + 1, ?_⟩
            rw [Nat.succ_mul]
            have h1 : (c :: rest).length = lit1.length + t.length := by
              rw [ht, List.length_append]
            have h2 : t.length = g.length + (lit2.length + r.length) := by
              rw [hdec]
              simp [List.length_append]
            simp only [List.length_append, hlen]
            omega
      · rw [if_neg hc]
        obtain ⟨hsub, k, hlen⟩ := ih rest
        refine ⟨List.Sublist.cons₂ c hsub, k, ?_⟩
        simp only [List.length_cons, hlen]
        try omega

/-- C10: the transformation only inserts text: the original document is a
subsequence of the output, and the output length is the input length plus a
sum of whole inserted fragments (one multiple per substitution pass). -/
theorem claim_C10 (content : List Char) (files : List (List Char)) (gen : Nat → List Nat) :
    content.Sublist ((add_files_to_project content files gen).content) ∧
    ∃ k1 k2 k3 k4 : Nat,
      ((add_files_to_project content files gen).content).length =
        content.length + k1 * (buildInsert files gen).length +
          k2 * (fileRefInsert files gen).length + k3 * (groupInsert files gen).length +
          k4 * (sourcesInsert files gen).length := by
  obtain ⟨hs1, k1, hl1⟩ := subBeforeAux_sublist anchorBuild (buildInsert files gen)
    content.length content
  obtain ⟨hs2, k2, hl2⟩ := subBeforeAux_sublist anchorFileRef (fileRefInsert files gen)
    (pass1 files gen content).length (pass1 files gen content)
  obtain ⟨hs3, k3, hl3⟩ := subAfterPairAux_sublist groupLit1 groupLit2
    (groupInsert files gen) (pass2 files gen (pass1 files gen content)).length
    (pass2 files gen (pass1 files gen content))
  obtain ⟨hs4, k4, hl4⟩ := subAfterPairAux_sublist sourcesLit1 sourcesLit2
    (sourcesInsert files gen)
    (pass3 files gen (pass2 files gen (pass1 files gen content))).length
    (pass3 files gen (pass2 files gen (pass1 files gen content)))
  constructor
  · exact (hs1.trans (hs2.trans (hs3.trans hs4)))
  · exact ⟨k1, k2, k3, k4, by
      show (pass4 files gen (pass3 files gen (pass2 files gen
        (pass1 files gen content)))).length = _
      rw [pass4, subAfterPair, hl4]
      rw [pass3, subAfterPair, hl3]
      rw [pass2, subBefore, hl2]
      rw [pass1, subBefore, hl1]
      try omega⟩

/-- C9: for every run, the standard output is exactly one success banner
line followed by one marker-prefixed, indented line per added file path, in
the order of the input list. -/
theorem claim_C9 (content : List Char) (files : List (List Char)) (gen : Nat → List Nat) :
    (add_files_to_project content files gen).stdout =
      banner files :: files.map (fun p => chars "   - " ++ p) ∧
    (add_files_to_project content files gen).stdout.length = files.length + 1 := by
  refine ⟨rfl, ?_⟩
  show (banner files :: files.map (fun p => chars "   - " ++ p)).length = _
  simp [List.length_map]

set_option maxRecDepth 20000 in
theorem format02X_ok : ∀ b, b < 256 →
    (format02X b).length = 2 ∧ (format02X b).all isUpperHex = true := by decide

theorem flatMap_format02X (bs : List Nat) (h : ∀ b ∈ bs, b < 256) :
    (bs.flatMap format02X).length = 2 * bs.length ∧
    (bs.flatMap format02X).all isUpperHex = true := by
  induction bs with
  | nil => simp
  | cons b rest ih =>
    have hb := format02X_ok b (h b (List.mem_cons_self b rest))
    have hrest := ih (fun x hx => h x (List.mem_cons_of_mem b hx))
    simp only [List.flatMap_cons, List.length_append, List.all_append]
    constructor
    · rw [hb.1, hrest.1, List.length_cons]
      omega
    · rw [hb.2, hrest.2]
      rfl

theorem generate_id_spec (bytes : List Nat) (h16 : bytes.length = 16)
    (hlt : ∀ b ∈ bytes, b < 256) :
    (generate_id bytes).length = 24 ∧
    (generate_id bytes).all isUpperHex = true ∧
    generate_id bytes = (bytes.take 12).flatMap format02X := by
  have htake : (bytes.take 12).length = 12 := by
    rw [List.length_take, h16]
    decide
  have hmem : ∀ b ∈ bytes.take 12, b < 256 :=
    fun b hb => hlt b (List.mem_of_mem_take hb)
  obtain ⟨hlen, hall⟩ := flatMap_format02X (bytes.take 12) hmem
  refine ⟨?_, ?_, rfl⟩
  · show ((bytes.take 12).flatMap format02X).length = 24
    rw [hlen, htake]
  · exact hall

/-- C5: every identifier produced by generate_id from a 16-byte random value
(each byte below 256) is a 24-character string of uppercase hexadecimal
digits, obtained by rendering each of the first 12 bytes as two uppercase
hex digits. -/
theorem claim_C5 (bytes : List Nat) (h16 : bytes.length = 16)
    (hlt : ∀ b ∈ bytes, b < 256) :
    (generate_id bytes).length = 24 ∧
    (generate_id bytes).all isUpperHex = true ∧
    generate_id bytes = (bytes.take 12).flatMap format02X :=
  generate_id_spec bytes h16 hlt

/-- Witness for C5 at a concrete 16-byte value. -/
theorem claim_C5_witness :
    ([0, 1, 2, 3, 4, 5, 6, 7, 8, 9, 10, 11, 12, 13, 14, 255] : List Nat).length = 16 ∧
    (generate_id [0, 1, 2, 3, 4, 5, 6, 7, 8, 9, 10, 11, 12, 13, 14, 255]).length = 24 ∧
    (generate_id [0, 1, 2, 3, 4, 5, 6, 7, 8, 9, 10, 11, 12, 13, 14, 255]).all isUpperHex
      = true :=
  ⟨by decide,
   (claim_C5 [0, 1, 2, 3, 4, 5, 6, 7, 8, 9, 10, 11, 12, 13, 14, 255] (by decide)
     (by decide)).1,
   (claim_C5 [0, 1, 2, 3, 4, 5, 6, 7, 8, 9, 10, 11, 12, 13, 14, 255] (by decide)
     (by decide)).2.1⟩

/-- C4: when the group-membership anchor is absent, that insertion is a
silent no-op: the other three sections are modified as normal, the group
pass leaves the text unchanged, and the run still completes, printing the
usual report (the embedding is total, mirroring that re.sub without a match
raises no error). -/
theorem claim_C4 (files : List (List Char)) (gen : Nat → List Nat)
    (s0 s1 s2 s5 s6 : List Char)
    (h1 : countOcc anchorBuild (pbxNg0 s0 s1 s2 s5 s6) = 1)
    (h2 : countOcc anchorFileRef (pass1 files gen (pbxNg0 s0 s1 s2 s5 s6)) = 1)
    (h3 : countOcc groupLit1 (pbxNg2 files gen s0 s1 s2 s5 s6) = 0)
    (h4 : countOcc sourcesLit1 (pbxNg2 files gen s0 s1 s2 s5 s6) = 1)
    (h4g : ∀ j, j < s5.length → ¬ occAt sourcesLit2 (s5 ++ (sourcesLit2 ++ s6)) j) :
    (add_files_to_project (pbxNg0 s0 s1 s2 s5 s6) files gen).content =
      pbxNg4 files gen s0 s1 s2 s5 s6 ∧
    pass3 files gen (pbxNg2 files gen s0 s1 s2 s5 s6) =
      pbxNg2 files gen s0 s1 s2 s5 s6 ∧
    (add_files_to_project (pbxNg0 s0 s1 s2 s5 s6) files gen).stdout =
      banner files :: files.map (fun p => chars "   - " ++ p) := by
  obtain ⟨hc, hid⟩ := run_no_group files gen s0 s1 s2 s5 s6 h1 h2 h3 h4 h4g
  exact ⟨hc, hid, rfl⟩

set_option maxRecDepth 200000 in
set_option maxHeartbeats 2000000 in
/-- Witness for C4 on a concrete descriptor missing the group anchor. -/
theorem claim_C4_witness :
    countOcc groupLit1 (pbxNg2 wFiles wGen w0 w1 w2 w5 w6) = 0 ∧
    (add_files_to_project (pbxNg0 w0 w1 w2 w5 w6) wFiles wGen).content =
      pbxNg4 wFiles wGen w0 w1 w2 w5 w6 ∧
    pass3 wFiles wGen (pbxNg2 wFiles wGen w0 w1 w2 w5 w6) =
      pbxNg2 wFiles wGen w0 w1 w2 w5 w6 := by
  have e0 : pbxNg0 w0 w1 w2 w5 w6 = wE0 := by decide
  have e1 : pass1 wFiles wGen (pbxNg0 w0 w1 w2 w5 w6) = wE1 := by
    rw [e0]
    decide
  have e2 : pbxNg2 wFiles wGen w0 w1 w2 w5 w6 = wE2 := by decide
  have h3 : countOcc groupLit1 (pbxNg2 wFiles wGen w0 w1 w2 w5 w6) = 0 := by
    rw [e2, countOcc_eq_countOccB]
    decide
  obtain ⟨hc, hid, -⟩ := claim_C4 wFiles wGen w0 w1 w2 w5 w6
    (by rw [e0, countOcc_eq_countOccB]; decide)
    (by rw [e1, countOcc_eq_countOccB]; decide)
    h3
    (by rw [e2, countOcc_eq_countOccB]; decide)
    (by decide)
  exact ⟨h3, hc, hid⟩

set_option maxRecDepth 200000 in
/-- Counterexample to C2: the substitutions are global.  On a document
with two PBXBuildFile end-of-section anchors, the first pass inserts its
lines at both matches, so the marker occurs twice (the claim allows one),
and the text after the first match is not left unchanged. -/
theorem claim_C2_counterexample :
    countOcc cxMark cxDoc = 0 ∧
    countOcc cxMark (pass1 wFiles wGen cxDoc) = 2 ∧
    pass1 wFiles wGen cxDoc ≠
      chars "AA" ++ (buildInsert wFiles wGen ++ (anchorBuild ++
        chars "BB/* End PBXBuildFile section */CC")) := by
  have e : pass1 wFiles wGen cxDoc = cxOut := by decide
  refine ⟨?_, ?_, ?_⟩
  · rw [countOcc_eq_countOccB]
    decide
  · rw [e, countOcc_eq_countOccB]
    decide
  · rw [e]
    decide

theorem frN_length (gen : Nat → List Nat) :
    ∀ (ps : List (List Char)) (k : Nat), (frN gen ps k).length = ps.length := by
  intro ps
  induction ps with
  | nil => intro k; rfl
  | cons p rest ih => intro k; simp [frN, ih]

theorem bfN_length (gen : Nat → List Nat) :
    ∀ (ps : List (List Char)) (k : Nat), (bfN gen ps k).length = ps.length := by
  intro ps
  induction ps with
  | nil => intro k; rfl
  | cons p rest ih => intro k; simp [bfN, ih]

theorem buildDictsGo_eq (gen : Nat → List Nat) :
    ∀ (ps : List (List Char)) (k : Nat)
      (fr bf : List (List Char × List Char)),
      ps.Nodup →
      (∀ q ∈ ps, ∀ kv ∈ fr, kv.1 ≠ q) →
      (∀ q ∈ ps, ∀ kv ∈ bf, kv.1 ≠ q) →
      buildDictsGo gen ps k fr bf = (fr ++ frN gen ps k, bf ++ bfN gen ps k) := by
  intro ps
  induction ps with
  | nil =>
    intro k fr bf _ _ _
    simp [buildDictsGo, frN, bfN]
  | cons p rest ih =>
    intro k fr bf hnd hfr hbf
    have hp_fr : fr.any (fun kv => kv.1 = p) = false := by
      rw [List.any_eq_false]
      intro kv hkv
      simp only [decide_eq_true_eq]
      exact hfr p (List.mem_cons_self p rest) kv hkv
    have hp_bf : bf.any (fun kv => kv.1 = p) = false := by
      rw [List.any_eq_false]
      intro kv hkv
      simp only [decide_eq_true_eq]
      exact hbf p (List.mem_cons_self p rest) kv hkv
    have hset_fr : dictSet fr p (generate_id (gen k)) = fr ++ [(p, generate_id (gen k))] := by
      rw [dictSet, if_neg]
      rw [hp_fr]
      simp
    have hset_bf : dictSet bf p (generate_id (gen (k + 1))) =
        bf ++ [(p, generate_id (gen (k + 1)))] := by
      rw [dictSet, if_neg]
      rw [hp_bf]
      simp
    have hnotp : p ∉ rest := (List.nodup_cons.mp hnd).1
    show buildDictsGo gen rest (k + 2)
      (dictSet fr p (generate_id (gen k)))
      (dictSet bf p (generate_id (gen (k + 1)))) = _
    rw [hset_fr, hset_bf,
      ih (k + 2) (fr ++ [(p, generate_id (gen k))]) (bf ++ [(p, generate_id (gen (k + 1)))])
        (List.nodup_cons.mp hnd).2
        (by
          intro q hq kv hkv
          rcases List.mem_append.mp hkv with h | h
          · exact hfr q (List.mem_cons_of_mem p hq) kv h
          · have : kv = (p, generate_id (gen k)) := by simpa using h
            rw [this]
            show p ≠ q
            intro hqe
            exact hnotp (hqe ▸ hq)
        )
        (by
          intro q hq kv hkv
          rcases List.mem_append.mp hkv with h | h
          · exact hbf q (List.mem_cons_of_mem p hq) kv h
          · have : kv = (p, generate_id (gen (k + 1))) := by simpa using h
            rw [this]
            show p ≠ q
            intro hqe
            exact hnotp (hqe ▸ hq)
        )]
    show (fr ++ [(p, generate_id (gen k))] ++ frN gen rest (k + 2), _) = _
    simp [frN, bfN, List.append_assoc]

theorem fileRefsOf_eq (files : List (List Char)) (gen : Nat → List Nat)
    (hnd : files.Nodup) : fileRefsOf files gen = frN gen files 0 := by
  rw [fileRefsOf, buildDicts,
    buildDictsGo_eq gen files 0 [] [] hnd (by simp) (by simp)]
  simp

theorem buildFilesOf_eq (files : List (List Char)) (gen : Nat → List Nat)
    (hnd : files.Nodup) : buildFilesOf files gen = bfN gen files 0 := by
  rw [buildFilesOf, buildDicts,
    buildDictsGo_eq gen files 0 [] [] hnd (by simp) (by simp)]
  simp

theorem frN_getElem (gen : Nat → List Nat) :
    ∀ (ps : List (List Char)) (k i : Nat) (h : i < ps.length)
      (hb : i < (frN gen ps k).length),
      (frN gen ps k)[i] =
        (ps[i], generate_id (gen (k + 2 * i))) := by
  intro ps
  induction ps with
  | nil => intro k i h hb; simp at h
  | cons p rest ih =>
    intro k i h hb
    cases i with
    | zero => simp [frN]
    | succ j =>
      have hj : j < rest.length := by simpa using h
      have := ih (k + 2) j hj (by rw [frN_length]; exact hj)
      simp only [frN, List.getElem_cons_succ]
      rw [this]
      have : k + 2 + 2 * j = k + 2 * (j + 1) := by omega
      rw [this]

theorem bfN_getElem (gen : Nat → List Nat) :
    ∀ (ps : List (List Char)) (k i : Nat) (h : i < ps.length)
      (hb : i < (bfN gen ps k).length),
      (bfN gen ps k)[i] =
        (ps[i], generate_id (gen (k + 2 * i + 1))) := by
  intro ps
  induction ps with
  | nil => intro k i h hb; simp at h
  | cons p rest ih =>
    intro k i h hb
    cases i with
    | zero => simp [bfN]
    | succ j =>
      have hj : j < rest.length := by simpa using h
      have := ih (k + 2) j hj (by rw [bfN_length]; exact hj)
      simp only [bfN, List.getElem_cons_succ]
      rw [this]
      have : k + 2 + 2 * j + 1 = k + 2 * (j + 1) + 1 := by omega
      rw [this]

theorem dictGet_frN (gen : Nat → List Nat) :
    ∀ (ps : List (List Char)) (k i : Nat) (h : i < ps.length), ps.Nodup →
      dictGet (frN gen ps k) ps[i] = generate_id (gen (k + 2 * i)) := by
  intro ps
  induction ps with
  | nil => intro k i h; simp at h
  | cons p rest ih =>
    intro k i h hnd
    cases i with
    | zero =>
      show dictGet ((p, generate_id (gen k)) :: frN gen rest (k + 2)) p = _
      rw [dictGet, List.find?_cons_of_pos _ (by simp)]
      simp
    | succ j =>
      have hj : j < rest.length := by simpa using h
      have hne : p ≠ rest[j] := by
        intro hpe
        exact (List.nodup_cons.mp hnd).1 (hpe ▸ List.getElem_mem hj)
      show dictGet ((p, generate_id (gen k)) :: frN gen rest (k + 2)) rest[j] = _
      rw [dictGet, List.find?_cons_of_neg _ (by simpa using hne)]
      have := ih (k + 2) j hj (List.nodup_cons.mp hnd).2
      rw [dictGet] at this
      rw [this]
      have harith : k + 2 + 2 * j = k + 2 * (j + 1) := by omega
      rw [harith]

theorem dictGet_bfN (gen : Nat → List Nat) :
    ∀ (ps : List (List Char)) (k i : Nat) (h : i < ps.length), ps.Nodup →
      dictGet (bfN gen ps k) ps[i] = generate_id (gen (k + 2 * i + 1)) := by
  intro ps
  induction ps with
  | nil => intro k i h; simp at h
  | cons p rest ih =>
    intro k i h hnd
    cases i with
    | zero =>
      show dictGet ((p, generate_id (gen (k + 1))) :: bfN gen rest (k + 2)) p = _
      rw [dictGet, List.find?_cons_of_pos _ (by simp)]
      simp
    | succ j =>
      have hj : j < rest.length := by simpa using h
      have hne : p ≠ rest[j] := by
        intro hpe
        exact (List.nodup_cons.mp hnd).1 (hpe ▸ List.getElem_mem hj)
      show dictGet ((p, generate_id (gen (k + 1))) :: bfN gen rest (k + 2)) rest[j] = _
      rw [dictGet, List.find?_cons_of_neg _ (by simpa using hne)]
      have := ih (k + 2) j hj (List.nodup_cons.mp hnd).2
      rw [dictGet] at this
      rw [this]
      have harith : k + 2 + 2 * j + 1 = k + 2 * (j + 1) + 1 := by omega
      rw [harith]

theorem buildEntriesN_length (gen : Nat → List Nat) :
    ∀ (ps : List (List Char)) (k : Nat), (buildEntriesN gen ps k).length = ps.length := by
  intro ps
  induction ps with
  | nil => intro k; rfl
  | cons p rest ih => intro k; simp [buildEntriesN, ih]

theorem fileRefEntriesN_length (gen : Nat → List Nat) :
    ∀ (ps : List (List Char)) (k : Nat), (fileRefEntriesN gen ps k).length = ps.length := by
  intro ps
  induction ps with
  | nil => intro k; rfl
  | cons p rest ih => intro k; simp [fileRefEntriesN, ih]

theorem groupEntriesN_length (gen : Nat → List Nat) :
    ∀ (ps : List (List Char)) (k : Nat), (groupEntriesN gen ps k).length = ps.length := by
  intro ps
  induction ps with
  | nil => intro k; rfl
  | cons p rest ih => intro k; simp [groupEntriesN, ih]

theorem sourceEntriesN_length (gen : Nat → List Nat) :
    ∀ (ps : List (List Char)) (k : Nat), (sourceEntriesN gen ps k).length = ps.length := by
  intro ps
  induction ps with
  | nil => intro k; rfl
  | cons p rest ih => intro k; simp [sourceEntriesN, ih]

theorem buildEntriesN_getElem (gen : Nat → List Nat) :
    ∀ (ps : List (List Char)) (k i : Nat) (h : i < ps.length)
      (hb : i < (buildEntriesN gen ps k).length),
      (buildEntriesN gen ps k)[i] =
        buildFileEntry ps[i] (generate_id (gen (k + 2 * i + 1)))
          (generate_id (gen (k + 2 * i))) := by
  intro ps
  induction ps with
  | nil => intro k i h hb; simp at h
  | cons p rest ih =>
    intro k i h hb
    cases i with
    | zero => simp [buildEntriesN]
    | succ j =>
      have hj : j < rest.length := by simpa using h
      have := ih (k + 2) j hj (by rw [buildEntriesN_length]; exact hj)
      simp only [buildEntriesN, List.getElem_cons_succ]
      rw [this]
      have h1 : k + 2 + 2 * j + 1 = k + 2 * (j + 1) + 1 := by omega
      have h2 : k + 2 + 2 * j = k + 2 * (j + 1) := by omega
      rw [h1, h2]

theorem fileRefEntriesN_getElem (gen : Nat → List Nat) :
    ∀ (ps : List (List Char)) (k i : Nat) (h : i < ps.length)
      (hb : i < (fileRefEntriesN gen ps k).length),
      (fileRefEntriesN gen ps k)[i] =
        fileRefEntry ps[i] (generate_id (gen (k + 2 * i))) := by
  intro ps
  induction ps with
  | nil => intro k i h hb; simp at h
  | cons p rest ih =>
    intro k i h hb
    cases i with
    | zero => simp [fileRefEntriesN]
    | succ j =>
      have hj : j < rest.length := by simpa using h
      have := ih (k + 2) j hj (by rw [fileRefEntriesN_length]; exact hj)
      simp only [fileRefEntriesN, List.getElem_cons_succ]
      rw [this]
      have h2 : k + 2 + 2 * j = k + 2 * (j + 1) := by omega
      rw [h2]

theorem groupEntriesN_getElem (gen : Nat → List Nat) :
    ∀ (ps : List (List Char)) (k i : Nat) (h : i < ps.length)
      (hb : i < (groupEntriesN gen ps k).length),
      (groupEntriesN gen ps k)[i] =
        groupEntry ps[i] (generate_id (gen (k + 2 * i))) := by
  intro ps
  induction ps with
  | nil => intro k i h hb; simp at h
  | cons p rest ih =>
    intro k i h hb
    cases i with
    | zero => simp [groupEntriesN]
    | succ j =>
      have hj : j < rest.length := by simpa using h
      have := ih (k + 2) j hj (by rw [groupEntriesN_length]; exact hj)
      simp only [groupEntriesN, List.getElem_cons_succ]
      rw [this]
      have h2 : k + 2 + 2 * j = k + 2 * (j + 1) := by omega
      rw [h2]

theorem sourceEntriesN_getElem (gen : Nat → List Nat) :
    ∀ (ps : List (List Char)) (k i : Nat) (h : i < ps.length)
      (hb : i < (sourceEntriesN gen ps k).length),
      (sourceEntriesN gen ps k)[i] =
        sourceEntry ps[i] (generate_id (gen (k + 2 * i + 1))) := by
  intro ps
  induction ps with
  | nil => intro k i h hb; simp at h
  | cons p rest ih =>
    intro k i h hb
    cases i with
    | zero => simp [sourceEntriesN]
    | succ j =>
      have hj : j < rest.length := by simpa using h
      have := ih (k + 2) j hj (by rw [sourceEntriesN_length]; exact hj)
      simp only [sourceEntriesN, List.getElem_cons_succ]
      rw [this]
      have h1 : k + 2 + 2 * j + 1 = k + 2 * (j + 1) + 1 := by omega
      rw [h1]

theorem buildEntries_norm (files : List (List Char)) (gen : Nat → List Nat)
    (hnd : files.Nodup) :
    (buildFilesOf files gen).map
      (fun kv => buildFileEntry kv.1 kv.2 (dictGet (fileRefsOf files gen) kv.1)) =
    buildEntriesN gen files 0 := by
  rw [buildFilesOf_eq files gen hnd, fileRefsOf_eq files gen hnd]
  refine List.ext_getElem ?_ ?_
  · simp [List.length_map, bfN_length, buildEntriesN_length]
  · intro i h1 h2
    have hi : i < files.length := by
      simpa [List.length_map, bfN_length] using h1
    rw [List.getElem_map]
    rw [bfN_getElem gen files 0 i hi]
    rw [buildEntriesN_getElem gen files 0 i hi]
    show buildFileEntry files[i] (generate_id (gen (0 + 2 * i + 1)))
      (dictGet (frN gen files 0) files[i]) = _
    rw [dictGet_frN gen files 0 i hi hnd]

theorem fileRefEntries_norm (files : List (List Char)) (gen : Nat → List Nat)
    (hnd : files.Nodup) :
    (fileRefsOf files gen).map (fun kv => fileRefEntry kv.1 kv.2) =
    fileRefEntriesN gen files 0 := by
  rw [fileRefsOf_eq files gen hnd]
  refine List.ext_getElem ?_ ?_
  · simp [List.length_map, frN_length, fileRefEntriesN_length]
  · intro i h1 h2
    have hi : i < files.length := by
      simpa [List.length_map, frN_length] using h1
    rw [List.getElem_map]
    rw [frN_getElem gen files 0 i hi]
    rw [fileRefEntriesN_getElem gen files 0 i hi]

theorem groupEntries_norm (files : List (List Char)) (gen : Nat → List Nat)
    (hnd : files.Nodup) :
    files.map (fun p => groupEntry p (dictGet (fileRefsOf files gen) p)) =
    groupEntriesN gen files 0 := by
  rw [fileRefsOf_eq files gen hnd]
  refine List.ext_getElem ?_ ?_
  · simp [List.length_map, groupEntriesN_length]
  · intro i h1 h2
    have hi : i < files.length := by simpa [List.length_map] using h1
    rw [List.getElem_map]
    rw [groupEntriesN_getElem gen files 0 i hi]
    rw [dictGet_frN gen files 0 i hi hnd]

theorem sourceEntries_norm (files : List (List Char)) (gen : Nat → List Nat)
    (hnd : files.Nodup) :
    files.map (fun p => sourceEntry p (dictGet (buildFilesOf files gen) p)) =
    sourceEntriesN gen files 0 := by
  rw [buildFilesOf_eq files gen hnd]
  refine List.ext_getElem ?_ ?_
  · simp [List.length_map, sourceEntriesN_length]
  · intro i h1 h2
    have hi : i < files.length := by simpa [List.length_map] using h1
    rw [List.getElem_map]
    rw [sourceEntriesN_getElem gen files 0 i hi]
    rw [dictGet_bfN gen files 0 i hi hnd]

theorem buildInsert_norm (files : List (List Char)) (gen : Nat → List Nat)
    (hnd : files.Nodup) :
    buildInsert files gen = joinSep nlC (buildEntriesN gen files 0) ++ nlC := by
  rw [buildInsert, buildEntries_norm files gen hnd]

theorem fileRefInsert_norm (files : List (List Char)) (gen : Nat → List Nat)
    (hnd : files.Nodup) :
    fileRefInsert files gen = joinSep nlC (fileRefEntriesN gen files 0) ++ nlC := by
  rw [fileRefInsert, fileRefEntries_norm files gen hnd]

theorem groupInsert_norm (files : List (List Char)) (gen : Nat → List Nat)
    (hnd : files.Nodup) :
    groupInsert files gen = (groupEntriesN gen files 0).flatten := by
  rw [groupInsert, groupEntries_norm files gen hnd]

theorem sourcesInsert_norm (files : List (List Char)) (gen : Nat → List Nat)
    (hnd : files.Nodup) :
    sourcesInsert files gen = (sourceEntriesN gen files 0).flatten := by
  rw [sourcesInsert, sourceEntries_norm files gen hnd]

theorem splitOnChar_cons_eq (c a : Char) (rest s : List Char) (ss : List (List Char))
    (hsp : splitOnChar c rest = s :: ss) :
    splitOnChar c (a :: rest) = if a = c then [] :: s :: ss else (a :: s) :: ss := by
  show (match splitOnChar c rest with
    | [] => [[a]]
    | s :: ss => if a = c then [] :: s :: ss else (a :: s) :: ss) = _
  rw [hsp]

theorem splitOnChar_ne_nil (c : Char) : ∀ l, splitOnChar c l ≠ [] := by
  intro l
  induction l with
  | nil => simp [splitOnChar]
  | cons a rest ih =>
    rcases hsp : splitOnChar c rest with - | ⟨s, ss⟩
    · exact absurd hsp ih
    · rw [splitOnChar_cons_eq c a rest s ss hsp]
      split
      · simp
      · simp

theorem splitOnChar_single (c : Char) : ∀ l s, splitOnChar c l = [s] → s = l := by
  intro l
  induction l with
  | nil =>
    intro s h
    simp [splitOnChar] at h
    exact h
  | cons a rest ih =>
    intro s h
    rcases hsp : splitOnChar c rest with - | ⟨s2, ss⟩
    · exact absurd hsp (splitOnChar_ne_nil c rest)
    · rw [splitOnChar_cons_eq c a rest s2 ss hsp] at h
      by_cases ha : a = c
      · rw [if_pos ha] at h
        simp at h
      · rw [if_neg ha] at h
        simp only [List.cons.injEq] at h
        obtain ⟨hs, hss⟩ := h
        have : s2 = rest := ih s2 (by rw [hsp, hss])
        rw [← hs, this]

theorem filename_suffix : ∀ p : List Char, ∃ u, p = u ++ filename p := by
  intro p
  induction p with
  | nil => exact ⟨[], by simp [filename, splitOnChar]⟩
  | cons a rest ih =>
    obtain ⟨u, hu⟩ := ih
    rcases hsp : splitOnChar '/' rest with - | ⟨s, ss⟩
    · exact absurd hsp (splitOnChar_ne_nil '/' rest)
    · by_cases ha : a = '/'
      · have hfn : filename (a :: rest) = filename rest := by
          show (splitOnChar '/' (a :: rest)).getLastD [] = (splitOnChar '/' rest).getLastD []
          rw [splitOnChar_cons_eq '/' a rest s ss hsp, if_pos ha, hsp]
          rw [List.getLastD_cons]
        refine ⟨a :: u, ?_⟩
        rw [hfn]
        show a :: rest = a :: (u ++ filename rest)
        rw [← hu]
      · cases ss with
        | nil =>
          have hsr : s = rest := splitOnChar_single '/' rest s hsp
          have hfn : filename (a :: rest) = a :: rest := by
            show (splitOnChar '/' (a :: rest)).getLastD [] = _
            rw [splitOnChar_cons_eq '/' a rest s [] hsp, if_neg ha, hsr]
            rfl
          exact ⟨[], by rw [hfn]; rfl⟩
        | cons w ws =>
          have hfn : filename (a :: rest) = filename rest := by
            show (splitOnChar '/' (a :: rest)).getLastD [] = (splitOnChar '/' rest).getLastD []
            rw [splitOnChar_cons_eq '/' a rest s (w :: ws) hsp, if_neg ha, hsp]
            rw [List.getLastD_cons, List.getLastD_cons, List.getLastD_cons,
              List.getLastD_cons]
          refine ⟨a :: u, ?_⟩
          rw [hfn]
          show a :: rest = a :: (u ++ filename rest)
          rw [← hu]

theorem mem_filename {x : Char} {p : List Char} (h : x ∈ filename p) : x ∈ p := by
  obtain ⟨u, hu⟩ := filename_suffix p
  rw [hu]
  exact List.mem_append_right u h

theorem hexDigitU_hex : ∀ x, x < 16 → isUpperHex (hexDigitU x) = true := by decide

theorem toHexUpperAux_hex :
    ∀ (fuel x : Nat) (c : Char), c ∈ toHexUpperAux fuel x → isUpperHex c = true := by
  intro fuel
  induction fuel with
  | zero => intro x c h; simp [toHexUpperAux] at h
  | succ f ih =>
    intro x c h
    simp only [toHexUpperAux] at h
    by_cases hx : x < 16
    · rw [if_pos hx] at h
      simp at h
      rw [h]
      exact hexDigitU_hex x hx
    · rw [if_neg hx] at h
      rcases List.mem_append.mp h with h2 | h2
      · exact ih (x / 16) c h2
      · simp at h2
        rw [h2]
        exact hexDigitU_hex (x % 16) (Nat.mod_lt x (by omega))

theorem generate_id_all_hex (bytes : List Nat) :
    (generate_id bytes).all isUpperHex = true := by
  rw [List.all_eq_true]
  intro c hc
  obtain ⟨b, -, hcb⟩ := List.mem_flatMap.mp hc
  simp only [format02X] at hcb
  by_cases hlen : (toHexUpper b).length < 2
  · rw [if_pos hlen] at hcb
    rcases List.mem_append.mp hcb with h2 | h2
    · have : c = '0' := List.eq_of_mem_replicate h2
      rw [this]
      decide
    · exact toHexUpperAux_hex _ _ c h2
  · rw [if_neg hlen] at hcb
    exact toHexUpperAux_hex _ _ c hcb

theorem nl_not_mem_of_all_hex {l : List Char} (h : l.all isUpperHex = true) :
    ('\n' : Char) ∉ l := by
  intro hmem
  have := List.all_eq_true.mp h _ hmem
  simp [isUpperHex] at this

theorem count_nl_of_all_hex {l : List Char} (h : l.all isUpperHex = true) :
    List.count '\n' l = 0 :=
  List.count_eq_zero.mpr (nl_not_mem_of_all_hex h)

theorem count_nl_filename {p : List Char} (hp : ('\n' : Char) ∉ p) :
    List.count '\n' (filename p) = 0 :=
  List.count_eq_zero.mpr (fun h => hp (mem_filename h))

theorem count_nl_buildFileEntry (p bid fid : List Char) (hp : ('\n' : Char) ∉ p)
    (hb : bid.all isUpperHex = true) (hf : fid.all isUpperHex = true) :
    List.count '\n' (buildFileEntry p bid fid) = 0 := by
  simp only [buildFileEntry, List.count_append]
  rw [count_nl_of_all_hex hb, count_nl_of_all_hex hf, count_nl_filename hp]
  decide

theorem count_nl_fileRefEntry (p fid : List Char) (hp : ('\n' : Char) ∉ p)
    (hf : fid.all isUpperHex = true) :
    List.count '\n' (fileRefEntry p fid) = 0 := by
  simp only [fileRefEntry, List.count_append]
  rw [count_nl_of_all_hex hf, count_nl_filename hp,
    List.count_eq_zero.mpr hp]
  decide

theorem count_nl_groupEntry (p fid : List Char) (hp : ('\n' : Char) ∉ p)
    (hf : fid.all isUpperHex = true) :
    List.count '\n' (groupEntry p fid) = 1 := by
  simp only [groupEntry, List.count_append]
  rw [count_nl_of_all_hex hf, count_nl_filename hp]
  decide

theorem count_nl_sourceEntry (p bid : List Char) (hp : ('\n' : Char) ∉ p)
    (hb : bid.all isUpperHex = true) :
    List.count '\n' (sourceEntry p bid) = 1 := by
  simp only [sourceEntry, List.count_append]
  rw [count_nl_of_all_hex hb, count_nl_filename hp]
  decide

theorem buildEntriesN_mem (gen : Nat → List Nat) :
    ∀ (ps : List (List Char)) (k : Nat) (e : List Char), e ∈ buildEntriesN gen ps k →
      ∃ q ∈ ps, ∃ j : Nat,
        e = buildFileEntry q (generate_id (gen (j + 1))) (generate_id (gen j)) := by
  intro ps
  induction ps with
  | nil => intro k e h; simp [buildEntriesN] at h
  | cons p rest ih =>
    intro k e h
    rcases List.mem_cons.mp h with h2 | h2
    · exact ⟨p, List.mem_cons_self p rest, k, h2⟩
    · obtain ⟨q, hq, j, hj⟩ := ih (k + 2) e h2
      exact ⟨q, List.mem_cons_of_mem p hq, j, hj⟩

theorem fileRefEntriesN_mem (gen : Nat → List Nat) :
    ∀ (ps : List (List Char)) (k : Nat) (e : List Char), e ∈ fileRefEntriesN gen ps k →
      ∃ q ∈ ps, ∃ j : Nat, e = fileRefEntry q (generate_id (gen j)) := by
  intro ps
  induction ps with
  | nil => intro k e h; simp [fileRefEntriesN] at h
  | cons p rest ih =>
    intro k e h
    rcases List.mem_cons.mp h with h2 | h2
    · exact ⟨p, List.mem_cons_self p rest, k, h2⟩
    · obtain ⟨q, hq, j, hj⟩ := ih (k + 2) e h2
      exact ⟨q, List.mem_cons_of_mem p hq, j, hj⟩

theorem groupEntriesN_mem (gen : Nat → List Nat) :
    ∀ (ps : List (List Char)) (k : Nat) (e : List Char), e ∈ groupEntriesN gen ps k →
      ∃ q ∈ ps, ∃ j : Nat, e = groupEntry q (generate_id (gen j)) := by
  intro ps
  induction ps with
  | nil => intro k e h; simp [groupEntriesN] at h
  | cons p rest ih =>
    intro k e h
    rcases List.mem_cons.mp h with h2 | h2
    · exact ⟨p, List.mem_cons_self p rest, k, h2⟩
    · obtain ⟨q, hq, j, hj⟩ := ih (k + 2) e h2
      exact ⟨q, List.mem_cons_of_mem p hq, j, hj⟩

theorem sourceEntriesN_mem (gen : Nat → List Nat) :
    ∀ (ps : List (List Char)) (k : Nat) (e : List Char), e ∈ sourceEntriesN gen ps k →
      ∃ q ∈ ps, ∃ j : Nat, e = sourceEntry q (generate_id (gen j)) := by
  intro ps
  induction ps with
  | nil => intro k e h; simp [sourceEntriesN] at h
  | cons p rest ih =>
    intro k e h
    rcases List.mem_cons.mp h with h2 | h2
    · exact ⟨p, List.mem_cons_self p rest, k + 1, h2⟩
    · obtain ⟨q, hq, j, hj⟩ := ih (k + 2) e h2
      exact ⟨q, List.mem_cons_of_mem p hq, j, hj⟩

theorem count_nl_joinSep (es : List (List Char)) (hne : es ≠ [])
    (h : ∀ e ∈ es, List.count '\n' e = 0) :
    List.count '\n' (joinSep nlC es ++ nlC) = es.length := by
  induction es with
  | nil => exact absurd rfl hne
  | cons e rest ih =>
    cases rest with
    | nil =>
      show List.count '\n' (e ++ nlC) = 1
      rw [List.count_append, h e (List.mem_cons_self e [])]
      decide
    | cons e2 rest2 =>
      have hjoin : joinSep nlC (e :: e2 :: rest2) = e ++ nlC ++ joinSep nlC (e2 :: rest2) :=
        rfl
      rw [hjoin]
      have : e ++ nlC ++ joinSep nlC (e2 :: rest2) ++ nlC =
          e ++ (nlC ++ (joinSep nlC (e2 :: rest2) ++ nlC)) := by
        simp [List.append_assoc]
      rw [this, List.count_append, List.count_append]
      rw [h e (List.mem_cons_self e _)]
      rw [ih (by simp) (fun x hx => h x (List.mem_cons_of_mem e hx))]
      simp [List.length_cons, nlC, chars]
      try omega

theorem count_nl_flatten_ones (es : List (List Char))
    (h : ∀ e ∈ es, List.count '\n' e = 1) :
    List.count '\n' es.flatten = es.length := by
  induction es with
  | nil => simp
  | cons e rest ih =>
    rw [List.flatten_cons, List.count_append, h e (List.mem_cons_self e rest),
      ih (fun x hx => h x (List.mem_cons_of_mem e hx))]
    simp [List.length_cons]
    omega

theorem count_nl_buildInsert (files : List (List Char)) (gen : Nat → List Nat)
    (hne : files ≠ []) (hnd : files.Nodup) (hp : ∀ q ∈ files, ('\n' : Char) ∉ q) :
    List.count '\n' (buildInsert files gen) = files.length := by
  rw [buildInsert_norm files gen hnd,
    count_nl_joinSep _
      (by
        intro h
        have := buildEntriesN_length gen files 0
        rw [h] at this
        simp at this
        exact hne (List.length_eq_zero.mp this.symm))
      (by
        intro e he
        obtain ⟨q, hq, j, hj⟩ := buildEntriesN_mem gen files 0 e he
        rw [hj]
        exact count_nl_buildFileEntry q _ _ (hp q hq) (generate_id_all_hex _)
          (generate_id_all_hex _)),
    buildEntriesN_length]

theorem count_nl_fileRefInsert (files : List (List Char)) (gen : Nat → List Nat)
    (hne : files ≠ []) (hnd : files.Nodup) (hp : ∀ q ∈ files, ('\n' : Char) ∉ q) :
    List.count '\n' (fileRefInsert files gen) = files.length := by
  rw [fileRefInsert_norm files gen hnd,
    count_nl_joinSep _
      (by
        intro h
        have := fileRefEntriesN_length gen files 0
        rw [h] at this
        simp at this
        exact hne (List.length_eq_zero.mp this.symm))
      (by
        intro e he
        obtain ⟨q, hq, j, hj⟩ := fileRefEntriesN_mem gen files 0 e he
        rw [hj]
        exact count_nl_fileRefEntry q _ (hp q hq) (generate_id_all_hex _)),
    fileRefEntriesN_length]

theorem count_nl_groupInsert (files : List (List Char)) (gen : Nat → List Nat)
    (hnd : files.Nodup) (hp : ∀ q ∈ files, ('\n' : Char) ∉ q) :
    List.count '\n' (groupInsert files gen) = files.length := by
  rw [groupInsert_norm files gen hnd,
    count_nl_flatten_ones _
      (by
        intro e he
        obtain ⟨q, hq, j, hj⟩ := groupEntriesN_mem gen files 0 e he
        rw [hj]
        exact count_nl_groupEntry q _ (hp q hq) (generate_id_all_hex _)),
    groupEntriesN_length]

theorem count_nl_sourcesInsert (files : List (List Char)) (gen : Nat → List Nat)
    (hnd : files.Nodup) (hp : ∀ q ∈ files, ('\n' : Char) ∉ q) :
    List.count '\n' (sourcesInsert files gen) = files.length := by
  rw [sourcesInsert_norm files gen hnd,
    count_nl_flatten_ones _
      (by
        intro e he
        obtain ⟨q, hq, j, hj⟩ := sourceEntriesN_mem gen files 0 e he
        rw [hj]
        exact count_nl_sourceEntry q _ (hp q hq) (generate_id_all_hex _)),
    sourceEntriesN_length]

theorem idsN_length (gen : Nat → List Nat) :
    ∀ (ps : List (List Char)) (k : Nat), (idsN gen ps k).length = 2 * ps.length := by
  intro ps
  induction ps with
  | nil => intro k; rfl
  | cons p rest ih =>
    intro k
    show (generate_id (gen k) :: generate_id (gen (k + 1)) :: idsN gen rest (k + 2)).length = _
    simp [ih, List.length_cons]
    omega

theorem idsN_mem (gen : Nat → List Nat) :
    ∀ (ps : List (List Char)) (k : Nat) (x : List Char), x ∈ idsN gen ps k →
      ∃ j, j < 2 * ps.length ∧ x = generate_id (gen (k + j)) := by
  intro ps
  induction ps with
  | nil => intro k x h; simp [idsN] at h
  | cons p rest ih =>
    intro k x h
    rcases List.mem_cons.mp h with h2 | h2
    · exact ⟨0, by simp [List.length_cons]; try omega, by simpa using h2⟩
    · rcases List.mem_cons.mp h2 with h3 | h3
      · exact ⟨1, by simp [List.length_cons]; try omega, by simpa using h3⟩
      · obtain ⟨j, hj, hx⟩ := ih (k + 2) x h3
        refine ⟨j + 2, by simp [List.length_cons]; try omega, ?_⟩
        rw [hx]
        have : k + 2 + j = k + (j + 2) := by omega
        rw [this]

theorem idsN_nodup (gen : Nat → List Nat) :
    ∀ (ps : List (List Char)) (k : Nat),
      (∀ j1 j2, j1 < 2 * ps.length → j2 < 2 * ps.length → j1 ≠ j2 →
        generate_id (gen (k + j1)) ≠ generate_id (gen (k + j2))) →
      (idsN gen ps k).Nodup := by
  intro ps
  induction ps with
  | nil => intro k _; exact List.nodup_nil
  | cons p rest ih =>
    intro k hd
    have hlen : 2 * (p :: rest).length = 2 * rest.length + 2 := by
      simp [List.length_cons]
      omega
    show (generate_id (gen k) :: generate_id (gen (k + 1)) :: idsN gen rest (k + 2)).Nodup
    rw [List.nodup_cons, List.nodup_cons]
    refine ⟨?_, ?_, ?_⟩
    · intro hmem
      rcases List.mem_cons.mp hmem with h2 | h2
      · exact hd 0 1 (by omega) (by omega) (by omega) (by simpa using h2)
      · obtain ⟨j, hj, hx⟩ := idsN_mem gen rest (k + 2) _ h2
        refine hd 0 (j + 2) (by omega) (by omega) (by omega) ?_
        have e : k + (j + 2) = k + 2 + j := by omega
        rw [e]
        exact hx
    · intro hmem
      obtain ⟨j, hj, hx⟩ := idsN_mem gen rest (k + 2) _ hmem
      refine hd 1 (j + 2) (by omega) (by omega) (by omega) ?_
      have e : k + (j + 2) = k + 2 + j := by omega
      rw [e]
      exact hx
    · refine ih (k + 2) ?_
      intro j1 j2 h1 h2 hne12
      have := hd (j1 + 2) (j2 + 2) (by omega) (by omega) (by omega)
      have e1 : k + (j1 + 2) = k + 2 + j1 := by omega
      have e2 : k + (j2 + 2) = k + 2 + j2 := by omega
      rw [e1, e2] at this
      exact this

/-- C1 amended: for a document with all four anchors occurring exactly once
(at each substitution stage) and a non-empty list of pairwise-distinct,
newline-free paths whose 2n drawn identifiers are pairwise distinct, the run
draws exactly 2n identifiers (two per path, all distinct) and each of the
four inserted fragments consists of exactly n new lines. -/
theorem claim_C1_amended (files : List (List Char)) (gen : Nat → List Nat)
    (s0 s1 s2 s3 s4 s5 s6 : List Char)
    (hne : files ≠ []) (hnd : files.Nodup)
    (hp : ∀ q ∈ files, ('\n' : Char) ∉ q)
    (hids : ∀ j1, j1 < 2 * files.length → ∀ j2, j2 < 2 * files.length → j1 ≠ j2 →
      generate_id (gen j1) ≠ generate_id (gen j2))
    (h1 : countOcc anchorBuild (pbx0 s0 s1 s2 s3 s4 s5 s6) = 1)
    (h2 : countOcc anchorFileRef (pbx1 files gen s0 s1 s2 s3 s4 s5 s6) = 1)
    (h3 : countOcc groupLit1 (pbx2 files gen s0 s1 s2 s3 s4 s5 s6) = 1)
    (h3g : ∀ j, j < s3.length →
      ¬ occAt groupLit2 (s3 ++ (groupLit2 ++ (s4 ++ (sourcesLit1 ++ (s5 ++
        (sourcesLit2 ++ s6)))))) j)
    (h4 : countOcc sourcesLit1 (pbx3 files gen s0 s1 s2 s3 s4 s5 s6) = 1)
    (h4g : ∀ j, j < s5.length → ¬ occAt sourcesLit2 (s5 ++ (sourcesLit2 ++ s6)) j) :
    (add_files_to_project (pbx0 s0 s1 s2 s3 s4 s5 s6) files gen).content =
      pbx4 files gen s0 s1 s2 s3 s4 s5 s6 ∧
    List.count '\n' (buildInsert files gen) = files.length ∧
    List.count '\n' (fileRefInsert files gen) = files.length ∧
    List.count '\n' (groupInsert files gen) = files.length ∧
    List.count '\n' (sourcesInsert files gen) = files.length ∧
    (idsN gen files 0).length = 2 * files.length ∧
    (idsN gen files 0).Nodup := by
  refine ⟨run_canonical files gen s0 s1 s2 s3 s4 s5 s6 h1 h2 h3 h3g h4 h4g,
    count_nl_buildInsert files gen hne hnd hp,
    count_nl_fileRefInsert files gen hne hnd hp,
    count_nl_groupInsert files gen hnd hp,
    count_nl_sourcesInsert files gen hnd hp,
    idsN_length gen files 0,
    idsN_nodup gen files 0 ?_⟩
  intro j1 j2 ha hb hc
  have := hids j1 ha j2 hb hc
  simpa using this

set_option maxRecDepth 200000 in
set_option maxHeartbeats 2000000 in
/-- Witness for the amended C1 on the concrete small descriptor. -/
theorem claim_C1_amended_witness :
    wFiles.Nodup ∧
    ((add_files_to_project (pbx0 w0 w1 w2 w3 w4 w5 w6) wFiles wGen).content =
      pbx4 wFiles wGen w0 w1 w2 w3 w4 w5 w6 ∧
    List.count '\n' (buildInsert wFiles wGen) = wFiles.length ∧
    List.count '\n' (fileRefInsert wFiles wGen) = wFiles.length ∧
    List.count '\n' (groupInsert wFiles wGen) = wFiles.length ∧
    List.count '\n' (sourcesInsert wFiles wGen) = wFiles.length ∧
    (idsN wGen wFiles 0).length = 2 * wFiles.length ∧
    (idsN wGen wFiles 0).Nodup) := by
  have e0 : pbx0 w0 w1 w2 w3 w4 w5 w6 = wD0 := by decide
  have e1 : pbx1 wFiles wGen w0 w1 w2 w3 w4 w5 w6 = wD1 := by decide
  have e2 : pbx2 wFiles wGen w0 w1 w2 w3 w4 w5 w6 = wD2 := by decide
  have e3 : pbx3 wFiles wGen w0 w1 w2 w3 w4 w5 w6 = wD3 := by decide
  refine ⟨by decide, claim_C1_amended wFiles wGen w0 w1 w2 w3 w4 w5 w6
    (by decide) (by decide) (by decide) (by decide)
    (by rw [e0, countOcc_eq_countOccB]; decide)
    (by rw [e1, countOcc_eq_countOccB]; decide)
    (by rw [e2, countOcc_eq_countOccB]; decide)
    (by decide)
    (by rw [e3, countOcc_eq_countOccB]; decide)
    (by decide)⟩

set_option maxRecDepth 200000 in
set_option maxHeartbeats 2000000 in
/-- Counterexample to C1 as stated: on a document with all four anchors
exactly once and the two-element path list with a repeated path, the
PBXBuildFile section receives one line, not two (the dictionaries collapse
duplicate keys), and the whole run adds 6 newlines rather than the 4n = 8
the claim requires. -/
theorem claim_C1_counterexample :
    dupFiles.length = 2 ∧
    countOcc anchorBuild wD0 = 1 ∧
    countOcc anchorFileRef wD0 = 1 ∧
    countOcc groupLit1 wD0 = 1 ∧
    countOcc sourcesLit1 wD0 = 1 ∧
    countOcc cxMark wD0 = 0 ∧
    countOcc cxMark ((add_files_to_project wD0 dupFiles wGen).content) = 1 ∧
    List.count '\n' ((add_files_to_project wD0 dupFiles wGen).content) =
      List.count '\n' wD0 + 6 := by
  have e : (add_files_to_project wD0 dupFiles wGen).content = dupOut := by decide
  refine ⟨by decide, ?_, ?_, ?_, ?_, ?_, ?_, ?_⟩
  · rw [countOcc_eq_countOccB]; decide
  · rw [countOcc_eq_countOccB]; decide
  · rw [countOcc_eq_countOccB]; decide
  · rw [countOcc_eq_countOccB]; decide
  · rw [countOcc_eq_countOccB]; decide
  · rw [e, countOcc_eq_countOccB]; decide
  · rw [e]; decide

theorem isPre_nil_iff {pat : List Char} : pat.isPrefixOf ([] : List Char) = true ↔ pat = [] := by
  constructor
  · intro h
    obtain ⟨t, ht⟩ := isPre_iff.mp h
    exact (List.append_eq_nil.mp ht.symm).1
  · intro h
    rw [h]
    rfl

theorem isPre_take_eq {pat s : List Char} (h : pat.isPrefixOf s = true) :
    s.take pat.length = pat := by
  obtain ⟨t, rfl⟩ := isPre_iff.mp h
  exact List.take_left pat t

theorem isPre_of_take_eq {pat s : List Char} (h : s.take pat.length = pat) :
    pat.isPrefixOf s = true :=
  isPre_iff.mpr ⟨s.drop pat.length, by
    conv_lhs => rw [← List.take_append_drop pat.length s]
    rw [h]⟩

theorem countOcc_append (pat x y : List Char) (hne : pat ≠ [])
    (hsplit : ∀ i, i < x.length → occAt pat (x ++ y) i → i + pat.length ≤ x.length) :
    countOcc pat (x ++ y) = countOcc pat x + countOcc pat y := by
  show (List.range ((x ++ y).length + 1)).countP
      (fun i => pat.isPrefixOf ((x ++ y).drop i)) = _
  have hxy : (x ++ y).length + 1 = x.length + (y.length + 1) := by
    rw [List.length_append]
    omega
  rw [hxy, List.range_add, List.countP_append, List.countP_map]
  have part2 : (List.range (y.length + 1)).countP
      ((fun i => pat.isPrefixOf ((x ++ y).drop i)) ∘ (fun j => x.length + j)) =
      countOcc pat y := by
    refine List.countP_congr ?_
    intro j _
    show pat.isPrefixOf ((x ++ y).drop (x.length + j)) = true ↔
      pat.isPrefixOf (y.drop j) = true
    rw [List.drop_append]
  have part1 : (List.range x.length).countP
      (fun i => pat.isPrefixOf ((x ++ y).drop i)) = countOcc pat x := by
    show _ = (List.range (x.length + 1)).countP (fun i => pat.isPrefixOf (x.drop i))
    rw [List.range_succ, List.countP_append]
    have hlast : ([x.length] : List Nat).countP (fun i => pat.isPrefixOf (x.drop i)) = 0 := by
      simp only [List.countP_cons, List.countP_nil]
      have : x.drop x.length = [] := by simp
      rw [this]
      have : pat.isPrefixOf ([] : List Char) = false := by
        rw [Bool.eq_false_iff]
        intro hcon
        exact hne (isPre_nil_iff.mp hcon)
      rw [this]
      simp
    rw [hlast]
    have : (List.range x.length).countP (fun i => pat.isPrefixOf ((x ++ y).drop i)) =
        (List.range x.length).countP (fun i => pat.isPrefixOf (x.drop i)) := by
      refine List.countP_congr ?_
      intro i hi
      have hilt : i < x.length := List.mem_range.mp hi
      show pat.isPrefixOf ((x ++ y).drop i) = true ↔ pat.isPrefixOf (x.drop i) = true
      constructor
      · intro h
        have hroom : i + pat.length ≤ x.length := hsplit i hilt h
        have hdrop : (x ++ y).drop i = x.drop i ++ y :=
          List.drop_append_of_le_length (le_of_lt hilt)
        rw [hdrop] at h
        refine isPre_of_take_eq ?_
        have htk := isPre_take_eq h
        rw [List.take_append_of_le_length (by
          rw [List.length_drop]
          omega)] at htk
        exact htk
      · intro h
        exact occAt_append_of_left y h
    rw [this]
    omega
  rw [part1, part2]

theorem hex_cover (pat full : List Char) (hal : pat.all isUpperHex = true) (i m : Nat)
    (hocc : occAt pat full i) (h1 : i ≤ m) (h2 : m < i + pat.length)
    (hm : m < full.length) : isUpperHex (full[m]) = true := by
  obtain ⟨t, ht⟩ := isPre_iff.mp hocc
  have hj : m - i < pat.length := by omega
  have k1 : full[m]? = (full.drop i)[m - i]? := by
    rw [List.getElem?_drop]
    congr 1
    omega
  have k2 : (full.drop i)[m - i]? = pat[m - i]? := by
    rw [ht, List.getElem?_append]
    rw [if_pos hj]
  have k3 : pat[m - i]? = some (pat[m - i]) := List.getElem?_eq_getElem hj
  have k4 : full[m]? = some (full[m]) := List.getElem?_eq_getElem hm
  have : full[m] = pat[m - i] := by
    have := k4.symm.trans (k1.trans (k2.trans k3))
    exact Option.some.inj this
  rw [this]
  exact List.all_eq_true.mp hal _ (List.getElem_mem hj)

theorem countOcc_append_head (pat x y : List Char) (hne : pat ≠ [])
    (hal : pat.all isUpperHex = true) (hhead : headNonHex y) :
    countOcc pat (x ++ y) = countOcc pat x + countOcc pat y := by
  refine countOcc_append pat x y hne ?_
  intro i hi hocc
  by_contra hcon
  push_neg at hcon
  obtain ⟨d, y2, hy, hd⟩ := hhead
  subst hy
  have hm : x.length < (x ++ d :: y2).length := by
    rw [List.length_append]
    simp [List.length_cons]
  have hx := hex_cover pat (x ++ d :: y2) hal i x.length hocc (le_of_lt hi)
    (by omega) hm
  have he : (x ++ d :: y2)[x.length] = d := by
    rw [List.getElem_append_right (le_refl x.length)]
    simp
  rw [he] at hx
  rw [hx] at hd
  simp at hd

theorem countOcc_append_last (pat x y : List Char) (hne : pat ≠ [])
    (hal : pat.all isUpperHex = true) (hlast : lastNonHex x) :
    countOcc pat (x ++ y) = countOcc pat x + countOcc pat y := by
  refine countOcc_append pat x y hne ?_
  intro i hi hocc
  by_contra hcon
  push_neg at hcon
  obtain ⟨x2, c, hx2, hc⟩ := hlast
  subst hx2
  have hxlen : (x2 ++ [c]).length = x2.length + 1 := by
    rw [List.length_append]
    rfl
  have hm : x2.length < ((x2 ++ [c]) ++ y).length := by
    rw [List.length_append, hxlen]
    omega
  have hx := hex_cover pat ((x2 ++ [c]) ++ y) hal i x2.length hocc
    (by omega) (by omega) hm
  have he : ((x2 ++ [c]) ++ y)[x2.length] = c := by
    have q1 : ((x2 ++ [c]) ++ y)[x2.length]? = (x2 ++ [c])[x2.length]? := by
      rw [List.getElem?_append]
      rw [if_pos (by rw [hxlen]; omega)]
    have q2 : (x2 ++ [c])[x2.length]? = some c := by
      rw [List.getElem?_append]
      rw [if_neg (by omega)]
      simp
    have q3 := List.getElem?_eq_getElem hm
    have := q3.symm.trans (q1.trans q2)
    exact Option.some.inj this
  rw [he] at hx
  rw [hx] at hc
  simp at hc

theorem headNonHex_append (b z : List Char) (h : headNonHex b) : headNonHex (b ++ z) := by
  obtain ⟨d, y, hy, hd⟩ := h
  exact ⟨d, y ++ z, by rw [hy]; rfl, hd⟩

theorem lastNonHex_append (a z : List Char) (h : lastNonHex z) : lastNonHex (a ++ z) := by
  obtain ⟨x2, c, hx, hc⟩ := h
  exact ⟨a ++ x2, c, by rw [hx]; simp [List.append_assoc], hc⟩

theorem countOcc_zero_of_short (pat t : List Char) (h : t.length < pat.length) :
    countOcc pat t = 0 := by
  rw [countOcc, List.countP_eq_zero]
  intro i _
  simp only [Bool.not_eq_true]
  rw [Bool.eq_false_iff]
  intro hcon
  have := isPre_length_le hcon
  rw [List.length_drop] at this
  omega

theorem countOcc_nil_of_ne (pat : List Char) (hne : pat ≠ []) : countOcc pat [] = 0 := by
  rw [countOcc_nil]
  rw [if_neg]
  intro hcon
  exact hne (isPre_nil_iff.mp hcon)

theorem countOcc_catAll (pat : List Char) (hne : pat ≠ [])
    (hal : pat.all isUpperHex = true) :
    ∀ ps : List (List Char), sepOK ps →
      countOcc pat (catAll ps) = (ps.map (countOcc pat)).sum := by
  intro ps
  induction ps with
  | nil =>
    intro _
    show countOcc pat [] = 0
    exact countOcc_nil_of_ne pat hne
  | cons a rest ih =>
    intro hsep
    cases rest with
    | nil =>
      show countOcc pat (a ++ []) = countOcc pat a + 0
      rw [List.append_nil]
      omega
    | cons b rest2 =>
      obtain ⟨hbd, hsep2⟩ := hsep
      have hcat : catAll (a :: b :: rest2) = a ++ catAll (b :: rest2) := rfl
      have hsplit : countOcc pat (a ++ catAll (b :: rest2)) =
          countOcc pat a + countOcc pat (catAll (b :: rest2)) := by
        rcases hbd with h | h
        · exact countOcc_append_last pat a _ hne hal h
        · refine countOcc_append_head pat a _ hne hal ?_
          show headNonHex (b ++ catAll rest2)
          exact headNonHex_append b _ h
      rw [hcat, hsplit, ih hsep2]
      rfl

theorem countOcc_zero_of_hexFree (pat t : List Char) (hlen : pat.length = 24)
    (hal : pat.all isUpperHex = true) (hfree : hexFree t = true) :
    countOcc pat t = 0 := by
  rw [countOcc, List.countP_eq_zero]
  intro i hi
  simp only [Bool.not_eq_true]
  rw [Bool.eq_false_iff]
  intro hcon
  have hx := List.all_eq_true.mp hfree i hi
  simp only [Bool.not_eq_eq_eq_not, Bool.not_true, Bool.and_eq_false_iff] at hx
  have hle : 24 ≤ (t.drop i).length := by
    have := isPre_length_le hcon
    omega
  have htk : (t.drop i).take 24 = pat := by
    rw [← hlen]
    exact isPre_take_eq hcon
  rcases hx with h | h
  · have hle2 : 24 ≤ t.length - i := by
      rw [List.length_drop] at hle
      exact hle
    simp at h
    omega
  · rw [htk] at h
    rw [hal] at h
    simp at h

theorem isPre_self_refl {l : List Char} : l.isPrefixOf l = true :=
  isPre_iff.mpr ⟨[], by simp⟩

theorem countOcc_eq_self (pat t : List Char) (hne : pat ≠ [])
    (hlen : pat.length = t.length) :
    countOcc pat t = if pat = t then 1 else 0 := by
  cases t with
  | nil =>
    exact absurd (List.length_eq_zero.mp (by rw [hlen]; rfl)) hne
  | cons c rest =>
    rw [countOcc_cons]
    have hshort : countOcc pat rest = 0 := by
      refine countOcc_zero_of_short pat rest ?_
      rw [hlen]
      simp
    rw [hshort]
    by_cases hp : pat = c :: rest
    · rw [if_pos (by rw [hp]; exact isPre_self_refl), if_pos hp]
    · have hf : pat.isPrefixOf (c :: rest) = false := by
        rw [Bool.eq_false_iff]
        intro hcon
        have htk := isPre_take_eq hcon
        rw [hlen, List.take_length] at htk
        exact hp htk.symm
      rw [hf, if_neg hp]
      simp


theorem headNonHex_of_B {b : List Char} (h : headNonHexB b = true) : headNonHex b := by
  cases b with
  | nil => simp [headNonHexB] at h
  | cons d y =>
    refine ⟨d, y, rfl, ?_⟩
    simp [headNonHexB] at h
    exact h

theorem lastNonHex_of_B {a : List Char} (h : lastNonHexB a = true) : lastNonHex a := by
  rcases hg : a.getLast? with - | c
  · rw [lastNonHexB, hg] at h
    simp at h
  · have hane : a ≠ [] := by
      intro hnil
      rw [hnil] at hg
      simp at hg
    have hc : a.getLast hane = c := by
      have := List.getLast?_eq_getLast a hane
      rw [hg] at this
      exact (Option.some.inj this).symm
    refine ⟨a.dropLast, c, ?_, ?_⟩
    · rw [← hc]
      exact (List.dropLast_append_getLast hane).symm
    · rw [lastNonHexB, hg] at h
      simp at h
      exact h

theorem hexFree_suffix {q t : List Char} (hq : hexFree q = true)
    (hsuf : ∃ u, q = u ++ t) : hexFree t = true := by
  obtain ⟨u, hu⟩ := hsuf
  rw [hexFree, List.all_eq_true]
  intro i hi
  have hi2 : i < t.length + 1 := List.mem_range.mp hi
  have hqi : u.length + i ∈ List.range (q.length + 1) := by
    rw [List.mem_range, hu, List.length_append]
    omega
  have := List.all_eq_true.mp hq _ hqi
  have hdrop : q.drop (u.length + i) = t.drop i := by
    rw [hu, List.drop_append]
  rw [hdrop] at this
  exact this

theorem hexFree_filename {q : List Char} (hq : hexFree q = true) :
    hexFree (filename q) = true :=
  hexFree_suffix hq (filename_suffix q)

theorem joinSep_cons_append (sep e t : List Char) (es : List (List Char)) :
    ∃ r, joinSep sep (e :: es) ++ t = e ++ r := by
  cases es with
  | nil => exact ⟨t, rfl⟩
  | cons e2 rest =>
    refine ⟨sep ++ (joinSep sep (e2 :: rest) ++ t), ?_⟩
    show e ++ sep ++ joinSep sep (e2 :: rest) ++ t = _
    simp [List.append_assoc]

theorem lastNonHex_flatten (es : List (List Char)) (hne : es ≠ [])
    (h : ∀ e ∈ es, lastNonHex e) : lastNonHex es.flatten := by
  induction es with
  | nil => exact absurd rfl hne
  | cons e rest ih =>
    cases rest with
    | nil =>
      show lastNonHex (e ++ [].flatten)
      simp only [List.flatten_nil, List.append_nil]
      exact h e (List.mem_cons_self e [])
    | cons e2 rest2 =>
      show lastNonHex (e ++ (e2 :: rest2).flatten)
      refine lastNonHex_append e _ (ih (by simp) ?_)
      intro x hx
      exact h x (List.mem_cons_of_mem e hx)

theorem generate_id_length_24 (gen : Nat → List Nat) (j : Nat)
    (hlen : (gen j).length = 16) (hlt : ∀ b ∈ gen j, b < 256) :
    (generate_id (gen j)).length = 24 :=
  (generate_id_spec (gen j) hlen hlt).1

theorem buildFileEntry_catAll (fp bid fid : List Char) :
    buildFileEntry fp bid fid =
      catAll [tab2, bid, cmtOpen, filename fp, bfMid, fid, cmtOpen, filename fp, bfEnd] := by
  simp [buildFileEntry, catAll, List.append_assoc]

theorem fileRefEntry_catAll (fp fid : List Char) :
    fileRefEntry fp fid =
      catAll [tab2, fid, cmtOpen, filename fp, frMid, fp, frEnd] := by
  simp [fileRefEntry, catAll, List.append_assoc]

theorem groupEntry_catAll (fp fid : List Char) :
    groupEntry fp fid = catAll [nlTabs, fid, cmtOpen, filename fp, gEnd] := by
  simp [groupEntry, catAll, List.append_assoc]

theorem sourceEntry_catAll (fp bid : List Char) :
    sourceEntry fp bid = catAll [nlTabs, bid, cmtOpen, filename fp, sEnd] := by
  simp [sourceEntry, catAll, List.append_assoc]

theorem ne_nil_of_len24 {p : List Char} (hp24 : p.length = 24) : p ≠ [] := by
  intro h
  rw [h] at hp24
  simp at hp24

theorem countOcc_buildFileEntry (p fp bid fid : List Char) (hp24 : p.length = 24)
    (hal : p.all isUpperHex = true) (hfp : hexFree fp = true)
    (hbid : bid.length = 24) (hfid : fid.length = 24) :
    countOcc p (buildFileEntry fp bid fid) =
      (if p = bid then 1 else 0) + (if p = fid then 1 else 0) := by
  have hne : p ≠ [] := ne_nil_of_len24 hp24
  have hsep : sepOK [tab2, bid, cmtOpen, filename fp, bfMid, fid, cmtOpen,
      filename fp, bfEnd] :=
    ⟨Or.inl (lastNonHex_of_B (by decide)), Or.inr (headNonHex_of_B (by decide)),
     Or.inl (lastNonHex_of_B (by decide)), Or.inr (headNonHex_of_B (by decide)),
     Or.inl (lastNonHex_of_B (by decide)), Or.inr (headNonHex_of_B (by decide)),
     Or.inl (lastNonHex_of_B (by decide)), Or.inr (headNonHex_of_B (by decide)),
     trivial⟩
  rw [buildFileEntry_catAll, countOcc_catAll p hne hal _ hsep]
  simp only [List.map_cons, List.map_nil, List.sum_cons, List.sum_nil]
  rw [countOcc_zero_of_hexFree p tab2 hp24 hal (by decide),
    countOcc_zero_of_hexFree p cmtOpen hp24 hal (by decide),
    countOcc_zero_of_hexFree p bfMid hp24 hal (by decide),
    countOcc_zero_of_hexFree p bfEnd hp24 hal (by decide),
    countOcc_zero_of_hexFree p (filename fp) hp24 hal (hexFree_filename hfp),
    countOcc_eq_self p bid hne (by omega),
    countOcc_eq_self p fid hne (by omega)]
  by_cases h1 : p = bid <;> by_cases h2 : p = fid <;> simp [h1, h2]

theorem countOcc_fileRefEntry (p fp fid : List Char) (hp24 : p.length = 24)
    (hal : p.all isUpperHex = true) (hfp : hexFree fp = true)
    (hfid : fid.length = 24) :
    countOcc p (fileRefEntry fp fid) = if p = fid then 1 else 0 := by
  have hne : p ≠ [] := ne_nil_of_len24 hp24
  have hsep : sepOK [tab2, fid, cmtOpen, filename fp, frMid, fp, frEnd] :=
    ⟨Or.inl (lastNonHex_of_B (by decide)), Or.inr (headNonHex_of_B (by decide)),
     Or.inl (lastNonHex_of_B (by decide)), Or.inr (headNonHex_of_B (by decide)),
     Or.inl (lastNonHex_of_B (by decide)), Or.inr (headNonHex_of_B (by decide)),
     trivial⟩
  rw [fileRefEntry_catAll, countOcc_catAll p hne hal _ hsep]
  simp only [List.map_cons, List.map_nil, List.sum_cons, List.sum_nil]
  rw [countOcc_zero_of_hexFree p tab2 hp24 hal (by decide),
    countOcc_zero_of_hexFree p cmtOpen hp24 hal (by decide),
    countOcc_zero_of_hexFree p frMid hp24 hal (by decide),
    countOcc_zero_of_hexFree p frEnd hp24 hal (by decide),
    countOcc_zero_of_hexFree p (filename fp) hp24 hal (hexFree_filename hfp),
    countOcc_zero_of_hexFree p fp hp24 hal hfp,
    countOcc_eq_self p fid hne (by omega)]
  by_cases h2 : p = fid <;> simp [h2]

theorem countOcc_groupEntry (p fp fid : List Char) (hp24 : p.length = 24)
    (hal : p.all isUpperHex = true) (hfp : hexFree fp = true)
    (hfid : fid.length = 24) :
    countOcc p (groupEntry fp fid) = if p = fid then 1 else 0 := by
  have hne : p ≠ [] := ne_nil_of_len24 hp24
  have hsep : sepOK [nlTabs, fid, cmtOpen, filename fp, gEnd] :=
    ⟨Or.inl (lastNonHex_of_B (by decide)), Or.inr (headNonHex_of_B (by decide)),
     Or.inl (lastNonHex_of_B (by decide)), Or.inr (headNonHex_of_B (by decide)),
     trivial⟩
  rw [groupEntry_catAll, countOcc_catAll p hne hal _ hsep]
  simp only [List.map_cons, List.map_nil, List.sum_cons, List.sum_nil]
  rw [countOcc_zero_of_hexFree p nlTabs hp24 hal (by decide),
    countOcc_zero_of_hexFree p cmtOpen hp24 hal (by decide),
    countOcc_zero_of_hexFree p gEnd hp24 hal (by decide),
    countOcc_zero_of_hexFree p (filename fp) hp24 hal (hexFree_filename hfp),
    countOcc_eq_self p fid hne (by omega)]
  by_cases h2 : p = fid <;> simp [h2]

theorem countOcc_sourceEntry (p fp bid : List Char) (hp24 : p.length = 24)
    (hal : p.all isUpperHex = true) (hfp : hexFree fp = true)
    (hbid : bid.length = 24) :
    countOcc p (sourceEntry fp bid) = if p = bid then 1 else 0 := by
  have hne : p ≠ [] := ne_nil_of_len24 hp24
  have hsep : sepOK [nlTabs, bid, cmtOpen, filename fp, sEnd] :=
    ⟨Or.inl (lastNonHex_of_B (by decide)), Or.inr (headNonHex_of_B (by decide)),
     Or.inl (lastNonHex_of_B (by decide)), Or.inr (headNonHex_of_B (by decide)),
     trivial⟩
  rw [sourceEntry_catAll, countOcc_catAll p hne hal _ hsep]
  simp only [List.map_cons, List.map_nil, List.sum_cons, List.sum_nil]
  rw [countOcc_zero_of_hexFree p nlTabs hp24 hal (by decide),
    countOcc_zero_of_hexFree p cmtOpen hp24 hal (by decide),
    countOcc_zero_of_hexFree p sEnd hp24 hal (by decide),
    countOcc_zero_of_hexFree p (filename fp) hp24 hal (hexFree_filename hfp),
    countOcc_eq_self p bid hne (by omega)]
  by_cases h2 : p = bid <;> simp [h2]

theorem joinSep_nl_catAll : ∀ es : List (List Char), es ≠ [] →
    joinSep nlC es ++ nlC = catAll (es.flatMap (fun e => [e, nlC])) := by
  intro es
  induction es with
  | nil => intro h; exact absurd rfl h
  | cons e rest ih =>
    intro _
    cases rest with
    | nil =>
      show e ++ nlC = catAll [e, nlC]
      simp [catAll]
    | cons e2 rest2 =>
      have hj : joinSep nlC (e :: e2 :: rest2) = e ++ nlC ++ joinSep nlC (e2 :: rest2) := rfl
      rw [hj]
      have hflat : (e :: e2 :: rest2).flatMap (fun x => [x, nlC]) =
          e :: nlC :: (e2 :: rest2).flatMap (fun x => [x, nlC]) := rfl
      rw [hflat]
      show e ++ nlC ++ joinSep nlC (e2 :: rest2) ++ nlC =
        e ++ (nlC ++ catAll ((e2 :: rest2).flatMap (fun x => [x, nlC])))
      rw [← ih (by simp)]
      simp [List.append_assoc]

theorem sepOK_flatMap_nl : ∀ es : List (List Char), (∀ e ∈ es, headNonHex e) →
    sepOK (es.flatMap (fun e => [e, nlC])) := by
  intro es
  induction es with
  | nil => intro _; trivial
  | cons e rest ih =>
    intro h
    have hflat : (e :: rest).flatMap (fun x => [x, nlC]) =
        e :: nlC :: rest.flatMap (fun x => [x, nlC]) := rfl
    rw [hflat]
    cases rest with
    | nil =>
      exact ⟨Or.inr (headNonHex_of_B (by decide)), trivial⟩
    | cons e2 rest2 =>
      have hflat2 : (e2 :: rest2).flatMap (fun x => [x, nlC]) =
          e2 :: nlC :: rest2.flatMap (fun x => [x, nlC]) := rfl
      refine ⟨Or.inr (headNonHex_of_B (by decide)), ?_⟩
      have hrest := ih (fun x hx => h x (List.mem_cons_of_mem e hx))
      rw [hflat2] at hrest ⊢
      exact ⟨Or.inr (h e2 (List.mem_cons_of_mem e (List.mem_cons_self e2 rest2))), hrest⟩

theorem sum_flatMap_nl (p : List Char) (hz : countOcc p nlC = 0) :
    ∀ es : List (List Char),
      ((es.flatMap (fun e => [e, nlC])).map (countOcc p)).sum =
        (es.map (countOcc p)).sum := by
  intro es
  induction es with
  | nil => rfl
  | cons e rest ih =>
    have hflat : (e :: rest).flatMap (fun x => [x, nlC]) =
        e :: nlC :: rest.flatMap (fun x => [x, nlC]) := rfl
    rw [hflat]
    simp only [List.map_cons, List.sum_cons, ih, hz]
    omega

theorem countOcc_joinSepNl (p : List Char) (hp24 : p.length = 24)
    (hal : p.all isUpperHex = true) (es : List (List Char)) (hne : es ≠ [])
    (hheads : ∀ e ∈ es, headNonHex e) :
    countOcc p (joinSep nlC es ++ nlC) = (es.map (countOcc p)).sum := by
  have hpne : p ≠ [] := ne_nil_of_len24 hp24
  rw [joinSep_nl_catAll es hne,
    countOcc_catAll p hpne hal _ (sepOK_flatMap_nl es hheads),
    sum_flatMap_nl p (countOcc_zero_of_short p nlC (by rw [hp24]; decide)) es]

theorem flatten_eq_catAll : ∀ es : List (List Char), es.flatten = catAll es := by
  intro es
  induction es with
  | nil => rfl
  | cons e rest ih =>
    rw [List.flatten_cons, ih]
    rfl

theorem sepOK_of_heads : ∀ es : List (List Char), (∀ e ∈ es, headNonHex e) → sepOK es := by
  intro es
  induction es with
  | nil => intro _; trivial
  | cons e rest ih =>
    intro h
    cases rest with
    | nil => trivial
    | cons e2 rest2 =>
      exact ⟨Or.inr (h e2 (List.mem_cons_of_mem e (List.mem_cons_self e2 rest2))),
        ih (fun x hx => h x (List.mem_cons_of_mem e hx))⟩

theorem countOcc_flatten_heads (p : List Char) (hp24 : p.length = 24)
    (hal : p.all isUpperHex = true) (es : List (List Char))
    (hheads : ∀ e ∈ es, headNonHex e) :
    countOcc p es.flatten = (es.map (countOcc p)).sum := by
  rw [flatten_eq_catAll,
    countOcc_catAll p (ne_nil_of_len24 hp24) hal _ (sepOK_of_heads es hheads)]

theorem sum_map_add_split (n : Nat) (f g : Nat → Nat) :
    ((List.range n).map (fun i => f i + g i)).sum =
      ((List.range n).map f).sum + ((List.range n).map g).sum := by
  induction n with
  | zero => rfl
  | succ m ih =>
    rw [List.range_succ]
    simp only [List.map_append, List.sum_append, ih, List.map_cons, List.map_nil,
      List.sum_cons, List.sum_nil]
    omega

theorem sum_range_ite_hit (v : Nat → List Char) (p : List Char) (n i : Nat)
    (hi : i < n) (hp : p = v i) (hmiss : ∀ j, j < n → j ≠ i → v j ≠ p) :
    ((List.range n).map (fun j => if p = v j then 1 else 0)).sum = 1 := by
  induction n with
  | zero => omega
  | succ m ih =>
    rw [List.range_succ]
    simp only [List.map_append, List.sum_append, List.map_cons, List.map_nil,
      List.sum_cons, List.sum_nil]
    by_cases him : i = m
    · subst him
      rw [if_pos hp]
      have hzero : ((List.range i).map (fun j => if p = v j then 1 else 0)).sum = 0 := by
        rw [List.sum_eq_zero]
        intro x hx
        obtain ⟨j, hj, hjx⟩ := List.mem_map.mp hx
        have hjlt : j < i := List.mem_range.mp hj
        rw [← hjx, if_neg]
        intro hcon
        exact hmiss j (by omega) (by omega) hcon.symm
      rw [hzero]
      omega
    · have hilt : i < m := by omega
      rw [ih hilt (fun j hj hji => hmiss j (by omega) hji)]
      rw [if_neg]
      · omega
      · intro hcon
        exact hmiss m (by omega) (fun h => him h.symm) hcon.symm

theorem sum_range_ite_miss (v : Nat → List Char) (p : List Char) (n : Nat)
    (hmiss : ∀ j, j < n → v j ≠ p) :
    ((List.range n).map (fun j => if p = v j then 1 else 0)).sum = 0 := by
  rw [List.sum_eq_zero]
  intro x hx
  obtain ⟨j, hj, hjx⟩ := List.mem_map.mp hx
  have hjlt : j < n := List.mem_range.mp hj
  rw [← hjx, if_neg]
  intro hcon
  exact hmiss j hjlt hcon.symm

theorem map_count_fileRefEntriesN (gen : Nat → List Nat) (p : List Char)
    (hp24 : p.length = 24) (hal : p.all isUpperHex = true)
    (ps : List (List Char)) (k : Nat)
    (hfree : ∀ q ∈ ps, hexFree q = true)
    (hlen : ∀ j, k ≤ j → j < k + 2 * ps.length → (generate_id (gen j)).length = 24) :
    (fileRefEntriesN gen ps k).map (countOcc p) =
      (List.range ps.length).map
        (fun i => if p = generate_id (gen (k + 2 * i)) then 1 else 0) := by
  refine List.ext_getElem ?_ ?_
  · simp [List.length_map, fileRefEntriesN_length, List.length_range]
  · intro i h1 h2
    have hi : i < ps.length := by
      simpa [List.length_map, fileRefEntriesN_length] using h1
    rw [List.getElem_map, List.getElem_map, List.getElem_range,
      fileRefEntriesN_getElem gen ps k i hi]
    exact countOcc_fileRefEntry p ps[i] _ hp24 hal
      (hfree ps[i] (List.getElem_mem hi))
      (hlen (k + 2 * i) (by omega) (by omega))

theorem map_count_groupEntriesN (gen : Nat → List Nat) (p : List Char)
    (hp24 : p.length = 24) (hal : p.all isUpperHex = true)
    (ps : List (List Char)) (k : Nat)
    (hfree : ∀ q ∈ ps, hexFree q = true)
    (hlen : ∀ j, k ≤ j → j < k + 2 * ps.length → (generate_id (gen j)).length = 24) :
    (groupEntriesN gen ps k).map (countOcc p) =
      (List.range ps.length).map
        (fun i => if p = generate_id (gen (k + 2 * i)) then 1 else 0) := by
  refine List.ext_getElem ?_ ?_
  · simp [List.length_map, groupEntriesN_length, List.length_range]
  · intro i h1 h2
    have hi : i < ps.length := by
      simpa [List.length_map, groupEntriesN_length] using h1
    rw [List.getElem_map, List.getElem_map, List.getElem_range,
      groupEntriesN_getElem gen ps k i hi]
    exact countOcc_groupEntry p ps[i] _ hp24 hal
      (hfree ps[i] (List.getElem_mem hi))
      (hlen (k + 2 * i) (by omega) (by omega))

theorem map_count_sourceEntriesN (gen : Nat → List Nat) (p : List Char)
    (hp24 : p.length = 24) (hal : p.all isUpperHex = true)
    (ps : List (List Char)) (k : Nat)
    (hfree : ∀ q ∈ ps, hexFree q = true)
    (hlen : ∀ j, k ≤ j → j < k + 2 * ps.length → (generate_id (gen j)).length = 24) :
    (sourceEntriesN gen ps k).map (countOcc p) =
      (List.range ps.length).map
        (fun i => if p = generate_id (gen (k + 2 * i + 1)) then 1 else 0) := by
  refine List.ext_getElem ?_ ?_
  · simp [List.length_map, sourceEntriesN_length, List.length_range]
  · intro i h1 h2
    have hi : i < ps.length := by
      simpa [List.length_map, sourceEntriesN_length] using h1
    rw [List.getElem_map, List.getElem_map, List.getElem_range,
      sourceEntriesN_getElem gen ps k i hi]
    exact countOcc_sourceEntry p ps[i] _ hp24 hal
      (hfree ps[i] (List.getElem_mem hi))
      (hlen (k + 2 * i + 1) (by omega) (by omega))

theorem map_count_buildEntriesN (gen : Nat → List Nat) (p : List Char)
    (hp24 : p.length = 24) (hal : p.all isUpperHex = true)
    (ps : List (List Char)) (k : Nat)
    (hfree : ∀ q ∈ ps, hexFree q = true)
    (hlen : ∀ j, k ≤ j → j < k + 2 * ps.length → (generate_id (gen j)).length = 24) :
    (buildEntriesN gen ps k).map (countOcc p) =
      (List.range ps.length).map
        (fun i => (if p = generate_id (gen (k + 2 * i + 1)) then 1 else 0) +
          (if p = generate_id (gen (k + 2 * i)) then 1 else 0)) := by
  refine List.ext_getElem ?_ ?_
  · simp [List.length_map, buildEntriesN_length, List.length_range]
  · intro i h1 h2
    have hi : i < ps.length := by
      simpa [List.length_map, buildEntriesN_length] using h1
    rw [List.getElem_map, List.getElem_map, List.getElem_range,
      buildEntriesN_getElem gen ps k i hi]
    exact countOcc_buildFileEntry p ps[i] _ _ hp24 hal
      (hfree ps[i] (List.getElem_mem hi))
      (hlen (k + 2 * i + 1) (by omega) (by omega))
      (hlen (k + 2 * i) (by omega) (by omega))

theorem buildEntriesN_cons (gen : Nat → List Nat) (p : List Char) (ps : List (List Char))
    (k : Nat) :
    buildEntriesN gen (p :: ps) k =
      buildFileEntry p (generate_id (gen (k + 1))) (generate_id (gen k)) ::
        buildEntriesN gen ps (k + 2) := rfl

theorem fileRefEntriesN_cons (gen : Nat → List Nat) (p : List Char) (ps : List (List Char))
    (k : Nat) :
    fileRefEntriesN gen (p :: ps) k =
      fileRefEntry p (generate_id (gen k)) :: fileRefEntriesN gen ps (k + 2) := rfl

theorem groupEntriesN_cons (gen : Nat → List Nat) (p : List Char) (ps : List (List Char))
    (k : Nat) :
    groupEntriesN gen (p :: ps) k =
      groupEntry p (generate_id (gen k)) :: groupEntriesN gen ps (k + 2) := rfl

theorem sourceEntriesN_cons (gen : Nat → List Nat) (p : List Char) (ps : List (List Char))
    (k : Nat) :
    sourceEntriesN gen (p :: ps) k =
      sourceEntry p (generate_id (gen (k + 1))) :: sourceEntriesN gen ps (k + 2) := rfl

theorem headNonHex_buildFileEntry (fp bid fid : List Char) :
    headNonHex (buildFileEntry fp bid fid) := by
  rw [buildFileEntry_catAll]
  exact headNonHex_append tab2 _ (headNonHex_of_B (by decide))

theorem headNonHex_fileRefEntry (fp fid : List Char) : headNonHex (fileRefEntry fp fid) := by
  rw [fileRefEntry_catAll]
  exact headNonHex_append tab2 _ (headNonHex_of_B (by decide))

theorem headNonHex_groupEntry (fp fid : List Char) : headNonHex (groupEntry fp fid) := by
  rw [groupEntry_catAll]
  exact headNonHex_append nlTabs _ (headNonHex_of_B (by decide))

theorem headNonHex_sourceEntry (fp bid : List Char) : headNonHex (sourceEntry fp bid) := by
  rw [sourceEntry_catAll]
  exact headNonHex_append nlTabs _ (headNonHex_of_B (by decide))

theorem lastNonHex_groupEntry (fp fid : List Char) : lastNonHex (groupEntry fp fid) := by
  show lastNonHex (nlTabs ++ fid ++ cmtOpen ++ filename fp ++ gEnd)
  exact lastNonHex_append _ gEnd (lastNonHex_of_B (by decide))

theorem lastNonHex_sourceEntry (fp bid : List Char) : lastNonHex (sourceEntry fp bid) := by
  show lastNonHex (nlTabs ++ bid ++ cmtOpen ++ filename fp ++ sEnd)
  exact lastNonHex_append _ sEnd (lastNonHex_of_B (by decide))

theorem buildEntriesN_heads (gen : Nat → List Nat) :
    ∀ (ps : List (List Char)) (k : Nat), ∀ e ∈ buildEntriesN gen ps k, headNonHex e := by
  intro ps
  induction ps with
  | nil => intro k e he; simp [buildEntriesN] at he
  | cons p rest ih =>
    intro k e he
    rw [buildEntriesN_cons] at he
    rcases List.mem_cons.mp he with h | h
    · rw [h]; exact headNonHex_buildFileEntry p _ _
    · exact ih (k + 2) e h

theorem fileRefEntriesN_heads (gen : Nat → List Nat) :
    ∀ (ps : List (List Char)) (k : Nat), ∀ e ∈ fileRefEntriesN gen ps k, headNonHex e := by
  intro ps
  induction ps with
  | nil => intro k e he; simp [fileRefEntriesN] at he
  | cons p rest ih =>
    intro k e he
    rw [fileRefEntriesN_cons] at he
    rcases List.mem_cons.mp he with h | h
    · rw [h]; exact headNonHex_fileRefEntry p _
    · exact ih (k + 2) e h

theorem groupEntriesN_lasts (gen : Nat → List Nat) :
    ∀ (ps : List (List Char)) (k : Nat), ∀ e ∈ groupEntriesN gen ps k, lastNonHex e := by
  intro ps
  induction ps with
  | nil => intro k e he; simp [groupEntriesN] at he
  | cons p rest ih =>
    intro k e he
    rw [groupEntriesN_cons] at he
    rcases List.mem_cons.mp he with h | h
    · rw [h]; exact lastNonHex_groupEntry p _
    · exact ih (k + 2) e h

theorem sourceEntriesN_lasts (gen : Nat → List Nat) :
    ∀ (ps : List (List Char)) (k : Nat), ∀ e ∈ sourceEntriesN gen ps k, lastNonHex e := by
  intro ps
  induction ps with
  | nil => intro k e he; simp [sourceEntriesN] at he
  | cons p rest ih =>
    intro k e he
    rw [sourceEntriesN_cons] at he
    rcases List.mem_cons.mp he with h | h
    · rw [h]; exact lastNonHex_sourceEntry p _
    · exact ih (k + 2) e h

theorem groupEntriesN_heads (gen : Nat → List Nat) :
    ∀ (ps : List (List Char)) (k : Nat), ∀ e ∈ groupEntriesN gen ps k, headNonHex e := by
  intro ps
  induction ps with
  | nil => intro k e he; simp [groupEntriesN] at he
  | cons p rest ih =>
    intro k e he
    rw [groupEntriesN_cons] at he
    rcases List.mem_cons.mp he with h | h
    · rw [h]; exact headNonHex_groupEntry p _
    · exact ih (k + 2) e h

theorem sourceEntriesN_heads (gen : Nat → List Nat) :
    ∀ (ps : List (List Char)) (k : Nat), ∀ e ∈ sourceEntriesN gen ps k, headNonHex e := by
  intro ps
  induction ps with
  | nil => intro k e he; simp [sourceEntriesN] at he
  | cons p rest ih =>
    intro k e he
    rw [sourceEntriesN_cons] at he
    rcases List.mem_cons.mp he with h | h
    · rw [h]; exact headNonHex_sourceEntry p _
    · exact ih (k + 2) e h

theorem headNonHex_buildInsert (files : List (List Char)) (gen : Nat → List Nat)
    (hnd : files.Nodup) : headNonHex (buildInsert files gen) := by
  rw [buildInsert_norm files gen hnd]
  cases files with
  | nil => exact ⟨chars "\n" |>.head (by decide), [], rfl, by decide⟩
  | cons p ps =>
    rw [buildEntriesN_cons]
    obtain ⟨r, hr⟩ := joinSep_cons_append nlC
      (buildFileEntry p (generate_id (gen (0 + 1))) (generate_id (gen 0))) nlC
      (buildEntriesN gen ps (0 + 2))
    rw [hr]
    exact headNonHex_append _ r (headNonHex_buildFileEntry p _ _)

theorem headNonHex_fileRefInsert (files : List (List Char)) (gen : Nat → List Nat)
    (hnd : files.Nodup) : headNonHex (fileRefInsert files gen) := by
  rw [fileRefInsert_norm files gen hnd]
  cases files with
  | nil => exact ⟨chars "\n" |>.head (by decide), [], rfl, by decide⟩
  | cons p ps =>
    rw [fileRefEntriesN_cons]
    obtain ⟨r, hr⟩ := joinSep_cons_append nlC
      (fileRefEntry p (generate_id (gen 0))) nlC (fileRefEntriesN gen ps (0 + 2))
    rw [hr]
    exact headNonHex_append _ r (headNonHex_fileRefEntry p _)

theorem lastNonHex_groupInsert (files : List (List Char)) (gen : Nat → List Nat)
    (hnd : files.Nodup) (hne : files ≠ []) : lastNonHex (groupInsert files gen) := by
  rw [groupInsert_norm files gen hnd]
  refine lastNonHex_flatten _ ?_ (groupEntriesN_lasts gen files 0)
  cases files with
  | nil => exact absurd rfl hne
  | cons p ps => rw [groupEntriesN_cons]; simp

theorem lastNonHex_sourcesInsert (files : List (List Char)) (gen : Nat → List Nat)
    (hnd : files.Nodup) (hne : files ≠ []) : lastNonHex (sourcesInsert files gen) := by
  rw [sourcesInsert_norm files gen hnd]
  refine lastNonHex_flatten _ ?_ (sourceEntriesN_lasts gen files 0)
  cases files with
  | nil => exact absurd rfl hne
  | cons p ps => rw [sourceEntriesN_cons]; simp

theorem pbx4_catAll (files : List (List Char)) (gen : Nat → List Nat)
    (s0 s1 s2 s3 s4 s5 s6 : List Char) :
    pbx4 files gen s0 s1 s2 s3 s4 s5 s6 =
      catAll [s0, buildInsert files gen, anchorBuild, s1, fileRefInsert files gen,
        anchorFileRef, s2, groupLit1, s3, groupLit2, groupInsert files gen, s4,
        sourcesLit1, s5, sourcesLit2, sourcesInsert files gen, s6] := by
  simp [pbx4, catAll, List.append_assoc]

theorem countOcc_pbx4 (files : List (List Char)) (gen : Nat → List Nat)
    (s0 s1 s2 s3 s4 s5 s6 : List Char) (p : List Char)
    (hp24 : p.length = 24) (hal : p.all isUpperHex = true)
    (hnd : files.Nodup) (hne : files ≠ []) :
    countOcc p (pbx4 files gen s0 s1 s2 s3 s4 s5 s6) =
      countOcc p s0 + countOcc p (buildInsert files gen) + countOcc p anchorBuild +
      countOcc p s1 + countOcc p (fileRefInsert files gen) + countOcc p anchorFileRef +
      countOcc p s2 + countOcc p groupLit1 + countOcc p s3 + countOcc p groupLit2 +
      countOcc p (groupInsert files gen) + countOcc p s4 + countOcc p sourcesLit1 +
      countOcc p s5 + countOcc p sourcesLit2 + countOcc p (sourcesInsert files gen) +
      countOcc p s6 := by
  have hsep : sepOK [s0, buildInsert files gen, anchorBuild, s1, fileRefInsert files gen,
      anchorFileRef, s2, groupLit1, s3, groupLit2, groupInsert files gen, s4,
      sourcesLit1, s5, sourcesLit2, sourcesInsert files gen, s6] :=
    ⟨Or.inr (headNonHex_buildInsert files gen hnd),
     Or.inr (headNonHex_of_B (by decide)),
     Or.inl (lastNonHex_of_B (by decide)),
     Or.inr (headNonHex_fileRefInsert files gen hnd),
     Or.inr (headNonHex_of_B (by decide)),
     Or.inl (lastNonHex_of_B (by decide)),
     Or.inr (headNonHex_of_B (by decide)),
     Or.inl (lastNonHex_of_B (by decide)),
     Or.inr (headNonHex_of_B (by decide)),
     Or.inl (lastNonHex_of_B (by decide)),
     Or.inl (lastNonHex_groupInsert files gen hnd hne),
     Or.inr (headNonHex_of_B (by decide)),
     Or.inl (lastNonHex_of_B (by decide)),
     Or.inr (headNonHex_of_B (by decide)),
     Or.inl (lastNonHex_of_B (by decide)),
     Or.inl (lastNonHex_sourcesInsert files gen hnd hne),
     trivial⟩
  rw [pbx4_catAll, countOcc_catAll p (ne_nil_of_len24 hp24) hal _ hsep]
  simp only [List.map_cons, List.map_nil, List.sum_cons, List.sum_nil]
  omega

theorem countOcc_buildInsert_sum (files : List (List Char)) (gen : Nat → List Nat)
    (p : List Char) (hp24 : p.length = 24) (hal : p.all isUpperHex = true)
    (hnd : files.Nodup) (hne : files ≠ [])
    (hfree : ∀ q ∈ files, hexFree q = true)
    (hlen : ∀ j, j < 2 * files.length → (generate_id (gen j)).length = 24) :
    countOcc p (buildInsert files gen) =
      ((List.range files.length).map
        (fun i => (if p = generate_id (gen (2 * i + 1)) then 1 else 0) +
          (if p = generate_id (gen (2 * i)) then 1 else 0))).sum := by
  rw [buildInsert_norm files gen hnd]
  have hene : buildEntriesN gen files 0 ≠ [] := by
    cases files with
    | nil => exact absurd rfl hne
    | cons q ps => rw [buildEntriesN_cons]; simp
  rw [countOcc_joinSepNl p hp24 hal _ hene (buildEntriesN_heads gen files 0),
    map_count_buildEntriesN gen p hp24 hal files 0 hfree
      (fun j h1 h2 => hlen j (by omega))]
  simp only [Nat.zero_add]

theorem countOcc_fileRefInsert_sum (files : List (List Char)) (gen : Nat → List Nat)
    (p : List Char) (hp24 : p.length = 24) (hal : p.all isUpperHex = true)
    (hnd : files.Nodup) (hne : files ≠ [])
    (hfree : ∀ q ∈ files, hexFree q = true)
    (hlen : ∀ j, j < 2 * files.length → (generate_id (gen j)).length = 24) :
    countOcc p (fileRefInsert files gen) =
      ((List.range files.length).map
        (fun i => if p = generate_id (gen (2 * i)) then 1 else 0)).sum := by
  rw [fileRefInsert_norm files gen hnd]
  have hene : fileRefEntriesN gen files 0 ≠ [] := by
    cases files with
    | nil => exact absurd rfl hne
    | cons q ps => rw [fileRefEntriesN_cons]; simp
  rw [countOcc_joinSepNl p hp24 hal _ hene (fileRefEntriesN_heads gen files 0),
    map_count_fileRefEntriesN gen p hp24 hal files 0 hfree
      (fun j h1 h2 => hlen j (by omega))]
  simp only [Nat.zero_add]

theorem countOcc_groupInsert_sum (files : List (List Char)) (gen : Nat → List Nat)
    (p : List Char) (hp24 : p.length = 24) (hal : p.all isUpperHex = true)
    (hnd : files.Nodup)
    (hfree : ∀ q ∈ files, hexFree q = true)
    (hlen : ∀ j, j < 2 * files.length → (generate_id (gen j)).length = 24) :
    countOcc p (groupInsert files gen) =
      ((List.range files.length).map
        (fun i => if p = generate_id (gen (2 * i)) then 1 else 0)).sum := by
  rw [groupInsert_norm files gen hnd,
    countOcc_flatten_heads p hp24 hal _ (groupEntriesN_heads gen files 0),
    map_count_groupEntriesN gen p hp24 hal files 0 hfree
      (fun j h1 h2 => hlen j (by omega))]
  simp only [Nat.zero_add]

theorem countOcc_sourcesInsert_sum (files : List (List Char)) (gen : Nat → List Nat)
    (p : List Char) (hp24 : p.length = 24) (hal : p.all isUpperHex = true)
    (hnd : files.Nodup)
    (hfree : ∀ q ∈ files, hexFree q = true)
    (hlen : ∀ j, j < 2 * files.length → (generate_id (gen j)).length = 24) :
    countOcc p (sourcesInsert files gen) =
      ((List.range files.length).map
        (fun i => if p = generate_id (gen (2 * i + 1)) then 1 else 0)).sum := by
  rw [sourcesInsert_norm files gen hnd,
    countOcc_flatten_heads p hp24 hal _ (sourceEntriesN_heads gen files 0),
    map_count_sourceEntriesN gen p hp24 hal files 0 hfree
      (fun j h1 h2 => hlen j (by omega))]
  simp only [Nat.zero_add]

theorem sum_range_pair (v w : Nat → List Char) (p : List Char) (n : Nat) :
    ((List.range n).map
      (fun j => (if p = v j then 1 else 0) + (if p = w j then 1 else 0))).sum =
      ((List.range n).map (fun j => if p = v j then 1 else 0)).sum +
      ((List.range n).map (fun j => if p = w j then 1 else 0)).sum := by
  induction n with
  | zero => rfl
  | succ m ih =>
    rw [List.range_succ]
    simp only [List.map_append, List.sum_append, List.map_cons, List.map_nil,
      List.sum_cons, List.sum_nil]
    omega

theorem countOcc_fid_pbx4 (files : List (List Char)) (gen : Nat → List Nat)
    (s0 s1 s2 s3 s4 s5 s6 : List Char) (i : Nat) (hi : i < files.length)
    (hnd : files.Nodup)
    (hfree : ∀ q ∈ files, hexFree q = true)
    (hlen : ∀ j, j < 2 * files.length → (generate_id (gen j)).length = 24)
    (hdist : ∀ j1, j1 < 2 * files.length → ∀ j2, j2 < 2 * files.length → j1 ≠ j2 →
      generate_id (gen j1) ≠ generate_id (gen j2))
    (hs0 : hexFree s0 = true) (hs1 : hexFree s1 = true) (hs2 : hexFree s2 = true)
    (hs3 : hexFree s3 = true) (hs4 : hexFree s4 = true) (hs5 : hexFree s5 = true)
    (hs6 : hexFree s6 = true) :
    countOcc (generate_id (gen (2 * i))) (pbx4 files gen s0 s1 s2 s3 s4 s5 s6) = 3 := by
  have hp24 : (generate_id (gen (2 * i))).length = 24 := hlen (2 * i) (by omega)
  have hal := generate_id_all_hex (gen (2 * i))
  have hne : files ≠ [] := by
    intro h
    rw [h] at hi
    simp at hi
  rw [countOcc_pbx4 files gen s0 s1 s2 s3 s4 s5 s6 _ hp24 hal hnd hne,
    countOcc_zero_of_hexFree _ s0 hp24 hal hs0,
    countOcc_zero_of_hexFree _ s1 hp24 hal hs1,
    countOcc_zero_of_hexFree _ s2 hp24 hal hs2,
    countOcc_zero_of_hexFree _ s3 hp24 hal hs3,
    countOcc_zero_of_hexFree _ s4 hp24 hal hs4,
    countOcc_zero_of_hexFree _ s5 hp24 hal hs5,
    countOcc_zero_of_hexFree _ s6 hp24 hal hs6,
    countOcc_zero_of_hexFree _ anchorBuild hp24 hal (by decide),
    countOcc_zero_of_hexFree _ anchorFileRef hp24 hal (by decide),
    countOcc_zero_of_hexFree _ groupLit1 hp24 hal (by decide),
    countOcc_zero_of_hexFree _ groupLit2 hp24 hal (by decide),
    countOcc_zero_of_hexFree _ sourcesLit1 hp24 hal (by decide),
    countOcc_zero_of_hexFree _ sourcesLit2 hp24 hal (by decide),
    countOcc_buildInsert_sum files gen _ hp24 hal hnd hne hfree hlen,
    countOcc_fileRefInsert_sum files gen _ hp24 hal hnd hne hfree hlen,
    countOcc_groupInsert_sum files gen _ hp24 hal hnd hfree hlen,
    countOcc_sourcesInsert_sum files gen _ hp24 hal hnd hfree hlen,
    sum_range_pair (fun j => generate_id (gen (2 * j + 1)))
      (fun j => generate_id (gen (2 * j))) (generate_id (gen (2 * i))) files.length]
  have hodd : ((List.range files.length).map
      (fun j => if generate_id (gen (2 * i)) = generate_id (gen (2 * j + 1))
        then 1 else 0)).sum = 0 :=
    sum_range_ite_miss _ _ files.length
      (fun j hj => hdist (2 * j + 1) (by omega) (2 * i) (by omega) (by omega))
  have heven : ((List.range files.length).map
      (fun j => if generate_id (gen (2 * i)) = generate_id (gen (2 * j))
        then 1 else 0)).sum = 1 :=
    sum_range_ite_hit _ _ files.length i hi rfl
      (fun j hj hji => hdist (2 * j) (by omega) (2 * i) (by omega) (by omega))
  rw [hodd, heven]

theorem countOcc_bid_pbx4 (files : List (List Char)) (gen : Nat → List Nat)
    (s0 s1 s2 s3 s4 s5 s6 : List Char) (i : Nat) (hi : i < files.length)
    (hnd : files.Nodup)
    (hfree : ∀ q ∈ files, hexFree q = true)
    (hlen : ∀ j, j < 2 * files.length → (generate_id (gen j)).length = 24)
    (hdist : ∀ j1, j1 < 2 * files.length → ∀ j2, j2 < 2 * files.length → j1 ≠ j2 →
      generate_id (gen j1) ≠ generate_id (gen j2))
    (hs0 : hexFree s0 = true) (hs1 : hexFree s1 = true) (hs2 : hexFree s2 = true)
    (hs3 : hexFree s3 = true) (hs4 : hexFree s4 = true) (hs5 : hexFree s5 = true)
    (hs6 : hexFree s6 = true) :
    countOcc (generate_id (gen (2 * i + 1))) (pbx4 files gen s0 s1 s2 s3 s4 s5 s6) = 2 := by
  have hp24 : (generate_id (gen (2 * i + 1))).length = 24 := hlen (2 * i + 1) (by omega)
  have hal := generate_id_all_hex (gen (2 * i + 1))
  have hne : files ≠ [] := by
    intro h
    rw [h] at hi
    simp at hi
  rw [countOcc_pbx4 files gen s0 s1 s2 s3 s4 s5 s6 _ hp24 hal hnd hne,
    countOcc_zero_of_hexFree _ s0 hp24 hal hs0,
    countOcc_zero_of_hexFree _ s1 hp24 hal hs1,
    countOcc_zero_of_hexFree _ s2 hp24 hal hs2,
    countOcc_zero_of_hexFree _ s3 hp24 hal hs3,
    countOcc_zero_of_hexFree _ s4 hp24 hal hs4,
    countOcc_zero_of_hexFree _ s5 hp24 hal hs5,
    countOcc_zero_of_hexFree _ s6 hp24 hal hs6,
    countOcc_zero_of_hexFree _ anchorBuild hp24 hal (by decide),
    countOcc_zero_of_hexFree _ anchorFileRef hp24 hal (by decide),
    countOcc_zero_of_hexFree _ groupLit1 hp24 hal (by decide),
    countOcc_zero_of_hexFree _ groupLit2 hp24 hal (by decide),
    countOcc_zero_of_hexFree _ sourcesLit1 hp24 hal (by decide),
    countOcc_zero_of_hexFree _ sourcesLit2 hp24 hal (by decide),
    countOcc_buildInsert_sum files gen _ hp24 hal hnd hne hfree hlen,
    countOcc_fileRefInsert_sum files gen _ hp24 hal hnd hne hfree hlen,
    countOcc_groupInsert_sum files gen _ hp24 hal hnd hfree hlen,
    countOcc_sourcesInsert_sum files gen _ hp24 hal hnd hfree hlen,
    sum_range_pair (fun j => generate_id (gen (2 * j + 1)))
      (fun j => generate_id (gen (2 * j))) (generate_id (gen (2 * i + 1))) files.length]
  have hodd : ((List.range files.length).map
      (fun j => if generate_id (gen (2 * i + 1)) = generate_id (gen (2 * j + 1))
        then 1 else 0)).sum = 1 :=
    sum_range_ite_hit _ _ files.length i hi rfl
      (fun j hj hji => hdist (2 * j + 1) (by omega) (2 * i + 1) (by omega) (by omega))
  have heven : ((List.range files.length).map
      (fun j => if generate_id (gen (2 * i + 1)) = generate_id (gen (2 * j))
        then 1 else 0)).sum = 0 :=
    sum_range_ite_miss _ _ files.length
      (fun j hj => hdist (2 * j) (by omega) (2 * i + 1) (by omega) (by omega))
  rw [hodd, heven]

set_option maxRecDepth 200000 in
set_option maxHeartbeats 4000000 in
/-- C3 counterexample: on a concrete canonical descriptor with the single path
A/B.ext, the generated file-reference identifier appears three times in the
output document, not twice: the build-file entry also names it in its fileRef
field. -/
theorem claim_C3_counterexample :
    countOcc (generate_id (wGen 0)) ((add_files_to_project wD0 wFiles wGen).content) = 3 ∧
    countOcc (generate_id (wGen 0)) ((add_files_to_project wD0 wFiles wGen).content) ≠ 2 := by
  have e : (add_files_to_project wD0 wFiles wGen).content = wD4 := by
    show pass4 wFiles wGen (pass3 wFiles wGen (pass2 wFiles wGen (pass1 wFiles wGen wD0))) =
      wD4
    have p1 : pass1 wFiles wGen wD0 = wD1 := by decide
    have p2 : pass2 wFiles wGen wD1 = wD2 := by decide
    have p3 : pass3 wFiles wGen wD2 = wD3 := by decide
    have p4 : pass4 wFiles wGen wD3 = wD4 := by decide
    rw [p1, p2, p3, p4]
  have eid : generate_id (wGen 0) = chars "000000000000000000000000" := by decide
  rw [e, eid, countOcc_eq_countOccB]
  have hc : countOccB (chars "000000000000000000000000") wD4 = 3 := by decide
  exact ⟨hc, by rw [hc]; decide⟩

/-- C3 (amended): on a canonical document whose four anchors each occur exactly
once at their substitution stage, whose pieces contain no 24-character
uppercase-hex run, with distinct hex-free paths and pairwise-distinct drawn
identifiers, the file-reference identifier of the i-th path appears exactly
THREE times in the output: in its file-reference entry, in its group-children
entry, and in the fileRef field of its build-file entry. -/
theorem claim_C3_amended (files : List (List Char)) (gen : Nat → List Nat)
    (s0 s1 s2 s3 s4 s5 s6 : List Char) (i : Nat) (hi : i < files.length)
    (hnd : files.Nodup)
    (hfree : ∀ q ∈ files, hexFree q = true)
    (hlen : ∀ j, j < 2 * files.length → (generate_id (gen j)).length = 24)
    (hdist : ∀ j1, j1 < 2 * files.length → ∀ j2, j2 < 2 * files.length → j1 ≠ j2 →
      generate_id (gen j1) ≠ generate_id (gen j2))
    (hs0 : hexFree s0 = true) (hs1 : hexFree s1 = true) (hs2 : hexFree s2 = true)
    (hs3 : hexFree s3 = true) (hs4 : hexFree s4 = true) (hs5 : hexFree s5 = true)
    (hs6 : hexFree s6 = true)
    (h1 : countOcc anchorBuild (pbx0 s0 s1 s2 s3 s4 s5 s6) = 1)
    (h2 : countOcc anchorFileRef (pbx1 files gen s0 s1 s2 s3 s4 s5 s6) = 1)
    (h3 : countOcc groupLit1 (pbx2 files gen s0 s1 s2 s3 s4 s5 s6) = 1)
    (h3g : ∀ j, j < s3.length →
      ¬ occAt groupLit2 (s3 ++ (groupLit2 ++ (s4 ++ (sourcesLit1 ++ (s5 ++
        (sourcesLit2 ++ s6)))))) j)
    (h4 : countOcc sourcesLit1 (pbx3 files gen s0 s1 s2 s3 s4 s5 s6) = 1)
    (h4g : ∀ j, j < s5.length → ¬ occAt sourcesLit2 (s5 ++ (sourcesLit2 ++ s6)) j) :
    countOcc (generate_id (gen (2 * i)))
      ((add_files_to_project (pbx0 s0 s1 s2 s3 s4 s5 s6) files gen).content) = 3 := by
  rw [run_canonical files gen s0 s1 s2 s3 s4 s5 s6 h1 h2 h3 h3g h4 h4g]
  exact countOcc_fid_pbx4 files gen s0 s1 s2 s3 s4 s5 s6 i hi hnd hfree hlen hdist
    hs0 hs1 hs2 hs3 hs4 hs5 hs6

set_option maxRecDepth 200000 in
set_option maxHeartbeats 4000000 in
/-- Witness for the amended C3 on the concrete small descriptor. -/
theorem claim_C3_amended_witness :
    0 < wFiles.length ∧
    countOcc (generate_id (wGen (2 * 0)))
      ((add_files_to_project (pbx0 w0 w1 w2 w3 w4 w5 w6) wFiles wGen).content) = 3 := by
  have e0 : pbx0 w0 w1 w2 w3 w4 w5 w6 = wD0 := by decide
  have e1 : pbx1 wFiles wGen w0 w1 w2 w3 w4 w5 w6 = wD1 := by decide
  have e2 : pbx2 wFiles wGen w0 w1 w2 w3 w4 w5 w6 = wD2 := by decide
  have e3 : pbx3 wFiles wGen w0 w1 w2 w3 w4 w5 w6 = wD3 := by decide
  refine ⟨by decide, claim_C3_amended wFiles wGen w0 w1 w2 w3 w4 w5 w6 0 (by decide)
    (by decide) (by decide) (by decide) (by decide) (by decide) (by decide) (by decide)
    (by decide) (by decide) (by decide) (by decide) ?_ ?_ ?_ ?_ ?_ ?_⟩
  · rw [e0, countOcc_eq_countOccB]
    decide
  · rw [e1, countOcc_eq_countOccB]
    decide
  · rw [e2, countOcc_eq_countOccB]
    decide
  · decide
  · rw [e3, countOcc_eq_countOccB]
    decide
  · decide

/-- C6: on a canonical document whose four anchors each occur exactly once at
their substitution stage, whose pieces contain no 24-character uppercase-hex
run, with distinct hex-free paths and pairwise-distinct drawn identifiers, the
build-file identifier of the i-th path appears exactly two times in the
output: in its build-file entry and in its Sources-build-phase entry. -/
theorem claim_C6 (files : List (List Char)) (gen : Nat → List Nat)
    (s0 s1 s2 s3 s4 s5 s6 : List Char) (i : Nat) (hi : i < files.length)
    (hnd : files.Nodup)
    (hfree : ∀ q ∈ files, hexFree q = true)
    (hlen : ∀ j, j < 2 * files.length → (generate_id (gen j)).length = 24)
    (hdist : ∀ j1, j1 < 2 * files.length → ∀ j2, j2 < 2 * files.length → j1 ≠ j2 →
      generate_id (gen j1) ≠ generate_id (gen j2))
    (hs0 : hexFree s0 = true) (hs1 : hexFree s1 = true) (hs2 : hexFree s2 = true)
    (hs3 : hexFree s3 = true) (hs4 : hexFree s4 = true) (hs5 : hexFree s5 = true)
    (hs6 : hexFree s6 = true)
    (h1 : countOcc anchorBuild (pbx0 s0 s1 s2 s3 s4 s5 s6) = 1)
    (h2 : countOcc anchorFileRef (pbx1 files gen s0 s1 s2 s3 s4 s5 s6) = 1)
    (h3 : countOcc groupLit1 (pbx2 files gen s0 s1 s2 s3 s4 s5 s6) = 1)
    (h3g : ∀ j, j < s3.length →
      ¬ occAt groupLit2 (s3 ++ (groupLit2 ++ (s4 ++ (sourcesLit1 ++ (s5 ++
        (sourcesLit2 ++ s6)))))) j)
    (h4 : countOcc sourcesLit1 (pbx3 files gen s0 s1 s2 s3 s4 s5 s6) = 1)
    (h4g : ∀ j, j < s5.length → ¬ occAt sourcesLit2 (s5 ++ (sourcesLit2 ++ s6)) j) :
    countOcc (generate_id (gen (2 * i + 1)))
      ((add_files_to_project (pbx0 s0 s1 s2 s3 s4 s5 s6) files gen).content) = 2 := by
  rw [run_canonical files gen s0 s1 s2 s3 s4 s5 s6 h1 h2 h3 h3g h4 h4g]
  exact countOcc_bid_pbx4 files gen s0 s1 s2 s3 s4 s5 s6 i hi hnd hfree hlen hdist
    hs0 hs1 hs2 hs3 hs4 hs5 hs6

set_option maxRecDepth 200000 in
set_option maxHeartbeats 4000000 in
/-- Witness for C6 on the concrete small descriptor. -/
theorem claim_C6_witness :
    0 < wFiles.length ∧
    countOcc (generate_id (wGen (2 * 0 + 1)))
      ((add_files_to_project (pbx0 w0 w1 w2 w3 w4 w5 w6) wFiles wGen).content) = 2 := by
  have e0 : pbx0 w0 w1 w2 w3 w4 w5 w6 = wD0 := by decide
  have e1 : pbx1 wFiles wGen w0 w1 w2 w3 w4 w5 w6 = wD1 := by decide
  have e2 : pbx2 wFiles wGen w0 w1 w2 w3 w4 w5 w6 = wD2 := by decide
  have e3 : pbx3 wFiles wGen w0 w1 w2 w3 w4 w5 w6 = wD3 := by decide
  refine ⟨by decide, claim_C6 wFiles wGen w0 w1 w2 w3 w4 w5 w6 0 (by decide)
    (by decide) (by decide) (by decide) (by decide) (by decide) (by decide) (by decide)
    (by decide) (by decide) (by decide) (by decide) ?_ ?_ ?_ ?_ ?_ ?_⟩
  · rw [e0, countOcc_eq_countOccB]
    decide
  · rw [e1, countOcc_eq_countOccB]
    decide
  · rw [e2, countOcc_eq_countOccB]
    decide
  · decide
  · rw [e3, countOcc_eq_countOccB]
    decide
  · decide

theorem occursIn_append_left (pat x s : List Char) (h : occursIn pat s) :
    occursIn pat (x ++ s) := by
  obtain ⟨u, v, hs⟩ := h
  exact ⟨x ++ u, v, by rw [hs, List.append_assoc]⟩

theorem occursIn_append_right (pat s y : List Char) (h : occursIn pat s) :
    occursIn pat (s ++ y) := by
  obtain ⟨u, v, hs⟩ := h
  exact ⟨u, v ++ y, by rw [hs]; simp [List.append_assoc]⟩

theorem occursIn_catAll_mem (pat x : List Char) :
    ∀ ps : List (List Char), x ∈ ps → occursIn pat x → occursIn pat (catAll ps) := by
  intro ps
  induction ps with
  | nil => intro hx; simp at hx
  | cons a rest ih =>
    intro hx h
    rcases List.mem_cons.mp hx with he | he
    · show occursIn pat (a ++ catAll rest)
      rw [← he]
      exact occursIn_append_right pat x _ h
    · show occursIn pat (a ++ catAll rest)
      exact occursIn_append_left pat a _ (ih he h)

theorem joinSepNl_occursIn :
    ∀ (es : List (List Char)) (i : Nat) (hi : i < es.length),
      occursIn (es[i]) (joinSep nlC es ++ nlC) := by
  intro es
  induction es with
  | nil => intro i hi; simp at hi
  | cons e rest ih =>
    intro i hi
    cases i with
    | zero =>
      simp only [List.getElem_cons_zero]
      obtain ⟨r, hr⟩ := joinSep_cons_append nlC e nlC rest
      rw [hr]
      exact ⟨[], r, by simp⟩
    | succ j =>
      cases rest with
      | nil => simp at hi
      | cons e2 rest2 =>
        simp only [List.getElem_cons_succ]
        have hj : j < (e2 :: rest2).length := by
          simp only [List.length_cons] at hi ⊢
          omega
        have hsplit : joinSep nlC (e :: e2 :: rest2) ++ nlC =
            (e ++ nlC) ++ (joinSep nlC (e2 :: rest2) ++ nlC) := by
          show e ++ nlC ++ joinSep nlC (e2 :: rest2) ++ nlC = _
          simp [List.append_assoc]
        rw [hsplit]
        exact occursIn_append_left _ _ _ (ih j hj)

theorem flatten_occursIn :
    ∀ (es : List (List Char)) (i : Nat) (hi : i < es.length),
      occursIn (es[i]) es.flatten := by
  intro es
  induction es with
  | nil => intro i hi; simp at hi
  | cons e rest ih =>
    intro i hi
    cases i with
    | zero =>
      simp only [List.getElem_cons_zero, List.flatten_cons]
      exact ⟨[], rest.flatten, by simp⟩
    | succ j =>
      have hj : j < rest.length := by
        simp only [List.length_cons] at hi
        omega
      simp only [List.getElem_cons_succ, List.flatten_cons]
      exact occursIn_append_left _ e _ (ih j hj)

theorem buildFileEntry_in_buildInsert (files : List (List Char)) (gen : Nat → List Nat)
    (i : Nat) (hi : i < files.length) (hnd : files.Nodup) :
    occursIn
      (buildFileEntry files[i] (generate_id (gen (2 * i + 1))) (generate_id (gen (2 * i))))
      (buildInsert files gen) := by
  rw [buildInsert_norm files gen hnd]
  have h := joinSepNl_occursIn (buildEntriesN gen files 0) i
    (by rw [buildEntriesN_length]; exact hi)
  rw [buildEntriesN_getElem gen files 0 i hi] at h
  simpa [Nat.zero_add] using h

theorem fileRefEntry_in_fileRefInsert (files : List (List Char)) (gen : Nat → List Nat)
    (i : Nat) (hi : i < files.length) (hnd : files.Nodup) :
    occursIn (fileRefEntry files[i] (generate_id (gen (2 * i))))
      (fileRefInsert files gen) := by
  rw [fileRefInsert_norm files gen hnd]
  have h := joinSepNl_occursIn (fileRefEntriesN gen files 0) i
    (by rw [fileRefEntriesN_length]; exact hi)
  rw [fileRefEntriesN_getElem gen files 0 i hi] at h
  simpa [Nat.zero_add] using h

theorem groupEntry_in_groupInsert (files : List (List Char)) (gen : Nat → List Nat)
    (i : Nat) (hi : i < files.length) (hnd : files.Nodup) :
    occursIn (groupEntry files[i] (generate_id (gen (2 * i)))) (groupInsert files gen) := by
  rw [groupInsert_norm files gen hnd]
  have h := flatten_occursIn (groupEntriesN gen files 0) i
    (by rw [groupEntriesN_length]; exact hi)
  rw [groupEntriesN_getElem gen files 0 i hi] at h
  simpa [Nat.zero_add] using h

theorem sourceEntry_in_sourcesInsert (files : List (List Char)) (gen : Nat → List Nat)
    (i : Nat) (hi : i < files.length) (hnd : files.Nodup) :
    occursIn (sourceEntry files[i] (generate_id (gen (2 * i + 1))))
      (sourcesInsert files gen) := by
  rw [sourcesInsert_norm files gen hnd]
  have h := flatten_occursIn (sourceEntriesN gen files 0) i
    (by rw [sourceEntriesN_length]; exact hi)
  rw [sourceEntriesN_getElem gen files 0 i hi] at h
  simpa [Nat.zero_add] using h

theorem pbx4_as_pbx0 (files : List (List Char)) (gen : Nat → List Nat)
    (s0 s1 s2 s3 s4 s5 s6 : List Char) :
    pbx4 files gen s0 s1 s2 s3 s4 s5 s6 =
      pbx0 (s0 ++ buildInsert files gen) (s1 ++ fileRefInsert files gen) s2 s3
        (groupInsert files gen ++ s4) s5 (sourcesInsert files gen ++ s6) := by
  simp [pbx4, pbx0, List.append_assoc]

theorem append_id_ne (pre a b x y : List Char) (hlen : a.length = b.length)
    (hne : a ≠ b) : pre ++ (a ++ x) ≠ pre ++ (b ++ y) := by
  intro h
  exact hne (List.append_inj (List.append_inj h rfl).2 hlen).1

theorem buildFileEntry_ne (fp bid1 fid1 bid2 fid2 : List Char)
    (hlen : bid1.length = bid2.length) (hne : bid1 ≠ bid2) :
    buildFileEntry fp bid1 fid1 ≠ buildFileEntry fp bid2 fid2 := by
  have e1 : buildFileEntry fp bid1 fid1 = tab2 ++ (bid1 ++ (cmtOpen ++ (filename fp ++
      (bfMid ++ (fid1 ++ (cmtOpen ++ (filename fp ++ bfEnd))))))) := by
    simp [buildFileEntry, List.append_assoc]
  have e2 : buildFileEntry fp bid2 fid2 = tab2 ++ (bid2 ++ (cmtOpen ++ (filename fp ++
      (bfMid ++ (fid2 ++ (cmtOpen ++ (filename fp ++ bfEnd))))))) := by
    simp [buildFileEntry, List.append_assoc]
  rw [e1, e2]
  exact append_id_ne tab2 bid1 bid2 _ _ hlen hne

theorem fileRefEntry_ne (fp fid1 fid2 : List Char)
    (hlen : fid1.length = fid2.length) (hne : fid1 ≠ fid2) :
    fileRefEntry fp fid1 ≠ fileRefEntry fp fid2 := by
  have e1 : fileRefEntry fp fid1 = tab2 ++ (fid1 ++ (cmtOpen ++ (filename fp ++
      (frMid ++ (fp ++ frEnd))))) := by
    simp [fileRefEntry, List.append_assoc]
  have e2 : fileRefEntry fp fid2 = tab2 ++ (fid2 ++ (cmtOpen ++ (filename fp ++
      (frMid ++ (fp ++ frEnd))))) := by
    simp [fileRefEntry, List.append_assoc]
  rw [e1, e2]
  exact append_id_ne tab2 fid1 fid2 _ _ hlen hne

theorem groupEntry_ne (fp fid1 fid2 : List Char)
    (hlen : fid1.length = fid2.length) (hne : fid1 ≠ fid2) :
    groupEntry fp fid1 ≠ groupEntry fp fid2 := by
  have e1 : groupEntry fp fid1 = nlTabs ++ (fid1 ++ (cmtOpen ++ (filename fp ++ gEnd))) := by
    simp [groupEntry, List.append_assoc]
  have e2 : groupEntry fp fid2 = nlTabs ++ (fid2 ++ (cmtOpen ++ (filename fp ++ gEnd))) := by
    simp [groupEntry, List.append_assoc]
  rw [e1, e2]
  exact append_id_ne nlTabs fid1 fid2 _ _ hlen hne

theorem sourceEntry_ne (fp bid1 bid2 : List Char)
    (hlen : bid1.length = bid2.length) (hne : bid1 ≠ bid2) :
    sourceEntry fp bid1 ≠ sourceEntry fp bid2 := by
  have e1 : sourceEntry fp bid1 = nlTabs ++ (bid1 ++ (cmtOpen ++ (filename fp ++ sEnd))) := by
    simp [sourceEntry, List.append_assoc]
  have e2 : sourceEntry fp bid2 = nlTabs ++ (bid2 ++ (cmtOpen ++ (filename fp ++ sEnd))) := by
    simp [sourceEntry, List.append_assoc]
  rw [e1, e2]
  exact append_id_ne nlTabs bid1 bid2 _ _ hlen hne

/-- C7: the operation is not idempotent. Running it twice on a canonical
document (anchors occurring exactly once at every substitution stage of both
runs) yields, for each input path, duplicate entries in all four sections: the
output of the second run contains the build-file, file-reference,
group-children and Sources-phase entries of BOTH runs, and when the second
run draws different identifiers the two entries of each section differ. -/
theorem claim_C7 (files : List (List Char)) (gen gen2 : Nat → List Nat)
    (s0 s1 s2 s3 s4 s5 s6 : List Char) (i : Nat) (hi : i < files.length)
    (hnd : files.Nodup)
    (hlen1 : (generate_id (gen (2 * i))).length = 24)
    (hlen2 : (generate_id (gen2 (2 * i))).length = 24)
    (hlen3 : (generate_id (gen (2 * i + 1))).length = 24)
    (hlen4 : (generate_id (gen2 (2 * i + 1))).length = 24)
    (hfid : generate_id (gen2 (2 * i)) ≠ generate_id (gen (2 * i)))
    (hbid : generate_id (gen2 (2 * i + 1)) ≠ generate_id (gen (2 * i + 1)))
    (h1 : countOcc anchorBuild (pbx0 s0 s1 s2 s3 s4 s5 s6) = 1)
    (h2 : countOcc anchorFileRef (pbx1 files gen s0 s1 s2 s3 s4 s5 s6) = 1)
    (h3 : countOcc groupLit1 (pbx2 files gen s0 s1 s2 s3 s4 s5 s6) = 1)
    (h3g : ∀ j, j < s3.length →
      ¬ occAt groupLit2 (s3 ++ (groupLit2 ++ (s4 ++ (sourcesLit1 ++ (s5 ++
        (sourcesLit2 ++ s6)))))) j)
    (h4 : countOcc sourcesLit1 (pbx3 files gen s0 s1 s2 s3 s4 s5 s6) = 1)
    (h4g : ∀ j, j < s5.length → ¬ occAt sourcesLit2 (s5 ++ (sourcesLit2 ++ s6)) j)
    (g1 : countOcc anchorBuild (pbx0 (s0 ++ buildInsert files gen)
      (s1 ++ fileRefInsert files gen) s2 s3 (groupInsert files gen ++ s4) s5
      (sourcesInsert files gen ++ s6)) = 1)
    (g2 : countOcc anchorFileRef (pbx1 files gen2 (s0 ++ buildInsert files gen)
      (s1 ++ fileRefInsert files gen) s2 s3 (groupInsert files gen ++ s4) s5
      (sourcesInsert files gen ++ s6)) = 1)
    (g3 : countOcc groupLit1 (pbx2 files gen2 (s0 ++ buildInsert files gen)
      (s1 ++ fileRefInsert files gen) s2 s3 (groupInsert files gen ++ s4) s5
      (sourcesInsert files gen ++ s6)) = 1)
    (g3g : ∀ j, j < s3.length →
      ¬ occAt groupLit2 (s3 ++ (groupLit2 ++ ((groupInsert files gen ++ s4) ++
        (sourcesLit1 ++ (s5 ++ (sourcesLit2 ++ (sourcesInsert files gen ++ s6))))))) j)
    (g4 : countOcc sourcesLit1 (pbx3 files gen2 (s0 ++ buildInsert files gen)
      (s1 ++ fileRefInsert files gen) s2 s3 (groupInsert files gen ++ s4) s5
      (sourcesInsert files gen ++ s6)) = 1)
    (g4g : ∀ j, j < s5.length →
      ¬ occAt sourcesLit2 (s5 ++ (sourcesLit2 ++ (sourcesInsert files gen ++ s6))) j) :
    occursIn (buildFileEntry files[i] (generate_id (gen (2 * i + 1)))
        (generate_id (gen (2 * i))))
      ((add_files_to_project ((add_files_to_project (pbx0 s0 s1 s2 s3 s4 s5 s6)
        files gen).content) files gen2).content) ∧
    occursIn (buildFileEntry files[i] (generate_id (gen2 (2 * i + 1)))
        (generate_id (gen2 (2 * i))))
      ((add_files_to_project ((add_files_to_project (pbx0 s0 s1 s2 s3 s4 s5 s6)
        files gen).content) files gen2).content) ∧
    buildFileEntry files[i] (generate_id (gen (2 * i + 1))) (generate_id (gen (2 * i))) ≠
      buildFileEntry files[i] (generate_id (gen2 (2 * i + 1))) (generate_id (gen2 (2 * i))) ∧
    occursIn (fileRefEntry files[i] (generate_id (gen (2 * i))))
      ((add_files_to_project ((add_files_to_project (pbx0 s0 s1 s2 s3 s4 s5 s6)
        files gen).content) files gen2).content) ∧
    occursIn (fileRefEntry files[i] (generate_id (gen2 (2 * i))))
      ((add_files_to_project ((add_files_to_project (pbx0 s0 s1 s2 s3 s4 s5 s6)
        files gen).content) files gen2).content) ∧
    fileRefEntry files[i] (generate_id (gen (2 * i))) ≠
      fileRefEntry files[i] (generate_id (gen2 (2 * i))) ∧
    occursIn (groupEntry files[i] (generate_id (gen (2 * i))))
      ((add_files_to_project ((add_files_to_project (pbx0 s0 s1 s2 s3 s4 s5 s6)
        files gen).content) files gen2).content) ∧
    occursIn (groupEntry files[i] (generate_id (gen2 (2 * i))))
      ((add_files_to_project ((add_files_to_project (pbx0 s0 s1 s2 s3 s4 s5 s6)
        files gen).content) files gen2).content) ∧
    groupEntry files[i] (generate_id (gen (2 * i))) ≠
      groupEntry files[i] (generate_id (gen2 (2 * i))) ∧
    occursIn (sourceEntry files[i] (generate_id (gen (2 * i + 1))))
      ((add_files_to_project ((add_files_to_project (pbx0 s0 s1 s2 s3 s4 s5 s6)
        files gen).content) files gen2).content) ∧
    occursIn (sourceEntry files[i] (generate_id (gen2 (2 * i + 1))))
      ((add_files_to_project ((add_files_to_project (pbx0 s0 s1 s2 s3 s4 s5 s6)
        files gen).content) files gen2).content) ∧
    sourceEntry files[i] (generate_id (gen (2 * i + 1))) ≠
      sourceEntry files[i] (generate_id (gen2 (2 * i + 1))) := by
  have hout1 : (add_files_to_project (pbx0 s0 s1 s2 s3 s4 s5 s6) files gen).content =
      pbx4 files gen s0 s1 s2 s3 s4 s5 s6 :=
    run_canonical files gen s0 s1 s2 s3 s4 s5 s6 h1 h2 h3 h3g h4 h4g
  have hout2 : (add_files_to_project ((add_files_to_project (pbx0 s0 s1 s2 s3 s4 s5 s6)
      files gen).content) files gen2).content =
      pbx4 files gen2 (s0 ++ buildInsert files gen) (s1 ++ fileRefInsert files gen) s2 s3
        (groupInsert files gen ++ s4) s5 (sourcesInsert files gen ++ s6) := by
    rw [hout1, pbx4_as_pbx0 files gen s0 s1 s2 s3 s4 s5 s6]
    exact run_canonical files gen2 _ _ s2 s3 _ s5 _ g1 g2 g3 g3g g4 g4g
  rw [hout2, pbx4_catAll files gen2 _ _ s2 s3 _ s5 _]
  refine ⟨?_, ?_, ?_, ?_, ?_, ?_, ?_, ?_, ?_, ?_, ?_, ?_⟩
  · exact occursIn_catAll_mem _ (s0 ++ buildInsert files gen) _ (by simp)
      (occursIn_append_left _ s0 _ (buildFileEntry_in_buildInsert files gen i hi hnd))
  · exact occursIn_catAll_mem _ (buildInsert files gen2) _ (by simp)
      (buildFileEntry_in_buildInsert files gen2 i hi hnd)
  · exact buildFileEntry_ne files[i] _ _ _ _ (hlen3.trans hlen4.symm) hbid.symm
  · exact occursIn_catAll_mem _ (s1 ++ fileRefInsert files gen) _ (by simp)
      (occursIn_append_left _ s1 _ (fileRefEntry_in_fileRefInsert files gen i hi hnd))
  · exact occursIn_catAll_mem _ (fileRefInsert files gen2) _ (by simp)
      (fileRefEntry_in_fileRefInsert files gen2 i hi hnd)
  · exact fileRefEntry_ne files[i] _ _ (hlen1.trans hlen2.symm) hfid.symm
  · exact occursIn_catAll_mem _ (groupInsert files gen ++ s4) _ (by simp)
      (occursIn_append_right _ _ s4 (groupEntry_in_groupInsert files gen i hi hnd))
  · exact occursIn_catAll_mem _ (groupInsert files gen2) _ (by simp)
      (groupEntry_in_groupInsert files gen2 i hi hnd)
  · exact groupEntry_ne files[i] _ _ (hlen1.trans hlen2.symm) hfid.symm
  · exact occursIn_catAll_mem _ (sourcesInsert files gen ++ s6) _ (by simp)
      (occursIn_append_right _ _ s6 (sourceEntry_in_sourcesInsert files gen i hi hnd))
  · exact occursIn_catAll_mem _ (sourcesInsert files gen2) _ (by simp)
      (sourceEntry_in_sourcesInsert files gen2 i hi hnd)
  · exact sourceEntry_ne files[i] _ _ (hlen3.trans hlen4.symm) hbid.symm

set_option maxRecDepth 400000 in
set_option maxHeartbeats 4000000 in
/-- Witness for C7: two consecutive runs on the concrete small descriptor. -/
theorem claim_C7_witness :
    0 < wFiles.length ∧
    (occursIn (buildFileEntry wFiles[0] (generate_id (wGen (2 * 0 + 1)))
        (generate_id (wGen (2 * 0))))
      ((add_files_to_project ((add_files_to_project (pbx0 w0 w1 w2 w3 w4 w5 w6)
        wFiles wGen).content) wFiles wGen2).content) ∧
    occursIn (buildFileEntry wFiles[0] (generate_id (wGen2 (2 * 0 + 1)))
        (generate_id (wGen2 (2 * 0))))
      ((add_files_to_project ((add_files_to_project (pbx0 w0 w1 w2 w3 w4 w5 w6)
        wFiles wGen).content) wFiles wGen2).content) ∧
    buildFileEntry wFiles[0] (generate_id (wGen (2 * 0 + 1))) (generate_id (wGen (2 * 0))) ≠
      buildFileEntry wFiles[0] (generate_id (wGen2 (2 * 0 + 1)))
        (generate_id (wGen2 (2 * 0))) ∧
    occursIn (fileRefEntry wFiles[0] (generate_id (wGen (2 * 0))))
      ((add_files_to_project ((add_files_to_project (pbx0 w0 w1 w2 w3 w4 w5 w6)
        wFiles wGen).content) wFiles wGen2).content) ∧
    occursIn (fileRefEntry wFiles[0] (generate_id (wGen2 (2 * 0))))
      ((add_files_to_project ((add_files_to_project (pbx0 w0 w1 w2 w3 w4 w5 w6)
        wFiles wGen).content) wFiles wGen2).content) ∧
    fileRefEntry wFiles[0] (generate_id (wGen (2 * 0))) ≠
      fileRefEntry wFiles[0] (generate_id (wGen2 (2 * 0))) ∧
    occursIn (groupEntry wFiles[0] (generate_id (wGen (2 * 0))))
      ((add_files_to_project ((add_files_to_project (pbx0 w0 w1 w2 w3 w4 w5 w6)
        wFiles wGen).content) wFiles wGen2).content) ∧
    occursIn (groupEntry wFiles[0] (generate_id (wGen2 (2 * 0))))
      ((add_files_to_project ((add_files_to_project (pbx0 w0 w1 w2 w3 w4 w5 w6)
        wFiles wGen).content) wFiles wGen2).content) ∧
    groupEntry wFiles[0] (generate_id (wGen (2 * 0))) ≠
      groupEntry wFiles[0] (generate_id (wGen2 (2 * 0))) ∧
    occursIn (sourceEntry wFiles[0] (generate_id (wGen (2 * 0 + 1))))
      ((add_files_to_project ((add_files_to_project (pbx0 w0 w1 w2 w3 w4 w5 w6)
        wFiles wGen).content) wFiles wGen2).content) ∧
    occursIn (sourceEntry wFiles[0] (generate_id (wGen2 (2 * 0 + 1))))
      ((add_files_to_project ((add_files_to_project (pbx0 w0 w1 w2 w3 w4 w5 w6)
        wFiles wGen).content) wFiles wGen2).content) ∧
    sourceEntry wFiles[0] (generate_id (wGen (2 * 0 + 1))) ≠
      sourceEntry wFiles[0] (generate_id (wGen2 (2 * 0 + 1)))) := by
  have e0 : pbx0 w0 w1 w2 w3 w4 w5 w6 = wD0 := by decide
  have e1 : pbx1 wFiles wGen w0 w1 w2 w3 w4 w5 w6 = wD1 := by decide
  have e2 : pbx2 wFiles wGen w0 w1 w2 w3 w4 w5 w6 = wD2 := by decide
  have e3 : pbx3 wFiles wGen w0 w1 w2 w3 w4 w5 w6 = wD3 := by decide
  have f0 : pbx0 (w0 ++ buildInsert wFiles wGen) (w1 ++ fileRefInsert wFiles wGen) w2 w3
      (groupInsert wFiles wGen ++ w4) w5 (sourcesInsert wFiles wGen ++ w6) = wD4 := by
    decide
  have f1 : pbx1 wFiles wGen2 (w0 ++ buildInsert wFiles wGen)
      (w1 ++ fileRefInsert wFiles wGen) w2 w3 (groupInsert wFiles wGen ++ w4) w5
      (sourcesInsert wFiles wGen ++ w6) = wF1 := by decide
  have f2 : pbx2 wFiles wGen2 (w0 ++ buildInsert wFiles wGen)
      (w1 ++ fileRefInsert wFiles wGen) w2 w3 (groupInsert wFiles wGen ++ w4) w5
      (sourcesInsert wFiles wGen ++ w6) = wF2 := by decide
  have f3 : pbx3 wFiles wGen2 (w0 ++ buildInsert wFiles wGen)
      (w1 ++ fileRefInsert wFiles wGen) w2 w3 (groupInsert wFiles wGen ++ w4) w5
      (sourcesInsert wFiles wGen ++ w6) = wF3 := by decide
  refine ⟨by decide, claim_C7 wFiles wGen wGen2 w0 w1 w2 w3 w4 w5 w6 0 (by decide)
    (by decide) (by decide) (by decide) (by decide) (by decide) (by decide) (by decide)
    ?_ ?_ ?_ ?_ ?_ ?_ ?_ ?_ ?_ ?_ ?_ ?_⟩
  · rw [e0, countOcc_eq_countOccB]
    decide
  · rw [e1, countOcc_eq_countOccB]
    decide
  · rw [e2, countOcc_eq_countOccB]
    decide
  · decide
  · rw [e3, countOcc_eq_countOccB]
    decide
  · decide
  · rw [f0, countOcc_eq_countOccB]
    decide
  · rw [f1, countOcc_eq_countOccB]
    decide
  · rw [f2, countOcc_eq_countOccB]
    decide
  · decide
  · rw [f3, countOcc_eq_countOccB]
    decide
  · decide

theorem noOcc_of_B {pat s : List Char} {n : Nat} (h : noOccB pat s n = true) :
    ∀ i, i < n → ¬ occAt pat s i := by
  intro i hi hocc
  have h2 := List.all_eq_true.mp h i (List.mem_range.mpr hi)
  rw [Bool.not_eq_true'] at h2
  exact Bool.noConfusion (hocc.symm.trans h2)

theorem noOcc_all_of_B {pat u : List Char} (hne : pat ≠ [])
    (h : noOccB pat u (u.length + 1) = true) : ∀ i, ¬ occAt pat u i := by
  intro i hocc
  have hi : i < u.length := occAt_lt hne hocc
  exact noOcc_of_B h i (by omega) hocc

theorem subAfterPair_first (lit1 lit2 ins a g b : List Char)
    (hne1 : lit1 ≠ []) (hne2 : lit2 ≠ [])
    (hfirst : ∀ i, i < a.length → ¬ occAt lit1 (a ++ (lit1 ++ (g ++ (lit2 ++ b)))) i)
    (hg : ∀ j, j < g.length → ¬ occAt lit2 (g ++ (lit2 ++ b)) j) :
    subAfterPair lit1 lit2 ins (a ++ (lit1 ++ (g ++ (lit2 ++ b)))) =
      a ++ (lit1 ++ (g ++ (lit2 ++ (ins ++ subAfterPair lit1 lit2 ins b)))) := by
  obtain ⟨f2, hf2, heq⟩ := subAfterPairAux_first lit1 lit2 ins g b hne1 hne2 hg a
    (a ++ (lit1 ++ (g ++ (lit2 ++ b)))).length (le_refl _) hfirst
  rw [subAfterPair, heq,
    subAfterPairAux_congr lit1 lit2 ins f2 b.length b hf2 (le_refl _)]
  rfl

theorem subBefore_global (pat ins : List Char) (hne : pat ≠ []) :
    ∀ us : List (List Char), interOKB pat us = true →
      subBefore pat ins (interleave pat us) = interleave (ins ++ pat) us := by
  intro us
  induction us with
  | nil =>
    intro _
    show subBefore pat ins [] = []
    refine subBefore_noOcc pat ins [] ?_
    intro i hocc
    have := occAt_lt hne hocc
    simp at this
  | cons u us ih =>
    intro h
    cases us with
    | nil =>
      show subBefore pat ins u = u
      exact subBefore_noOcc pat ins u (noOcc_all_of_B hne h)
    | cons u2 us2 =>
      have h' : (noOccB pat (u ++ pat ++ interleave pat (u2 :: us2)) u.length &&
          interOKB pat (u2 :: us2)) = true := h
      rw [Bool.and_eq_true] at h'
      have e1 : interleave pat (u :: u2 :: us2) =
          u ++ (pat ++ interleave pat (u2 :: us2)) := by
        show (u ++ pat) ++ interleave pat (u2 :: us2) = _
        simp [List.append_assoc]
      have hfirst : ∀ i, i < u.length →
          ¬ occAt pat (u ++ (pat ++ interleave pat (u2 :: us2))) i := by
        intro i hi hocc
        refine noOcc_of_B h'.1 i hi ?_
        have e2 : u ++ pat ++ interleave pat (u2 :: us2) =
            u ++ (pat ++ interleave pat (u2 :: us2)) := by
          simp [List.append_assoc]
        rw [e2]
        exact hocc
      rw [e1, subBefore_first pat ins u (interleave pat (u2 :: us2)) hne hfirst,
        ih h'.2]
      show _ = (u ++ (ins ++ pat)) ++ interleave (ins ++ pat) (u2 :: us2)
      simp [List.append_assoc]

theorem subAfterPair_global (lit1 lit2 ins : List Char)
    (hne1 : lit1 ≠ []) (hne2 : lit2 ≠ []) :
    ∀ (segs : List (List Char × List Char)) (tail : List Char),
      pairRepOKB lit1 lit2 tail segs = true →
      subAfterPair lit1 lit2 ins (pairRep lit1 lit2 tail segs) =
        pairRepIns lit1 lit2 ins tail segs := by
  intro segs
  induction segs with
  | nil =>
    intro tail h
    show subAfterPair lit1 lit2 ins tail = tail
    exact subAfterPair_noOcc lit1 lit2 ins tail (noOcc_all_of_B hne1 h)
  | cons vg rest ih =>
    intro tail h
    obtain ⟨v, g⟩ := vg
    have h' : (noOccB lit1 (v ++ lit1 ++ g ++ lit2 ++ pairRep lit1 lit2 tail rest)
          v.length &&
        (noOccB lit2 (g ++ lit2 ++ pairRep lit1 lit2 tail rest) g.length &&
          pairRepOKB lit1 lit2 tail rest)) = true := h
    rw [Bool.and_eq_true, Bool.and_eq_true] at h'
    have e1 : pairRep lit1 lit2 tail ((v, g) :: rest) =
        v ++ (lit1 ++ (g ++ (lit2 ++ pairRep lit1 lit2 tail rest))) := by
      show v ++ lit1 ++ g ++ lit2 ++ pairRep lit1 lit2 tail rest = _
      simp [List.append_assoc]
    have hfirst : ∀ i, i < v.length →
        ¬ occAt lit1 (v ++ (lit1 ++ (g ++ (lit2 ++ pairRep lit1 lit2 tail rest)))) i := by
      intro i hi hocc
      refine noOcc_of_B h'.1 i hi ?_
      have e2 : v ++ lit1 ++ g ++ lit2 ++ pairRep lit1 lit2 tail rest =
          v ++ (lit1 ++ (g ++ (lit2 ++ pairRep lit1 lit2 tail rest))) := by
        simp [List.append_assoc]
      rw [e2]
      exact hocc
    have hg : ∀ j, j < g.length →
        ¬ occAt lit2 (g ++ (lit2 ++ pairRep lit1 lit2 tail rest)) j := by
      intro j hj hocc
      refine noOcc_of_B h'.2.1 j hj ?_
      have e3 : g ++ lit2 ++ pairRep lit1 lit2 tail rest =
          g ++ (lit2 ++ pairRep lit1 lit2 tail rest) := by
        simp [List.append_assoc]
      rw [e3]
      exact hocc
    rw [e1, subAfterPair_first lit1 lit2 ins v g (pairRep lit1 lit2 tail rest)
      hne1 hne2 hfirst hg, ih tail h'.2.2]
    show _ = v ++ lit1 ++ g ++ lit2 ++ ins ++ pairRepIns lit1 lit2 ins tail rest
    simp [List.append_assoc]

/-- C2 (amended): each of the four insertions uses a single substitution
call, but the call is global (re.sub with the default count): EVERY textual
match of the anchor pattern receives the inserted lines, for any number of
matches.  The two end-of-section passes rewrite every occurrence of their
literal anchor to insert-plus-anchor, and the two header-plus-list-opener
passes place the insert after the list opener of every match; later
occurrences are NOT left unchanged. -/
theorem claim_C2_amended :
    (∀ (files : List (List Char)) (gen : Nat → List Nat) (us : List (List Char)),
      interOKB anchorBuild us = true →
        pass1 files gen (interleave anchorBuild us) =
          interleave (buildInsert files gen ++ anchorBuild) us) ∧
    (∀ (files : List (List Char)) (gen : Nat → List Nat) (us : List (List Char)),
      interOKB anchorFileRef us = true →
        pass2 files gen (interleave anchorFileRef us) =
          interleave (fileRefInsert files gen ++ anchorFileRef) us) ∧
    (∀ (files : List (List Char)) (gen : Nat → List Nat) (tail : List Char)
      (segs : List (List Char × List Char)),
      pairRepOKB groupLit1 groupLit2 tail segs = true →
        pass3 files gen (pairRep groupLit1 groupLit2 tail segs) =
          pairRepIns groupLit1 groupLit2 (groupInsert files gen) tail segs) ∧
    (∀ (files : List (List Char)) (gen : Nat → List Nat) (tail : List Char)
      (segs : List (List Char × List Char)),
      pairRepOKB sourcesLit1 sourcesLit2 tail segs = true →
        pass4 files gen (pairRep sourcesLit1 sourcesLit2 tail segs) =
          pairRepIns sourcesLit1 sourcesLit2 (sourcesInsert files gen) tail segs) :=
  ⟨fun files gen us h =>
      subBefore_global anchorBuild (buildInsert files gen) anchorBuild_ne_nil us h,
   fun files gen us h =>
      subBefore_global anchorFileRef (fileRefInsert files gen) anchorFileRef_ne_nil us h,
   fun files gen tail segs h =>
      subAfterPair_global groupLit1 groupLit2 (groupInsert files gen)
        groupLit1_ne_nil groupLit2_ne_nil segs tail h,
   fun files gen tail segs h =>
      subAfterPair_global sourcesLit1 sourcesLit2 (sourcesInsert files gen)
        sourcesLit1_ne_nil sourcesLit2_ne_nil segs tail h⟩

set_option maxRecDepth 200000 in
/-- Witness for the amended C2: all four passes on concrete documents with
three (pass1), two (pass2) and two (passes 3 and 4) matches. -/
theorem claim_C2_amended_witness :
    (interOKB anchorBuild [chars "AA", chars "BB", chars "CC", chars "DD"] = true ∧
      pass1 wFiles wGen
          (interleave anchorBuild [chars "AA", chars "BB", chars "CC", chars "DD"]) =
        interleave (buildInsert wFiles wGen ++ anchorBuild)
          [chars "AA", chars "BB", chars "CC", chars "DD"]) ∧
    (interOKB anchorFileRef [chars "EE", chars "FF", chars "GG"] = true ∧
      pass2 wFiles wGen (interleave anchorFileRef [chars "EE", chars "FF", chars "GG"]) =
        interleave (fileRefInsert wFiles wGen ++ anchorFileRef)
          [chars "EE", chars "FF", chars "GG"]) ∧
    (pairRepOKB groupLit1 groupLit2 (chars "TT")
        [(chars "AA", chars "GG"), (chars "BB", chars "HH")] = true ∧
      pass3 wFiles wGen (pairRep groupLit1 groupLit2 (chars "TT")
          [(chars "AA", chars "GG"), (chars "BB", chars "HH")]) =
        pairRepIns groupLit1 groupLit2 (groupInsert wFiles wGen) (chars "TT")
          [(chars "AA", chars "GG"), (chars "BB", chars "HH")]) ∧
    (pairRepOKB sourcesLit1 sourcesLit2 (chars "UU")
        [(chars "MM", chars "NN"), (chars "PP", chars "QQ")] = true ∧
      pass4 wFiles wGen (pairRep sourcesLit1 sourcesLit2 (chars "UU")
          [(chars "MM", chars "NN"), (chars "PP", chars "QQ")]) =
        pairRepIns sourcesLit1 sourcesLit2 (sourcesInsert wFiles wGen) (chars "UU")
          [(chars "MM", chars "NN"), (chars "PP", chars "QQ")]) :=
  ⟨⟨by decide, claim_C2_amended.1 wFiles wGen
      [chars "AA", chars "BB", chars "CC", chars "DD"] (by decide)⟩,
   ⟨by decide, claim_C2_amended.2.1 wFiles wGen
      [chars "EE", chars "FF", chars "GG"] (by decide)⟩,
   ⟨by decide, claim_C2_amended.2.2.1 wFiles wGen (chars "TT")
      [(chars "AA", chars "GG"), (chars "BB", chars "HH")] (by decide)⟩,
   ⟨by decide, claim_C2_amended.2.2.2 wFiles wGen (chars "UU")
      [(chars "MM", chars "NN"), (chars "PP", chars "QQ")] (by decide)⟩⟩
